import Mathlib

/-!
# Polyglot wrapper writers

A shallow embedding of the two wrapper writers of Polyglot
(`core/DWrapperWriter.cpp`, the indentation-nested D backend, and
`src/core/RustWrapperWriter.cpp`, the flat block-bracketed Rust backend),
followed by theorems about the namespace organizer, the type and value
tables and the emission loops.

Conventions of the embedding:

* a function that can `throw` returns `Except Error _`; text written to the
  stream before a `throw` is not part of the result;
* a `std::stack` is a list whose head is the top of the stack;
* the output stream is a list of `Piece`s: the text of one or several
  consecutive `out <<` statements together with a `Mark` recording which
  statement of the source wrote it. The stream content is `render`.
-/

namespace polyglot

/-! ## Data model -/

/-- Modelled from the spec: the enumeration `Type` is declared in a header
that is not among the source files; these are the tags the specification
lists, under the names the two writers switch over. -/
inductive Type_ where
  | Bool | Void | Char | Char16 | Char32
  | Int8 | Int16 | Int32 | Int64 | Int128
  | Uint8 | Uint16 | Uint32 | Uint64 | Uint128
  | Float32 | Float64 | Float128
  | Enum | Class | CppStdString | Undefined
  deriving DecidableEq, Repr

/-- Failures raised by the writers. The source throws `std::runtime_error`
with a message; the constructors carry the names the specification gives to
these failures. `BadVariantAccess` is what `std::get` throws when the
alternative held by a `Value` is not the one asked for. -/
inductive Error where
  /-- "Enum or class name was not provided to ...". -/
  | MissingTypeName
  /-- "Undefined type in ...::getTypeString()". -/
  | UnsupportedType
  /-- "Enum or class expressions are not yet supported here" and
  "Bad or unsupported type in ...::getValueString()". -/
  | UnsupportedValueKind
  /-- "Node claimed to be ..., but cast failed". -/
  | CorruptAST
  | BadVariantAccess
  deriving DecidableEq, Repr

/-- Modelled from the spec: the structure `QualifiedType` is declared in a
header that is not among the source files; a base tag, three qualifiers and
a name. The two writers were written against two revisions of the
declaration: the D writer reads `nameString` as a `std::string`
(`ν = String`, tested with `empty()`), the Rust writer as a
`std::optional<std::string>` (`ν = Option String`, tested with
`has_value()`). -/
structure QualifiedType (ν : Type) where
  baseType : Type_
  isConst : Bool := false
  isReference : Bool := false
  isPointer : Bool := false
  nameString : ν
  deriving DecidableEq, Repr

/-- Modelled from the spec: the `std::variant` held by a `Value` is declared
in a header that is not among the source files; its alternatives are the
types `getValueString` asks `std::get` for. A `char` is a signed 8-bit
quantity, `char16_t` and `char32_t` are unsigned, a `double` is kept as its
IEEE-754 binary64 bit pattern. -/
inductive Payload where
  | bool (b : Bool)
  | char (c : Int)
  | char16 (c : Nat)
  | char32 (c : Nat)
  | int64 (i : Int)
  | uint64 (u : Nat)
  | double (bits : Nat)
  | string (s : String)
  deriving DecidableEq, Repr

/-- Modelled from the spec: the structure `Value` is declared in a header
that is not among the source files; a type tag and the payload. -/
structure Value where
  type : Type_
  value : Payload
  deriving DecidableEq, Repr

/-- The payload alternative that `getValueString` reads under each tag. -/
def Value.tagMatchesPayload (v : Value) : Bool :=
  match v.type, v.value with
  | .Bool, .bool _ => true
  | .Char, .char _ => true
  | .Char16, .char16 _ => true
  | .Char32, .char32 _ => true
  | .Int8, .int64 _ | .Int16, .int64 _ | .Int32, .int64 _ | .Int64, .int64 _ => true
  | .Uint8, .uint64 _ | .Uint16, .uint64 _ | .Uint32, .uint64 _ | .Uint64, .uint64 _ => true
  | .Float32, .double _ | .Float64, .double _ => true
  | .CppStdString, .string _ => true
  | _, _ => false

/-- Modelled from the spec: the structure `Namespace` is declared in a header
that is not among the source files; a name and the enclosing namespace
(`parentNamespace` is `nullptr` for a top-level namespace). -/
inductive Namespace where
  | mk (name : String) (parentNamespace : Option Namespace)
  deriving Repr

/-- The names of a namespace chain, innermost first, in the order the loop
`for (ns = node->cppNamespace; ns != nullptr; ns = ns->parentNamespace)`
visits them. -/
def Namespace.chain : Namespace → List String
  | .mk name none => [name]
  | .mk name (some parent) => name :: parent.chain

/-- Modelled from the spec: the parameter and member structures are declared
in a header that is not among the source files; type, name, optional default
value. -/
structure Parameter (ν : Type) where
  type : QualifiedType ν
  name : String
  value : Option Value := none
  deriving Repr

/-- Modelled from the spec: `FunctionNode` is declared in a header that is not
among the source files; the fields are those the writers read. -/
structure FunctionNode (ν : Type) where
  functionName : String
  mangledName : String
  returnType : QualifiedType ν
  parameters : List (Parameter ν) := []
  isVirtual : Bool := false
  isNoreturn : Bool := false
  deriving Repr

/-- Modelled from the spec: an enumerator of an `EnumNode`, a name and an
optional literal value. -/
structure Enumerator where
  name : String
  value : Option Value := none
  deriving Repr

/-- Modelled from the spec: `EnumNode` is declared in a header that is not
among the source files; the fields are those the writers read. -/
structure EnumNode where
  enumName : String
  enumerators : List Enumerator := []
  deriving Repr

/-- Modelled from the spec: a constructor of a `ClassNode`, with its own
mangled name and parameter list. -/
structure Constructor (ν : Type) where
  mangledName : String
  parameters : List (Parameter ν) := []
  deriving Repr

/-- Modelled from the spec: the destructor of a `ClassNode`. -/
structure Destructor where
  mangledName : String
  deriving Repr

/-- Modelled from the spec: the enumeration `ClassNode::Type`, class or
struct. -/
inductive ClassType where
  | Class | Struct
  deriving DecidableEq, Repr

/-- Modelled from the spec: `ClassNode` is declared in a header that is not
among the source files; the fields are those the D writer reads. -/
structure ClassNode (ν : Type) where
  type : ClassType
  name : String
  constructors : List (Constructor ν) := []
  destructor : Option Destructor := none
  methods : List (FunctionNode ν) := []
  members : List (Parameter ν) := []
  deriving Repr

/-- Modelled from the spec: the enumeration `ASTNodeType` is declared in a
header that is not among the source files; these are the kinds the writers
compare the result of `nodeType()` with. -/
inductive ASTNodeType where
  | Undefined | Function | Enum | Class
  deriving DecidableEq, Repr

/-- Modelled from the spec: the dynamic type of a node, which `dynamic_cast`
inspects; `other` is a node that is none of the three declaration classes. -/
inductive NodeData (ν : Type) where
  | function (f : FunctionNode ν)
  | enum (e : EnumNode)
  | class_ (c : ClassNode ν)
  | other
  deriving Repr

/-- Modelled from the spec: `ASTNode` is declared in a header that is not
among the source files. A declaration as the writers see it: the kind it
reports, its namespace (`nullptr` is `none`) and the object behind the
pointer. -/
structure ASTNode (ν : Type) where
  nodeType : ASTNodeType
  cppNamespace : Option Namespace := none
  data : NodeData ν
  deriving Repr

/-- Result of `dynamic_cast<FunctionNode *>(node)`. -/
def ASTNode.asFunction {ν : Type} (node : ASTNode ν) : Option (FunctionNode ν) :=
  match node.data with
  | .function f => some f
  | _ => none

/-- Result of `dynamic_cast<EnumNode *>(node)`. -/
def ASTNode.asEnum {ν : Type} (node : ASTNode ν) : Option EnumNode :=
  match node.data with
  | .enum e => some e
  | _ => none

/-- Result of `dynamic_cast<ClassNode *>(node)`. -/
def ASTNode.asClass {ν : Type} (node : ASTNode ν) : Option (ClassNode ν) :=
  match node.data with
  | .class_ c => some c
  | _ => none

/-- Modelled from the spec: the enumeration `Language` is declared in a
header that is not among the source files; the writers only compare against
`Language::Cpp`, so every other enumerator is `Other`. -/
inductive Language where
  | Cpp | Other
  deriving DecidableEq, Repr

/-- Modelled from the spec: `AST` is declared in a header that is not among
the source files; input language, module name and the flat list of
declarations. -/
structure AST (ν : Type) where
  language : Language
  moduleName : String
  nodes : List (ASTNode ν)
  deriving Repr

/-! ## Output stream -/

/-- Which statement of the source wrote a piece of output. -/
inductive Mark where
  /-- The file header written at the top of `write`. -/
  | header
  /-- Rust: the line that opens a linkage block. -/
  | blockOpen
  /-- Rust: the line that closes a linkage block, written before a node that
  is not a function and at the end of input. -/
  | blockClose
  /-- D: the line break written before a declaration. -/
  | separator
  /-- D: the line break written after a declaration. -/
  | terminator
  /-- The line of a free function. -/
  | function
  /-- The block of an enum. -/
  | enumDecl
  /-- D: the block of a class. -/
  | classDecl
  /-- D: the two lines opening a namespace scope. -/
  | scopeOpen
  /-- D: the line closing a namespace scope. -/
  | scopeClose
  /-- D: the line break written before each child namespace. -/
  | childSeparator
  deriving DecidableEq, Repr

/-- A piece of output: its text and the statement that wrote it. -/
structure Piece where
  mark : Mark
  text : String
  deriving DecidableEq, Repr

/-- The content of the stream. -/
def render (pieces : List Piece) : String :=
  String.join (pieces.map Piece.text)

/-! ## Standard library functions used by the writers -/

/-- `std::string(n, '\t')`. -/
def tabs (n : Nat) : String := String.mk (List.replicate n '\t')

/-- `s.size() - k` in `size_t` arithmetic (64 bits, wrapping). -/
def sizeMinus (s : String) (k : Nat) : Nat :=
  (s.length + 18446744073709551616 - k) % 18446744073709551616

/-- `s.substr(0, n)`: at most `n` characters from the start of `s`. -/
def substr0 (s : String) (n : Nat) : String := String.mk (s.data.take n)

/-- `std::to_string` on a signed integer. -/
def to_string_int (x : Int) : String :=
  if x < 0 then "-" ++ Nat.repr x.natAbs else Nat.repr x.natAbs

/-- `std::to_string` on an unsigned integer. -/
def to_string_nat (x : Nat) : String := Nat.repr x

/-- Six decimal digits, zero padded. -/
def pad6 (n : Nat) : String :=
  let s := Nat.repr n
  String.mk (List.replicate (6 - s.length) '0') ++ s

/-- `std::to_string` on a `double`, which formats as `printf("%f")`: the
exact value rounded to six decimals, ties to even. -/
def to_string_double (bits : Nat) : String :=
  let sign := bits / 9223372036854775808 % 2
  let e := bits / 4503599627370496 % 2048
  let m := bits % 4503599627370496
  let s := if sign = 1 then "-" else ""
  if e = 2047 then
    if m = 0 then s ++ "inf" else s ++ "nan"
  else
    let mant := if e = 0 then m else 4503599627370496 + m
    let ex := if e = 0 then 1 else e
    let num := mant * 1000000 * 2 ^ (ex - 1075)
    let den := 2 ^ (1075 - ex)
    let q := num / den
    let r := num % den
    let q1 := if den < 2 * r ∨ (2 * r = den ∧ q % 2 = 1) then q + 1 else q
    s ++ Nat.repr (q1 / 1000000) ++ "." ++ pad6 (q1 % 1000000)

/-- `std::get<bool>`. -/
def Payload.getBool : Payload → Except Error Bool
  | .bool b => .ok b
  | _ => .error .BadVariantAccess

/-- `std::get<char>`. -/
def Payload.getChar : Payload → Except Error Int
  | .char c => .ok c
  | _ => .error .BadVariantAccess

/-- `std::get<char16_t>`. -/
def Payload.getChar16 : Payload → Except Error Nat
  | .char16 c => .ok c
  | _ => .error .BadVariantAccess

/-- `std::get<char32_t>`. -/
def Payload.getChar32 : Payload → Except Error Nat
  | .char32 c => .ok c
  | _ => .error .BadVariantAccess

/-- `std::get<int64_t>`. -/
def Payload.getInt64 : Payload → Except Error Int
  | .int64 i => .ok i
  | _ => .error .BadVariantAccess

/-- `std::get<uint64_t>`. -/
def Payload.getUint64 : Payload → Except Error Nat
  | .uint64 u => .ok u
  | _ => .error .BadVariantAccess

/-- `std::get<double>`. -/
def Payload.getDouble : Payload → Except Error Nat
  | .double d => .ok d
  | _ => .error .BadVariantAccess

/-- `std::get<std::string>`. -/
def Payload.getString : Payload → Except Error String
  | .string s => .ok s
  | _ => .error .BadVariantAccess

/-! ## Type and value tables -/

namespace DWrapperWriter

/-- `DWrapperWriter::getTypeString`. -/
def getTypeString (type : QualifiedType String) : Except Error String := do
  let mut typeString := ""
  if type.isConst then
    typeString := typeString ++ "const "
  if type.isReference then
    typeString := typeString ++ "ref "
  match type.baseType with
  | .Bool => typeString := typeString ++ "bool"
  | .Void => typeString := typeString ++ "void"
  | .Char => typeString := typeString ++ "char"
  | .Char16 => typeString := typeString ++ "wchar"
  | .Char32 => typeString := typeString ++ "dchar"
  | .Int8 => typeString := typeString ++ "byte"
  | .Int16 => typeString := typeString ++ "short"
  | .Int32 => typeString := typeString ++ "int"
  | .Int64 => typeString := typeString ++ "long"
  | .Int128 => typeString := typeString ++ "cent"
  | .Uint8 => typeString := typeString ++ "ubyte"
  | .Uint16 => typeString := typeString ++ "ushort"
  | .Uint32 => typeString := typeString ++ "uint"
  | .Uint64 => typeString := typeString ++ "ulong"
  | .Uint128 => typeString := typeString ++ "ucent"
  | .Float32 => typeString := typeString ++ "float"
  | .Float64 => typeString := typeString ++ "double"
  | .Float128 => typeString := typeString ++ "real"
  | .Enum | .Class =>
    if type.nameString = "" then
      throw Error.MissingTypeName
    else
      typeString := typeString ++ type.nameString
  | .CppStdString => typeString := typeString ++ "basic_string"
  | .Undefined => throw Error.UnsupportedType
  if type.isPointer then
    typeString := typeString ++ " *"
  return typeString

/-- `DWrapperWriter::getValueString`. -/
def getValueString (value : Value) : Except Error String :=
  match value.type with
  | .Bool => do return to_string_int (if (← value.value.getBool) then 1 else 0)
  | .Char => do return to_string_int (← value.value.getChar)
  | .Char16 => do return to_string_int (← value.value.getChar16)
  | .Char32 => do return to_string_nat (← value.value.getChar32)
  | .Int8 | .Int16 | .Int32 | .Int64 => do return to_string_int (← value.value.getInt64)
  | .Uint8 | .Uint16 | .Uint32 | .Uint64 => do return to_string_nat (← value.value.getUint64)
  | .Float32 | .Float64 => do return to_string_double (← value.value.getDouble)
  | .Enum | .Class => throw Error.UnsupportedValueKind
  | .CppStdString => value.value.getString
  | .Int128 | .Uint128 | .Float128 | .Void | .Undefined => throw Error.UnsupportedValueKind

end DWrapperWriter

namespace RustWrapperWriter

/-- `RustWrapperWriter::getTypeString`. The cases for `Char`, `Char16` and
`Float128` are commented out in the source and fall to `default`. -/
def getTypeString (type : QualifiedType (Option String)) : Except Error String := do
  let mut typeString := ""
  if type.isConst then
    typeString := typeString ++ "const "
  if type.isReference then
    typeString := typeString ++ "ref "
  match type.baseType with
  | .Bool => typeString := typeString ++ "bool"
  | .Void => typeString := typeString ++ "void"
  | .Char32 => typeString := typeString ++ "char"
  | .Int8 => typeString := typeString ++ "i8"
  | .Int16 => typeString := typeString ++ "i16"
  | .Int32 => typeString := typeString ++ "i32"
  | .Int64 => typeString := typeString ++ "i64"
  | .Int128 => typeString := typeString ++ "i128"
  | .Uint8 => typeString := typeString ++ "u8"
  | .Uint16 => typeString := typeString ++ "u16"
  | .Uint32 => typeString := typeString ++ "u32"
  | .Uint64 => typeString := typeString ++ "u64"
  | .Uint128 => typeString := typeString ++ "u128"
  | .Float32 => typeString := typeString ++ "f32"
  | .Float64 => typeString := typeString ++ "f64"
  | .Enum | .Class =>
    match type.nameString with
    | some name => typeString := typeString ++ name
    | none => throw Error.MissingTypeName
  | .CppStdString => typeString := typeString ++ "basic_string"
  | _ => throw Error.UnsupportedType
  if type.isPointer then
    typeString := typeString ++ " *"
  return typeString

/-- `RustWrapperWriter::getValueString`. -/
def getValueString (value : Value) : Except Error String :=
  match value.type with
  | .Bool => do return to_string_int (if (← value.value.getBool) then 1 else 0)
  | .Char => do return to_string_int (← value.value.getChar)
  | .Char16 => do return to_string_int (← value.value.getChar16)
  | .Char32 => do return to_string_nat (← value.value.getChar32)
  | .Int8 | .Int16 | .Int32 | .Int64 => do return to_string_int (← value.value.getInt64)
  | .Uint8 | .Uint16 | .Uint32 | .Uint64 => do return to_string_nat (← value.value.getUint64)
  | .Float32 | .Float64 => do return to_string_double (← value.value.getDouble)
  | .Enum | .Class => throw Error.UnsupportedValueKind
  | .CppStdString => value.value.getString
  | .Int128 | .Uint128 | .Float128 | .Void | .Undefined => throw Error.UnsupportedValueKind

end RustWrapperWriter

/-! ## The flat block-bracketed writer -/

namespace RustWrapperWriter

/-- The parameter loop of `write`: `params` is the string built so far. -/
def writeParams : List (Parameter (Option String)) → String → Except Error String
  | [], params => .ok params
  | param :: rest, params => do
    let typeString ← getTypeString param.type
    writeParams rest (params ++ (param.name ++ ": " ++ typeString ++ ", "))

/-- The enumerator loop of `write`, one line per enumerator. -/
def writeEnumerators : List Enumerator → Except Error String
  | [] => .ok ""
  | enumerator :: rest => do
    let mut line := "\t" ++ enumerator.name
    if let some value := enumerator.value then
      line := line ++ (" = " ++ (← getValueString value))
    line := line ++ ",\n"
    return line ++ (← writeEnumerators rest)

/-- The body of the loop of `write` for one node. -/
def writeNode (previousNodeType : ASTNodeType) (node : ASTNode (Option String)) :
    Except Error (List Piece) :=
  if node.nodeType = ASTNodeType.Function then
    match node.asFunction with
    | none => throw Error.CorruptAST
    | some function => do
      let opening : List Piece :=
        if previousNodeType ≠ ASTNodeType.Function then [⟨Mark.blockOpen, "\nextern \x7b\n"⟩] else []
      let mut line := "\t#[link_name = \"" ++ function.mangledName ++ "\"] pub fn "
        ++ function.functionName ++ "("
      let params ← writeParams function.parameters ""
      line := line ++ (substr0 params (sizeMinus params 2) ++ ")")
      if function.returnType.baseType ≠ Type_.Void then
        line := line ++ " -> " ++ (← getTypeString function.returnType)
      line := line ++ ";\n"
      return opening ++ [⟨Mark.function, line⟩]
  else do
    let closing : List Piece :=
      if previousNodeType = ASTNodeType.Function then [⟨Mark.blockClose, "\x7d\n\n"⟩] else []
    if node.nodeType = ASTNodeType.Enum then
      match node.asEnum with
      | none => throw Error.CorruptAST
      | some e =>
        let enumerators ← writeEnumerators e.enumerators
        return closing ++ [⟨Mark.enumDecl,
          "#[repr(C)]\npub enum " ++ e.enumName ++ "\n\x7b\n" ++ enumerators ++ "\x7d\n"⟩]
    else
      return closing

/-- The loop of `write` over `ast.nodes` and the statement after it. -/
def writeNodes : ASTNodeType → List (ASTNode (Option String)) → Except Error (List Piece)
  | previousNodeType, [] =>
    .ok (if previousNodeType = ASTNodeType.Function then [⟨Mark.blockClose, "\x7d\n"⟩] else [])
  | previousNodeType, node :: rest => do
    let here ← writeNode previousNodeType node
    let after ← writeNodes node.nodeType rest
    return here ++ after

/-- The header text. The format string has three replacement fields and is
given four arguments: version, time, module name and `"C++"`. -/
def header (POLYGLOT_VERSION timeStr moduleName : String) : String :=
  "// *** WARNING: autogenerated file, do not modify. Changes will be overwritten. ***\n"
    ++ "// Generated by Polyglot version " ++ POLYGLOT_VERSION ++ " at "
    ++ substr0 timeStr (sizeMinus timeStr 1) ++ ".\n"
    ++ "// This file contains symbols that have been exported from " ++ moduleName
    ++ " into Rust.\n"

/-- `RustWrapperWriter::write`. `POLYGLOT_VERSION` is the constant of
`Utils`, `timeStr` the result of `std::asctime`. -/
def write (POLYGLOT_VERSION timeStr : String) (ast : AST (Option String)) :
    Except Error (List Piece) := do
  let body ← writeNodes ASTNodeType.Undefined ast.nodes
  return ⟨Mark.header, header POLYGLOT_VERSION timeStr ast.moduleName⟩ :: body

end RustWrapperWriter

/-! ## The header of the scanner's Rust generator -/

namespace RustGen

/-- `RustGen::getRustFileHeader` of `cppscanner/RustGen.cpp`; `none` is the
`std::runtime_error` thrown for an empty module name. The format string has
two replacement fields and is given three arguments: version, time and
module name. -/
def getRustFileHeader (POLYGLOT_VERSION timeStr moduleName : String) : Option String :=
  if moduleName.length ≤ 0 then
    none
  else
    some ("// *** WARNING: autogenerated file, do not modify. Changes will be overwritten. ***\n"
      ++ "// Generated by Polyglot version " ++ POLYGLOT_VERSION ++ " at "
      ++ substr0 timeStr (sizeMinus timeStr 1) ++ ".\n"
      ++ "// This file contains symbols that have been exported from other languages into Rust.")

end RustGen

/-! ## The namespace organizer -/

/-- The name of a namespace. -/
def Namespace.name : Namespace → String
  | .mk name _ => name

/-- Modelled from the spec: `NamespaceOrganizer` is declared in a header that
is not among the source files. A node of the namespace tree: its namespace,
the child namespaces and the declarations attached at this level (the tree
owns its children, so they are kept by value). -/
inductive NamespaceOrganizer where
  | mk (currentNamespace : Namespace) (childNamespaces : List NamespaceOrganizer)
      (childNodes : List (ASTNode String))
  deriving Repr

namespace NamespaceOrganizer

def currentNamespace : NamespaceOrganizer → Namespace
  | .mk ns _ _ => ns

def childNamespaces : NamespaceOrganizer → List NamespaceOrganizer
  | .mk _ cs _ => cs

def childNodes : NamespaceOrganizer → List (ASTNode String)
  | .mk _ _ nodes => nodes

/-- A default-constructed organizer: empty name, no children. -/
def empty : NamespaceOrganizer := .mk (.mk "" none) [] []

/-- A `new NamespaceOrganizer` whose namespace name is then set to `name`. -/
def fresh (name : String) : NamespaceOrganizer := .mk (.mk name none) [] []

end NamespaceOrganizer

/-- Modelled from the spec: the class `DWrapperWriter` is declared in a header
that is not among the source files; these are the two data members that
`write` reads and updates. -/
structure DWrapperWriter where
  m_namespaceOrganizer : NamespaceOrganizer := NamespaceOrganizer.empty
  m_indentationDepth : Nat := 0
  deriving Repr

namespace DWrapperWriter

/-- The stack `namespaces` after the loop that pushes the names of the chain
starting at `cppNamespace`; the head is the top. -/
def namespaceStack (cppNamespace : Namespace) : List String :=
  cppNamespace.chain.foldl (fun stack name => name :: stack) []

/-- One round of the `while` loop of `write` on the child list of `ns`: the
first child named `top` is entered; when there is none a new child is pushed
at the back and entered. `continue_` is what the rest of the loop does to the
node entered. -/
def enterChild (top : String) (continue_ : NamespaceOrganizer → NamespaceOrganizer) :
    List NamespaceOrganizer → List NamespaceOrganizer
  | [] => [continue_ (NamespaceOrganizer.fresh top)]
  | child :: rest =>
    if child.currentNamespace.name = top then continue_ child :: rest
    else child :: enterChild top continue_ rest

/-- The `while (!namespaces.empty())` loop of `write` followed by
`ns->childNodes.push_back(node)`, as an update of the tree rooted at `ns`. -/
def attach (node : ASTNode String) : List String → NamespaceOrganizer → NamespaceOrganizer
  | [], .mk ns children nodes => .mk ns children (nodes ++ [node])
  | top :: namespaces, .mk ns children nodes =>
    .mk ns (enterChild top (attach node namespaces) children) nodes

/-- The body of the loop of `write` over `ast.nodes` for one node. -/
def organizeNode (organizer : NamespaceOrganizer) (node : ASTNode String) : NamespaceOrganizer :=
  match node.cppNamespace with
  | none => attach node [] organizer
  | some cppNamespace => attach node (namespaceStack cppNamespace) organizer

/-- The loop of `write` over `ast.nodes`, started on the organizer
`organizer`. -/
def organize (organizer : NamespaceOrganizer) (nodes : List (ASTNode String)) :
    NamespaceOrganizer :=
  nodes.foldl organizeNode organizer

/-! ## The indentation-nested writer -/

/-- The parameter loop shared by `writeFunctionString` and the constructor
loop: `params` is the string built so far. -/
def writeParams : List (Parameter String) → String → Except Error String
  | [], params => .ok params
  | param :: rest, params => do
    let mut params := params ++ ((← getTypeString param.type) ++ " " ++ param.name)
    if let some value := param.value then
      params := params ++ (" = " ++ (← getValueString value))
    writeParams rest (params ++ ", ")

/-- The lambda `writeFunctionString`; `m_indentationDepth` is the depth when
it is called. -/
def writeFunctionString (language : Language) (m_indentationDepth : Nat)
    (function : FunctionNode String) (isClassMethod : Bool) : Except Error String := do
  let mut out := tabs m_indentationDepth
  if language ≠ Language.Cpp then
    out := out ++ ("pragma(mangle, \"" ++ function.mangledName ++ "\") ")
  if isClassMethod && !function.isVirtual then
    out := out ++ "final "
  let returnType ← if function.isNoreturn then pure "noreturn" else getTypeString function.returnType
  out := out ++ returnType ++ " " ++ function.functionName ++ "("
  let params ← writeParams function.parameters ""
  return out ++ (substr0 params (sizeMinus params 2) ++ ");")

/-- The enumerator loop, one line per enumerator. -/
def writeEnumerators (m_indentationDepth : Nat) : List Enumerator → Except Error String
  | [] => .ok ""
  | enumerator :: rest => do
    let mut line := tabs (m_indentationDepth + 1) ++ enumerator.name
    if let some value := enumerator.value then
      line := line ++ (" = " ++ (← getValueString value))
    line := line ++ ",\n"
    return line ++ (← writeEnumerators m_indentationDepth rest)

/-- The constructor loop of a class. -/
def writeConstructors (m_indentationDepth : Nat) : List (Constructor String) → Except Error String
  | [] => .ok ""
  | constructor :: rest => do
    let mut line := tabs m_indentationDepth
      ++ ("pragma(mangle, \"" ++ constructor.mangledName ++ "\") this(")
    let params ← writeParams constructor.parameters ""
    line := line ++ (substr0 params (sizeMinus params 2) ++ ");") ++ "\n"
    return line ++ (← writeConstructors m_indentationDepth rest)

/-- The method loop of a class. -/
def writeMethods (language : Language) (m_indentationDepth : Nat) :
    List (FunctionNode String) → Except Error String
  | [] => .ok ""
  | method :: rest => do
    let line ← writeFunctionString language m_indentationDepth method true
    return line ++ "\n" ++ (← writeMethods language m_indentationDepth rest)

/-- The member loop of a class. -/
def writeMembers (m_indentationDepth : Nat) : List (Parameter String) → Except Error String
  | [] => .ok ""
  | member :: rest => do
    let mut line := tabs m_indentationDepth ++ ((← getTypeString member.type) ++ " " ++ member.name)
    if let some value := member.value then
      line := line ++ " = " ++ (← getValueString value)
    line := line ++ ";\n"
    return line ++ (← writeMembers m_indentationDepth rest)

/-- The branch of the declaration loop for a class; returns the text and the
value of `m_indentationDepth` after it. -/
def writeClass (language : Language) (m_indentationDepth : Nat) (classNode : ClassNode String) :
    Except Error (String × Nat) := do
  let mut out := tabs m_indentationDepth
  if classNode.type = ClassType.Class then
    out := out ++ "class "
  else
    out := out ++ "struct "
  out := out ++ classNode.name ++ "\n" ++ tabs m_indentationDepth ++ "\x7b\n"
    ++ tabs m_indentationDepth ++ "public:\n"
  let mut depth := m_indentationDepth + 1
  out := out ++ (← writeConstructors depth classNode.constructors)
  if let some destructor := classNode.destructor then
    out := out ++ tabs depth ++ ("pragma(mangle, \"" ++ destructor.mangledName ++ "\") ")
      ++ "~this();\n"
  if !classNode.methods.isEmpty then
    out := out ++ "\n" ++ (← writeMethods language depth classNode.methods)
  if !classNode.members.isEmpty then
    out := out ++ "\n" ++ (← writeMembers depth classNode.members)
  depth := depth - 1
  out := out ++ tabs depth ++ "\x7d"
  return (out, depth)

/-- The three branches of the declaration loop for one node: the pieces
written and the value of `m_indentationDepth` afterwards. -/
def writeNode (language : Language) (m_indentationDepth : Nat) (node : ASTNode String) :
    Except Error (List Piece × Nat) :=
  if node.nodeType = ASTNodeType.Function then
    match node.asFunction with
    | none => throw Error.CorruptAST
    | some function => do
      let line ← writeFunctionString language m_indentationDepth function false
      return ([⟨Mark.function, line⟩], m_indentationDepth)
  else if node.nodeType = ASTNodeType.Enum then
    match node.asEnum with
    | none => throw Error.CorruptAST
    | some e => do
      let enumerators ← writeEnumerators m_indentationDepth e.enumerators
      return ([⟨Mark.enumDecl, tabs m_indentationDepth ++ "enum " ++ e.enumName ++ "\n"
        ++ tabs m_indentationDepth ++ "\x7b\n" ++ enumerators
        ++ tabs m_indentationDepth ++ "\x7d"⟩], m_indentationDepth)
  else if node.nodeType = ASTNodeType.Class then
    match node.asClass with
    | none => throw Error.CorruptAST
    | some classNode => do
      let (text, depth) ← writeClass language m_indentationDepth classNode
      return ([⟨Mark.classDecl, text⟩], depth)
  else
    return ([], m_indentationDepth)

/-- The test that guards the `out << "\n"` at the top of the declaration
loop. -/
def separatorNeeded (nodeType previousNodeType : ASTNodeType) : Bool :=
  nodeType != ASTNodeType.Function ||
    (previousNodeType != ASTNodeType.Function && previousNodeType != ASTNodeType.Undefined)

/-- The loop of `writeFromNamespaceOrganizer` over `organizer->childNodes`. -/
def writeChildNodes (language : Language) :
    ASTNodeType → List (ASTNode String) → Nat → Except Error (List Piece × Nat)
  | _, [], m_indentationDepth => .ok ([], m_indentationDepth)
  | previousNodeType, node :: rest, m_indentationDepth => do
    let separator : List Piece :=
      if separatorNeeded node.nodeType previousNodeType then [⟨Mark.separator, "\n"⟩] else []
    let (decl, depth) ← writeNode language m_indentationDepth node
    let (after, depth) ← writeChildNodes language node.nodeType rest depth
    return (separator ++ decl ++ [⟨Mark.terminator, "\n"⟩] ++ after, depth)

mutual
/-- `DWrapperWriter::writeFromNamespaceOrganizer`: the pieces written and the
value of `m_indentationDepth` afterwards. -/
def writeFromNamespaceOrganizer (language : Language) :
    NamespaceOrganizer → Nat → Except Error (List Piece × Nat)
  | .mk currentNamespace childNamespaces childNodes, m_indentationDepth => do
    let mut out : List Piece := []
    let mut depth := m_indentationDepth
    if language = Language.Cpp ∧ currentNamespace.name ≠ "" then
      out := out ++ [⟨Mark.scopeOpen, tabs depth ++ "extern(C++, " ++ currentNamespace.name ++ ")\n"
        ++ tabs depth ++ "\x7b\n"⟩]
      depth := depth + 1
    let (decls, depth1) ← writeChildNodes language ASTNodeType.Undefined childNodes depth
    out := out ++ decls
    let (children, depth2) ← writeChildNamespaces language childNamespaces depth1
    out := out ++ children
    depth := depth2
    if language = Language.Cpp ∧ currentNamespace.name ≠ "" then
      depth := depth - 1
      out := out ++ [⟨Mark.scopeClose, tabs depth ++ "\x7d\n"⟩]
    return (out, depth)
/-- The loop of `writeFromNamespaceOrganizer` over
`organizer->childNamespaces`. -/
def writeChildNamespaces (language : Language) :
    List NamespaceOrganizer → Nat → Except Error (List Piece × Nat)
  | [], m_indentationDepth => .ok ([], m_indentationDepth)
  | ns :: rest, m_indentationDepth => do
    let (here, depth) ← writeFromNamespaceOrganizer language ns m_indentationDepth
    let (after, depth) ← writeChildNamespaces language rest depth
    return (⟨Mark.childSeparator, "\n"⟩ :: here ++ after, depth)
end

/-- The header pieces: the formatted comment and module statement, the
linkage marker for C++ input, and a blank line. -/
def header (POLYGLOT_VERSION timeStr : String) (language : Language) (moduleName : String) :
    List Piece :=
  [⟨Mark.header,
      "// *** WARNING: autogenerated file, do not modify. Changes will be overwritten. ***\n"
      ++ "// Generated by Polyglot version " ++ POLYGLOT_VERSION ++ " at "
      ++ substr0 timeStr (sizeMinus timeStr 1) ++ ".\n"
      ++ "// This file contains symbols that have been exported from " ++ "C++" ++ " into D.\n"
      ++ "\nmodule " ++ moduleName ++ ";\n\n@nogc:\n"⟩]
    ++ (if language = Language.Cpp then [⟨Mark.header, "extern(C++):\n"⟩] else [])
    ++ [⟨Mark.header, "\n"⟩]

/-- `DWrapperWriter::write`: the pieces written and the writer afterwards.
`POLYGLOT_VERSION` is the constant of `Utils`, `timeStr` the result of
`std::asctime`. -/
def write (self : DWrapperWriter) (POLYGLOT_VERSION timeStr : String) (ast : AST String) :
    Except Error (List Piece × DWrapperWriter) := do
  let organizer := organize self.m_namespaceOrganizer ast.nodes
  let (body, depth) ← writeFromNamespaceOrganizer ast.language organizer self.m_indentationDepth
  return (header POLYGLOT_VERSION timeStr ast.language ast.moduleName ++ body,
    ⟨organizer, depth⟩)

end DWrapperWriter

/-! ## Definitions used to state the properties -/

deriving instance DecidableEq for Except

/-- The qualifiers around a base token: `const `, then `ref `, then the
token, then ` *`. -/
def qualified (isConst isReference isPointer : Bool) (base : String) : String :=
  (if isConst then "const " else "") ++ (if isReference then "ref " else "") ++ base
    ++ (if isPointer then " *" else "")

/-- The base type token of the D backend for each tag that has one. -/
def DWrapperWriter.baseToken (baseType : Type_) (nameString : String) : Option String :=
  match baseType with
  | .Bool => some "bool" | .Void => some "void"
  | .Char => some "char" | .Char16 => some "wchar" | .Char32 => some "dchar"
  | .Int8 => some "byte" | .Int16 => some "short" | .Int32 => some "int"
  | .Int64 => some "long" | .Int128 => some "cent"
  | .Uint8 => some "ubyte" | .Uint16 => some "ushort" | .Uint32 => some "uint"
  | .Uint64 => some "ulong" | .Uint128 => some "ucent"
  | .Float32 => some "float" | .Float64 => some "double" | .Float128 => some "real"
  | .Enum | .Class => if nameString = "" then none else some nameString
  | .CppStdString => some "basic_string"
  | .Undefined => none

/-- The base type token of the Rust backend for each tag that has one. -/
def RustWrapperWriter.baseToken (baseType : Type_) (nameString : Option String) : Option String :=
  match baseType with
  | .Bool => some "bool" | .Void => some "void"
  | .Char32 => some "char"
  | .Int8 => some "i8" | .Int16 => some "i16" | .Int32 => some "i32"
  | .Int64 => some "i64" | .Int128 => some "i128"
  | .Uint8 => some "u8" | .Uint16 => some "u16" | .Uint32 => some "u32"
  | .Uint64 => some "u64" | .Uint128 => some "u128"
  | .Float32 => some "f32" | .Float64 => some "f64"
  | .Enum | .Class => nameString
  | .CppStdString => some "basic_string"
  | .Char | .Char16 | .Float128 | .Undefined => none

/-- Reading decimal digits: `acc` is the number read so far; `none` when a
character is not a digit. -/
def readDigits : List Char → Nat → Option Nat
  | [], acc => some acc
  | c :: cs, acc => if c.isDigit then readDigits cs (acc * 10 + (c.toNat - 48)) else none

/-- A non-empty run of decimal digits read as a number. -/
def parseDecimal : List Char → Option Nat
  | [] => none
  | c :: cs => readDigits (c :: cs) 0

/-- Reading a decimal literal back as an unsigned 64-bit integer; `none`
when it is malformed or out of range. -/
def parseUint64 (s : String) : Option Nat :=
  (parseDecimal s.data).bind fun n => if n < 18446744073709551616 then some n else none

/-- Reading a decimal literal, with an optional leading minus sign, back as
a signed 64-bit integer; `none` when it is malformed or out of range. -/
def parseInt64 (s : String) : Option Int :=
  match s.data with
  | '-' :: cs =>
    (parseDecimal cs).bind fun n => if n ≤ 9223372036854775808 then some (-(n : Int)) else none
  | cs =>
    (parseDecimal cs).bind fun n => if n < 9223372036854775808 then some (n : Int) else none

/-- The linkage-block markers of a stream, in order. -/
def blockMarkers (pieces : List Piece) : List Mark :=
  (pieces.map Piece.mark).filter fun m => m = Mark.blockOpen ∨ m = Mark.blockClose

/-- For each declaration terminator of a stream, in order: was a separator
written since the previous terminator (`seen` is the answer so far for the
declaration being read). -/
def separatorFlags : List Piece → Bool → List Bool
  | [], _ => []
  | piece :: rest, seen =>
    if piece.mark = Mark.terminator then seen :: separatorFlags rest false
    else if piece.mark = Mark.separator then separatorFlags rest true
    else separatorFlags rest seen

/-- The adjacency rule as the specification words it: a blank line before
every declaration unless it and the one before it are both functions. -/
def separatorClaimed (current : ASTNodeType) (previous : Option ASTNodeType) : Bool :=
  !(current = ASTNodeType.Function && previous = some ASTNodeType.Function)

/-- The adjacency rule of the declaration loop: a blank line before every
node that is not a function, and before a function only when there is a
node before it whose kind is neither function nor undefined. -/
def separatorRule (current : ASTNodeType) (previous : Option ASTNodeType) : Bool :=
  match current, previous with
  | .Function, none => false
  | .Function, some .Function => false
  | .Function, some .Undefined => false
  | _, _ => true

/-- The kinds of the nodes before each node of a list (`none` for the
first). -/
def previousTypes {ν : Type} (nodes : List (ASTNode ν)) : List (Option ASTNodeType) :=
  none :: nodes.map fun node => some node.nodeType

/-- The namespace path of a declaration, outermost first; empty for a
declaration without a namespace. -/
def ASTNode.path {ν : Type} (node : ASTNode ν) : List String :=
  match node.cppNamespace with
  | none => []
  | some cppNamespace => cppNamespace.chain.reverse

namespace NamespaceOrganizer

/-- The name of the namespace of a node of the tree. -/
def name (organizer : NamespaceOrganizer) : String := organizer.currentNamespace.name

/-- The node reached from `organizer` by following `path`, entering at each
level the first child that carries the name. -/
def follow : List String → NamespaceOrganizer → Option NamespaceOrganizer
  | [], organizer => some organizer
  | top :: rest, organizer =>
    match organizer.childNamespaces.find? (fun child => child.name = top) with
    | none => none
    | some child => follow rest child

mutual
/-- Every node below `organizer`, each with the names on the way from
`organizer` to it. -/
def descendants : NamespaceOrganizer → List (List String × NamespaceOrganizer)
  | .mk _ children _ => descendantsOfList children
/-- The nodes of a list of trees, each with its path. -/
def descendantsOfList : List NamespaceOrganizer → List (List String × NamespaceOrganizer)
  | [] => []
  | child :: rest =>
    (([child.name], child) ::
      (descendants child).map fun entry => (child.name :: entry.1, entry.2))
      ++ descendantsOfList rest
end

/-- The declarations attached to the node reached by `path`; none when no
node is reached. -/
def declarationsAt (path : List String) (organizer : NamespaceOrganizer) :
    List (ASTNode String) :=
  match follow path organizer with
  | some node => node.childNodes
  | none => []

/-- The paths of all nodes below `organizer`, one entry per node. -/
def paths (organizer : NamespaceOrganizer) : List (List String) :=
  organizer.descendants.map Prod.fst

/-- The paths of all nodes of a list of trees, one entry per node. -/
def pathsOfList (children : List NamespaceOrganizer) : List (List String) :=
  (descendantsOfList children).map Prod.fst

end NamespaceOrganizer

/-- The witness of the scenarios: 32-bit integer type for the D writer. -/
def int32D : QualifiedType String := { baseType := Type_.Int32, nameString := "" }

/-- The function `int add(int a, int b)` with mangled name `_Z3addii`. -/
def addFunction : FunctionNode String :=
  { functionName := "add", mangledName := "_Z3addii", returnType := int32D,
    parameters := [{ type := int32D, name := "a" }, { type := int32D, name := "b" }] }

/-- The declaration of `add`, outside any namespace. -/
def addNode : ASTNode String :=
  { nodeType := ASTNodeType.Function, data := NodeData.function addFunction }

/-- The enum `Color {Red = 0, Green = 1}`. -/
def colorEnum : EnumNode :=
  { enumName := "Color",
    enumerators := [{ name := "Red", value := some ⟨Type_.Int32, Payload.int64 0⟩ },
                    { name := "Green", value := some ⟨Type_.Int32, Payload.int64 1⟩ }] }

/-- The declaration of `Color` inside the namespace `gfx`. -/
def colorNode : ASTNode String :=
  { nodeType := ASTNodeType.Enum, cppNamespace := some (Namespace.mk "gfx" none),
    data := NodeData.enum colorEnum }

/-- The witness of the scenarios for the Rust writer: 32-bit integer type. -/
def int32R : QualifiedType (Option String) := { baseType := Type_.Int32, nameString := none }

/-! ## Definitions used to state the properties of the emission -/

/-- Reading the marks of the flat writer's stream while keeping track of
whether a linkage block is open: an opening is read only outside a block, a
closing and a function line only inside one, an enum block only outside one,
and at the end no block is open. -/
def blocksWellFormed : Bool → List Mark → Bool
  | inside, [] => !inside
  | inside, Mark.blockOpen :: rest => !inside && blocksWellFormed true rest
  | inside, Mark.blockClose :: rest => inside && blocksWellFormed false rest
  | inside, Mark.function :: rest => inside && blocksWellFormed inside rest
  | inside, Mark.enumDecl :: rest => !inside && blocksWellFormed inside rest
  | inside, _ :: rest => blocksWellFormed inside rest

/-- A parameter with its default value removed. -/
def Parameter.withoutDefault {ν : Type} (param : Parameter ν) : Parameter ν :=
  { param with value := none }

/-- A function with the default values of its parameters removed. -/
def FunctionNode.withoutDefaults {ν : Type} (function : FunctionNode ν) : FunctionNode ν :=
  { function with parameters := function.parameters.map Parameter.withoutDefault }

/-- A constructor with the default values of its parameters removed. -/
def Constructor.withoutDefaults {ν : Type} (constructor : Constructor ν) : Constructor ν :=
  { constructor with parameters := constructor.parameters.map Parameter.withoutDefault }

/-- A declaration body with the default values of all function, method and
constructor parameters removed. -/
def NodeData.withoutDefaults {ν : Type} : NodeData ν → NodeData ν
  | .function f => .function f.withoutDefaults
  | .class_ c =>
    .class_ { c with constructors := c.constructors.map Constructor.withoutDefaults,
                     methods := c.methods.map FunctionNode.withoutDefaults }
  | .enum e => .enum e
  | .other => .other

/-- A declaration with the default values of its parameters removed. -/
def ASTNode.withoutDefaults {ν : Type} (node : ASTNode ν) : ASTNode ν :=
  { node with data := node.data.withoutDefaults }

/-- A tree with the default values of all parameters removed. -/
def AST.withoutDefaults {ν : Type} (ast : AST ν) : AST ν :=
  { ast with nodes := ast.nodes.map ASTNode.withoutDefaults }

/-- A parameter as the D backend renders it: `type name`, followed by
` = literal` when it has a default value. -/
def DWrapperWriter.parameterText (param : Parameter String) : Except Error String := do
  let typeString ← DWrapperWriter.getTypeString param.type
  match param.value with
  | some value =>
    return typeString ++ " " ++ param.name ++ " = " ++ (← DWrapperWriter.getValueString value)
  | none => return typeString ++ " " ++ param.name

/-- A parameter as the Rust backend renders it: `name: type`. -/
def RustWrapperWriter.parameterText (param : Parameter (Option String)) :
    Except Error String := do
  return param.name ++ ": " ++ (← RustWrapperWriter.getTypeString param.type)

/-- An enumerator as the D backend lists it in an enum block written at
depth `depth`: one level deeper, the name, ` = literal` when it carries a
value, a comma and a line break. -/
def DWrapperWriter.enumeratorLine (depth : Nat) (enumerator : Enumerator) :
    Except Error String :=
  match enumerator.value with
  | some value => do
    return tabs (depth + 1) ++ enumerator.name ++ " = "
      ++ (← DWrapperWriter.getValueString value) ++ ",\n"
  | none => .ok (tabs (depth + 1) ++ enumerator.name ++ ",\n")

namespace NamespaceOrganizer

mutual
/-- The number of declarations attached anywhere in the tree. -/
def declarationCount : NamespaceOrganizer → Nat
  | .mk _ children nodes => nodes.length + declarationCountOfList children
/-- The number of declarations attached anywhere in a list of trees. -/
def declarationCountOfList : List NamespaceOrganizer → Nat
  | [] => 0
  | child :: rest => declarationCount child + declarationCountOfList rest
end

end NamespaceOrganizer

/-- The number of declaration terminators in a stream. -/
def terminatorCount (pieces : List Piece) : Nat :=
  (pieces.map Piece.mark).count Mark.terminator

/-- The bit pattern of the double `0.0000001`. -/
def doubleOneTenMillionth : Nat := 0x3E7AD7F29ABCAF48

/-- The bit pattern of the double `0.00000025`. -/
def doubleQuarterMillionth : Nat := 0x3E90C6F7A0B5ED8D

/-- The bit pattern of the double `1.0000001`. -/
def doubleOneAndABit : Nat := 0x3FF000001AD7F29B

/-- The bit pattern of the double `1.0`. -/
def doubleOne : Nat := 0x3FF0000000000000

/-- The function `int sub(int a, int b)` with mangled name `_ZN3gfx3subEii`. -/
def subFunction : FunctionNode String :=
  { functionName := "sub", mangledName := "_ZN3gfx3subEii", returnType := int32D,
    parameters := [{ type := int32D, name := "a" }, { type := int32D, name := "b" }] }

/-- The declaration of `sub` inside the namespace `gfx`. -/
def subNode : ASTNode String :=
  { nodeType := ASTNodeType.Function, cppNamespace := some (Namespace.mk "gfx" none),
    data := NodeData.function subFunction }

/-- The function `void *get()`, for the Rust writer. -/
def getFunction : FunctionNode (Option String) :=
  { functionName := "get", mangledName := "_Z3getv",
    returnType := { baseType := Type_.Void, isPointer := true, nameString := none } }

/-- The function `int add(int a, int b)`, for the Rust writer. -/
def addFunctionR : FunctionNode (Option String) :=
  { functionName := "add", mangledName := "_Z3addii", returnType := int32R,
    parameters := [{ type := int32R, name := "a" }, { type := int32R, name := "b" }] }

/-- The enum `Color` outside any namespace, for the Rust writer. -/
def colorNodeR : ASTNode (Option String) :=
  { nodeType := ASTNodeType.Enum, data := NodeData.enum colorEnum }

/-- A declaration with a step of the loop in the place of a class: the node a
class is replaced by reports the kind `Undefined` and carries no function, no
enum and no class; every other declaration is left as it is. -/
def ASTNode.withoutClass {ν : Type} (node : ASTNode ν) : ASTNode ν :=
  if node.nodeType = ASTNodeType.Class then
    ⟨ASTNodeType.Undefined, node.cppNamespace, NodeData.other⟩
  else node

/-- The class `Point` with one member `x`, for the Rust writer. -/
def pointClassR : ClassNode (Option String) :=
  { type := ClassType.Class, name := "Point", members := [{ type := int32R, name := "x" }] }

/-- The declaration of `Point`, outside any namespace, for the Rust writer. -/
def pointNodeR : ASTNode (Option String) :=
  { nodeType := ASTNodeType.Class, data := NodeData.class_ pointClassR }

/-- The declaration of `add`, outside any namespace, for the Rust writer. -/
def addNodeR : ASTNode (Option String) :=
  { nodeType := ASTNodeType.Function, data := NodeData.function addFunctionR }

/-- The number of tab characters a text starts with. -/
def leadingTabs (text : String) : Nat :=
  (text.data.takeWhile fun c => c = '\t').length

/-- Lines written at one indentation: every content, which ends with its line
break, with `indent` tab characters in front. -/
def indented (indent : Nat) (contents : List String) : String :=
  String.join (contents.map fun content => tabs indent ++ content)

/-- What the D writer writes for an enumerator after the indentation: the
name, ` = literal` when it carries a value, a comma and a line break. -/
def DWrapperWriter.enumeratorContent (enumerator : Enumerator) : Except Error String :=
  match enumerator.value with
  | some value => do
    return enumerator.name ++ (" = " ++ (← DWrapperWriter.getValueString value)) ++ ",\n"
  | none => .ok (enumerator.name ++ ",\n")

/-- What the D writer writes for a constructor after the indentation. -/
def DWrapperWriter.constructorContent (constructor : Constructor String) :
    Except Error String := do
  let params ← DWrapperWriter.writeParams constructor.parameters ""
  return "pragma(mangle, \"" ++ constructor.mangledName ++ "\") this("
    ++ (substr0 params (sizeMinus params 2) ++ ");") ++ "\n"

/-- What the D writer writes for a destructor after the indentation. -/
def DWrapperWriter.destructorContent (destructor : Destructor) : String :=
  "pragma(mangle, \"" ++ destructor.mangledName ++ "\") " ++ "~this();\n"

/-- What the D writer writes for a member after the indentation: `type name`,
` = literal` when it has a default value, a semicolon and a line break. -/
def DWrapperWriter.memberContent (member : Parameter String) : Except Error String := do
  let typeString ← DWrapperWriter.getTypeString member.type
  match member.value with
  | some value =>
    return typeString ++ " " ++ member.name ++ " = "
      ++ (← DWrapperWriter.getValueString value) ++ ";\n"
  | none => return typeString ++ " " ++ member.name ++ ";\n"

/-- The class `Point` with a constructor, a destructor, the method `norm` and
the member `x`. -/
def pointClass : ClassNode String :=
  { type := ClassType.Class, name := "Point",
    constructors := [{ mangledName := "_ZN5PointC1Ev" }],
    destructor := some { mangledName := "_ZN5PointD1Ev" },
    methods := [{ functionName := "norm", mangledName := "_ZN5Point4normEv",
                  returnType := int32D }],
    members := [{ type := int32D, name := "x" }] }

/-- The declaration of `Point` inside the namespace `gfx`. -/
def pointNode : ASTNode String :=
  { nodeType := ASTNodeType.Class, cppNamespace := some (Namespace.mk "gfx" none),
    data := NodeData.class_ pointClass }

/-- The function `void f(C x)` whose parameter is a class type with a name
that is present but empty, for the Rust writer. -/
def emptyNameFunction : FunctionNode (Option String) :=
  { functionName := "f", mangledName := "_Z1f1C",
    returnType := { baseType := Type_.Void, nameString := none },
    parameters := [{ type := { baseType := Type_.Class, nameString := some "" }, name := "x" }] }

/-- The declaration of `f`, outside any namespace, for the Rust writer. -/
def emptyNameNodeR : ASTNode (Option String) :=
  { nodeType := ASTNodeType.Function, data := NodeData.function emptyNameFunction }

/-- The declaration line of a function in the flat backend: a tab, the
link-name attribute with the mangled name, `pub fn`, the name, the parameter
text between parentheses, the arrow and the return type unless the base type
is void, a semicolon and a line break. -/
def RustWrapperWriter.functionLine (function : FunctionNode (Option String)) :
    Except Error String := do
  let params ← RustWrapperWriter.writeParams function.parameters ""
  let arrow ←
    if function.returnType.baseType = Type_.Void then pure ""
    else do
      let returnType ← RustWrapperWriter.getTypeString function.returnType
      pure (" -> " ++ returnType)
  return "\t#[link_name = \"" ++ function.mangledName ++ "\"] pub fn "
    ++ function.functionName ++ "(" ++ substr0 params (sizeMinus params 2) ++ ")"
    ++ arrow ++ ";\n"

/-- The line of an enumerator in the flat backend: a tab, the name,
` = literal` when it carries a value, a comma and a line break. -/
def RustWrapperWriter.enumeratorLine (enumerator : Enumerator) : Except Error String :=
  match enumerator.value with
  | some value => do
    return "\t" ++ enumerator.name ++ " = " ++ (← RustWrapperWriter.getValueString value)
      ++ ",\n"
  | none => .ok ("\t" ++ enumerator.name ++ ",\n")

/-- The lines of the enumerators of an enum in the flat backend, in order. -/
def RustWrapperWriter.enumeratorLines : List Enumerator → Except Error (List String)
  | [] => .ok []
  | enumerator :: rest => do
    let line ← RustWrapperWriter.enumeratorLine enumerator
    let lines ← RustWrapperWriter.enumeratorLines rest
    return line :: lines

/-- The block of an enum in the flat backend: the representation attribute,
`pub enum` and the name, the enumerator lines between braces. -/
def RustWrapperWriter.enumBlock (e : EnumNode) : Except Error String := do
  let lines ← RustWrapperWriter.enumeratorLines e.enumerators
  return "#[repr(C)]\npub enum " ++ e.enumName ++ "\n\x7b\n" ++ String.join lines ++ "\x7d\n"

/-- The declaration text of a node in the flat backend: the line of a
function, the block of an enum, nothing for any other kind. -/
def RustWrapperWriter.declaration (node : ASTNode (Option String)) :
    Except Error (List Piece) :=
  if node.nodeType = ASTNodeType.Function then
    match node.asFunction with
    | none => .error Error.CorruptAST
    | some function => do
      return [⟨Mark.function, ← RustWrapperWriter.functionLine function⟩]
  else if node.nodeType = ASTNodeType.Enum then
    match node.asEnum with
    | none => .error Error.CorruptAST
    | some e => do
      return [⟨Mark.enumDecl, ← RustWrapperWriter.enumBlock e⟩]
  else .ok []

/-- The line that opens or closes a linkage block in front of a declaration of
kind `nodeType` that follows one of kind `previousNodeType`: an opening in
front of a function that does not follow a function, a closing in front of
any other declaration that follows a function. -/
def RustWrapperWriter.bracket (previousNodeType nodeType : ASTNodeType) : List Piece :=
  if nodeType = ASTNodeType.Function then
    if previousNodeType = ASTNodeType.Function then [] else [⟨Mark.blockOpen, "\nextern \x7b\n"⟩]
  else
    if previousNodeType = ASTNodeType.Function then [⟨Mark.blockClose, "\x7d\n\n"⟩] else []

/-- Whether a piece is declaration text: the line of a function or the block
of an enum. -/
def Piece.isDeclaration (piece : Piece) : Bool :=
  decide (piece.mark = Mark.function) || decide (piece.mark = Mark.enumDecl)

/-! ## Theorems -/

/-! ### Type table -/

/-- C5: whenever `getTypeString` succeeds, in the D writer and in the Rust
writer, its result is `const ` if the type is const, then `ref ` if it is a
reference, then the base token of the tag (the name for an enum or class),
then ` *` if it is a pointer. -/
theorem getTypeString_qualifier_order :
    (∀ (t : QualifiedType String) (s : String), DWrapperWriter.getTypeString t = .ok s →
      ∃ base, DWrapperWriter.baseToken t.baseType t.nameString = some base ∧
        s = (if t.isConst then "const " else "") ++ (if t.isReference then "ref " else "")
          ++ base ++ (if t.isPointer then " *" else "")) ∧
    (∀ (t : QualifiedType (Option String)) (s : String),
      RustWrapperWriter.getTypeString t = .ok s →
      ∃ base, RustWrapperWriter.baseToken t.baseType t.nameString = some base ∧
        s = (if t.isConst then "const " else "") ++ (if t.isReference then "ref " else "")
          ++ base ++ (if t.isPointer then " *" else "")) := by
  constructor
  · rintro ⟨b, c, r, p, n⟩ s h
    by_cases hn : n = ""
    all_goals
      cases b <;> cases c <;> cases r <;> cases p <;>
      simp [DWrapperWriter.getTypeString, DWrapperWriter.baseToken, hn,
        bind, Except.bind, pure, Except.pure, throw, throwThe, MonadExceptOf.throw] at h ⊢ <;>
      exact h.symm
  · rintro ⟨b, c, r, p, n⟩ s h
    cases n <;> cases b <;> cases c <;> cases r <;> cases p <;>
      simp [RustWrapperWriter.getTypeString, RustWrapperWriter.baseToken,
        bind, Except.bind, pure, Except.pure, throw, throwThe, MonadExceptOf.throw] at h ⊢ <;>
      exact h.symm

/-- C5, at a concrete input: a const pointer to a class `Foo` in the D
writer. -/
theorem getTypeString_qualifier_order_witness :
    ∃ base, DWrapperWriter.baseToken Type_.Class "Foo" = some base ∧
      "const Foo *" = (if true then "const " else "") ++ (if false then "ref " else "")
          ++ base ++ (if true then " *" else "") :=
  getTypeString_qualifier_order.1
    { baseType := Type_.Class, isConst := true, isPointer := true, nameString := "Foo" }
    "const Foo *" (by decide)

set_option maxRecDepth 100000 in
/-- C6: the writers evaluated on a class or enum type whose name is present
but empty. The Rust writer tests only whether a name is present, so it does
not fail with `MissingTypeName`: it returns an empty base token, and the line
of `void f(C x)` reads `pub fn f(x: );`. The D writer fails on the same type,
and the Rust writer fails when the name is absent. -/
theorem getTypeString_empty_name_accepted :
    RustWrapperWriter.getTypeString { baseType := Type_.Class, nameString := some "" } = .ok "" ∧
    RustWrapperWriter.getTypeString ⟨Type_.Enum, false, false, true, some ""⟩ = .ok " *" ∧
    RustWrapperWriter.writeNode ASTNodeType.Function emptyNameNodeR
      = .ok [⟨Mark.function, "\t#[link_name = \"_Z1f1C\"] pub fn f(x: );\n"⟩] ∧
    RustWrapperWriter.getTypeString { baseType := Type_.Class, nameString := none }
      = .error Error.MissingTypeName ∧
    DWrapperWriter.getTypeString { baseType := Type_.Class, nameString := "" }
      = .error Error.MissingTypeName ∧
    DWrapperWriter.getTypeString ⟨Type_.Enum, false, false, true, ""⟩
      = .error Error.MissingTypeName := by
  decide

/-- The name test of the two writers for an enum or class tag and every
combination of qualifiers: the D writer tests `empty()` and fails with
`MissingTypeName` exactly when the name is the empty string, the Rust writer
tests `has_value()` and fails exactly when the name is absent; otherwise the
name is the base token. -/
theorem getTypeString_missing_name (baseType : Type_) (isConst isReference isPointer : Bool)
    (h : baseType = Type_.Enum ∨ baseType = Type_.Class) :
    DWrapperWriter.getTypeString ⟨baseType, isConst, isReference, isPointer, ""⟩
      = .error Error.MissingTypeName ∧
    (∀ name : String, name ≠ "" →
      DWrapperWriter.getTypeString ⟨baseType, isConst, isReference, isPointer, name⟩
        = .ok ((if isConst then "const " else "") ++ (if isReference then "ref " else "")
          ++ name ++ (if isPointer then " *" else ""))) ∧
    RustWrapperWriter.getTypeString ⟨baseType, isConst, isReference, isPointer, none⟩
      = .error Error.MissingTypeName ∧
    (∀ name : String,
      RustWrapperWriter.getTypeString ⟨baseType, isConst, isReference, isPointer, some name⟩
        = .ok ((if isConst then "const " else "") ++ (if isReference then "ref " else "")
          ++ name ++ (if isPointer then " *" else ""))) := by
  rcases h with h | h <;> subst h <;>
    cases isConst <;> cases isReference <;> cases isPointer <;>
    simp +contextual [DWrapperWriter.getTypeString, RustWrapperWriter.getTypeString,
      bind, Except.bind, pure, Except.pure, throw, throwThe, MonadExceptOf.throw]

/-- The name test at a concrete input: a const class reference. -/
theorem getTypeString_missing_name_witness :
    DWrapperWriter.getTypeString ⟨Type_.Class, true, false, false, ""⟩
      = .error Error.MissingTypeName ∧
    RustWrapperWriter.getTypeString ⟨Type_.Class, true, false, false, none⟩
      = .error Error.MissingTypeName :=
  ⟨(getTypeString_missing_name Type_.Class true false false (Or.inr rfl)).1,
   (getTypeString_missing_name Type_.Class true false false (Or.inr rfl)).2.2.1⟩

/-- C7, as stated, fails: the Rust writer renders the 128-bit integers. -/
theorem getTypeString_int128_counterexample :
    RustWrapperWriter.getTypeString { baseType := Type_.Int128, nameString := none }
      = .ok "i128" ∧
    RustWrapperWriter.getTypeString { baseType := Type_.Uint128, nameString := none }
      = .ok "u128" := by
  decide

/-- C7, amended: both writers fail with `UnsupportedType` on the undefined
tag; the Rust writer alone fails with `UnsupportedType` on the narrow
character, the 16-bit character and the 128-bit float, which the D writer
renders; on every other tag that is not an enum or class reference, the
128-bit integers included, both succeed. -/
theorem getTypeString_unsupported (baseType : Type_) (isConst isReference isPointer : Bool)
    (nameD : String) (nameR : Option String) :
    (baseType = Type_.Undefined →
      DWrapperWriter.getTypeString ⟨baseType, isConst, isReference, isPointer, nameD⟩
        = .error Error.UnsupportedType ∧
      RustWrapperWriter.getTypeString ⟨baseType, isConst, isReference, isPointer, nameR⟩
        = .error Error.UnsupportedType) ∧
    (baseType ∈ [Type_.Char, Type_.Char16, Type_.Float128] →
      (∃ s, DWrapperWriter.getTypeString ⟨baseType, isConst, isReference, isPointer, nameD⟩
        = .ok s) ∧
      RustWrapperWriter.getTypeString ⟨baseType, isConst, isReference, isPointer, nameR⟩
        = .error Error.UnsupportedType) ∧
    (baseType ∉ [Type_.Undefined, Type_.Char, Type_.Char16, Type_.Float128,
        Type_.Enum, Type_.Class] →
      (∃ s, DWrapperWriter.getTypeString ⟨baseType, isConst, isReference, isPointer, nameD⟩
        = .ok s) ∧
      (∃ s, RustWrapperWriter.getTypeString ⟨baseType, isConst, isReference, isPointer, nameR⟩
        = .ok s)) := by
  cases baseType <;> cases isConst <;> cases isReference <;> cases isPointer <;>
    simp [DWrapperWriter.getTypeString, RustWrapperWriter.getTypeString,
      bind, Except.bind, pure, Except.pure, throw, throwThe, MonadExceptOf.throw]

/-- C7 amended, at concrete inputs: the narrow character fails in the Rust
writer only, the signed 128-bit integer succeeds in both. -/
theorem getTypeString_unsupported_witness :
    ((∃ s, DWrapperWriter.getTypeString ⟨Type_.Char, false, false, false, ""⟩ = .ok s) ∧
      RustWrapperWriter.getTypeString ⟨Type_.Char, false, false, false, none⟩
        = .error Error.UnsupportedType) ∧
    ((∃ s, DWrapperWriter.getTypeString ⟨Type_.Int128, false, false, false, ""⟩ = .ok s) ∧
      (∃ s, RustWrapperWriter.getTypeString ⟨Type_.Int128, false, false, false, none⟩ = .ok s)) :=
  ⟨(getTypeString_unsupported Type_.Char false false false "" none).2.1 (by decide),
   (getTypeString_unsupported Type_.Int128 false false false "" none).2.2 (by decide)⟩

/-! ### Value table -/

/-- C8: in both writers `getValueString` fails with `UnsupportedValueKind`
when the tag is enum, class, undefined or one of the 128-bit widths, whatever
the payload, and succeeds for every other tag listed whenever the payload is
the alternative that goes with the tag. -/
theorem getValueString_supported (v : Value) :
    (v.type ∈ [Type_.Enum, Type_.Class, Type_.Undefined, Type_.Int128, Type_.Uint128,
        Type_.Float128] →
      DWrapperWriter.getValueString v = .error Error.UnsupportedValueKind ∧
      RustWrapperWriter.getValueString v = .error Error.UnsupportedValueKind) ∧
    (v.type ∈ [Type_.Bool, Type_.Char, Type_.Char16, Type_.Char32, Type_.Int8, Type_.Int16,
        Type_.Int32, Type_.Int64, Type_.Uint8, Type_.Uint16, Type_.Uint32, Type_.Uint64,
        Type_.Float32, Type_.Float64, Type_.CppStdString] →
      v.tagMatchesPayload = true →
      (∃ s, DWrapperWriter.getValueString v = .ok s) ∧
      (∃ s, RustWrapperWriter.getValueString v = .ok s)) := by
  obtain ⟨t, p⟩ := v
  cases t <;> cases p <;>
    simp [DWrapperWriter.getValueString, RustWrapperWriter.getValueString,
      Value.tagMatchesPayload, Payload.getBool, Payload.getChar, Payload.getChar16,
      Payload.getChar32, Payload.getInt64, Payload.getUint64, Payload.getDouble,
      Payload.getString,
      bind, Except.bind, pure, Except.pure, throw, throwThe, MonadExceptOf.throw]

/-- C8, at concrete inputs: an enum-tagged value fails, a 16-bit unsigned
value succeeds. -/
theorem getValueString_supported_witness :
    (DWrapperWriter.getValueString ⟨Type_.Enum, Payload.int64 1⟩
        = .error Error.UnsupportedValueKind ∧
      RustWrapperWriter.getValueString ⟨Type_.Enum, Payload.int64 1⟩
        = .error Error.UnsupportedValueKind) ∧
    ((∃ s, DWrapperWriter.getValueString ⟨Type_.Uint16, Payload.uint64 7⟩ = .ok s) ∧
      (∃ s, RustWrapperWriter.getValueString ⟨Type_.Uint16, Payload.uint64 7⟩ = .ok s)) :=
  ⟨(getValueString_supported ⟨Type_.Enum, Payload.int64 1⟩).1 (by decide),
   (getValueString_supported ⟨Type_.Uint16, Payload.uint64 7⟩).2 (by decide) (by decide)⟩

/-! ### Decimal literals read back -/

theorem readDigits_append (xs ys : List Char) (acc : Nat) :
    readDigits (xs ++ ys) acc = (readDigits xs acc).bind (readDigits ys) := by
  induction xs generalizing acc with
  | nil => rfl
  | cons c cs ih =>
    simp only [List.cons_append, readDigits]
    split
    · exact ih _
    · rfl

theorem digitChar_isDigit (d : Nat) (h : d < 10) :
    (Nat.digitChar d).isDigit = true ∧ (Nat.digitChar d).toNat - 48 = d := by
  interval_cases d <;> decide

theorem toDigitsCore_append (fuel n : Nat) (ds : List Char) :
    Nat.toDigitsCore 10 fuel n ds = Nat.toDigitsCore 10 fuel n [] ++ ds := by
  induction fuel generalizing n ds with
  | zero => simp [Nat.toDigitsCore]
  | succ fuel ih =>
    simp only [Nat.toDigitsCore]
    split
    · simp
    · rw [ih (n / 10) (Nat.digitChar (n % 10) :: ds), ih (n / 10) [Nat.digitChar (n % 10)]]
      simp

theorem readDigits_toDigitsCore (fuel n : Nat) (h : n < fuel) :
    readDigits (Nat.toDigitsCore 10 fuel n []) 0 = some n ∧
      Nat.toDigitsCore 10 fuel n [] ≠ [] := by
  induction fuel generalizing n with
  | zero => omega
  | succ fuel ih =>
    have hd := digitChar_isDigit (n % 10) (Nat.mod_lt _ (by decide))
    simp only [Nat.toDigitsCore]
    split
    · rename_i h0
      refine ⟨?_, by simp⟩
      simp only [readDigits, hd.1, hd.2, if_true]
      congr 1
      omega
    · rename_i h0
      have hlt : n / 10 < fuel := by omega
      rw [toDigitsCore_append]
      refine ⟨?_, by simp⟩
      rw [readDigits_append, (ih (n / 10) hlt).1]
      simp only [Option.bind, readDigits, hd.1, hd.2, if_true]
      congr 1
      omega

theorem parseDecimal_repr (n : Nat) : parseDecimal (Nat.repr n).data = some n := by
  have h := readDigits_toDigitsCore (n + 1) n (by omega)
  simp only [Nat.repr, Nat.toDigits, List.asString]
  cases hds : Nat.toDigitsCore 10 (n + 1) n [] with
  | nil => exact absurd hds h.2
  | cons c cs => rw [hds] at h; exact h.1

theorem repr_head_ne_minus (n : Nat) (cs : List Char) : (Nat.repr n).data ≠ '-' :: cs := by
  intro h
  have := parseDecimal_repr n
  rw [h] at this
  simp [parseDecimal, readDigits] at this

theorem parseUint64_to_string (u : Nat) (h : u < 18446744073709551616) :
    parseUint64 (to_string_nat u) = some u := by
  simp [parseUint64, to_string_nat, parseDecimal_repr, h]

theorem parseInt64_to_string (i : Int) (hlo : -9223372036854775808 ≤ i)
    (hhi : i < 9223372036854775808) : parseInt64 (to_string_int i) = some i := by
  unfold to_string_int
  split
  · rename_i hneg
    have hdata : ("-" ++ Nat.repr i.natAbs).data = '-' :: (Nat.repr i.natAbs).data := by
      simp [String.data_append]
    simp only [parseInt64, hdata, parseDecimal_repr, Option.bind]
    have : i.natAbs ≤ 9223372036854775808 := by omega
    simp only [this, if_true]
    congr 1
    omega
  · rename_i hneg
    unfold parseInt64
    split
    · rename_i cs hcs
      exact absurd hcs (repr_head_ne_minus _ _)
    · simp only [parseDecimal_repr, Option.bind]
      have : i.natAbs < 9223372036854775808 := by omega
      simp only [this, if_true]
      congr 1
      omega

/-- C9: for a signed tag of width 8 to 64 with a signed 64-bit payload, and
for an unsigned tag of width 8 to 64 with an unsigned 64-bit payload, both
writers return the same decimal literal, and reading that literal back gives
the payload. -/
theorem getValueString_integer_roundtrip (type : Type_) :
    (∀ i : Int, type ∈ [Type_.Int8, Type_.Int16, Type_.Int32, Type_.Int64] →
      -9223372036854775808 ≤ i → i < 9223372036854775808 →
      ∃ s, DWrapperWriter.getValueString ⟨type, Payload.int64 i⟩ = .ok s ∧
        RustWrapperWriter.getValueString ⟨type, Payload.int64 i⟩ = .ok s ∧
        parseInt64 s = some i) ∧
    (∀ u : Nat, type ∈ [Type_.Uint8, Type_.Uint16, Type_.Uint32, Type_.Uint64] →
      u < 18446744073709551616 →
      ∃ s, DWrapperWriter.getValueString ⟨type, Payload.uint64 u⟩ = .ok s ∧
        RustWrapperWriter.getValueString ⟨type, Payload.uint64 u⟩ = .ok s ∧
        parseUint64 s = some u) := by
  constructor
  · intro i ht hlo hhi
    refine ⟨to_string_int i, ?_, ?_, parseInt64_to_string i hlo hhi⟩ <;>
      (simp only [List.mem_cons, List.mem_singleton, List.not_mem_nil, or_false] at ht
       rcases ht with h | h | h | h <;> subst h <;> rfl)
  · intro u ht hu
    refine ⟨to_string_nat u, ?_, ?_, parseUint64_to_string u hu⟩ <;>
      (simp only [List.mem_cons, List.mem_singleton, List.not_mem_nil, or_false] at ht
       rcases ht with h | h | h | h <;> subst h <;> rfl)

/-- C9, at the extreme values of the 64-bit ranges. -/
theorem getValueString_integer_roundtrip_witness :
    (∃ s, DWrapperWriter.getValueString ⟨Type_.Int8, Payload.int64 (-9223372036854775808)⟩
        = .ok s ∧
      RustWrapperWriter.getValueString ⟨Type_.Int8, Payload.int64 (-9223372036854775808)⟩
        = .ok s ∧
      parseInt64 s = some (-9223372036854775808)) ∧
    (∃ s, DWrapperWriter.getValueString ⟨Type_.Uint64, Payload.uint64 18446744073709551615⟩
        = .ok s ∧
      RustWrapperWriter.getValueString ⟨Type_.Uint64, Payload.uint64 18446744073709551615⟩
        = .ok s ∧
      parseUint64 s = some 18446744073709551615) :=
  ⟨(getValueString_integer_roundtrip Type_.Int8).1 (-9223372036854775808) (by decide)
      (by decide) (by decide),
   (getValueString_integer_roundtrip Type_.Uint64).2 18446744073709551615 (by decide)
      (by decide)⟩

/-! ### Linkage blocks of the flat writer -/

theorem blockMarkers_append (xs ys : List Piece) :
    blockMarkers (xs ++ ys) = blockMarkers xs ++ blockMarkers ys := by
  simp [blockMarkers]

/-- The markers one round of the loop writes: an opening before a function
that does not follow a function, a closing before any other node that
follows a function. -/
theorem RustWrapperWriter.writeNode_blockMarkers (previousNodeType : ASTNodeType)
    (node : ASTNode (Option String)) (here : List Piece)
    (h : RustWrapperWriter.writeNode previousNodeType node = .ok here) :
    blockMarkers here =
      if node.nodeType = ASTNodeType.Function then
        (if previousNodeType = ASTNodeType.Function then [] else [Mark.blockOpen])
      else
        (if previousNodeType = ASTNodeType.Function then [Mark.blockClose] else []) := by
  unfold RustWrapperWriter.writeNode at h
  by_cases hf : node.nodeType = ASTNodeType.Function
  · simp only [hf, if_true] at h ⊢
    cases hcast : node.asFunction with
    | none => simp [hcast, throw, throwThe, MonadExceptOf.throw] at h
    | some function =>
      simp only [hcast, bind, Except.bind, pure, Except.pure] at h
      cases hp : RustWrapperWriter.writeParams function.parameters "" with
      | error e => simp [hp] at h
      | ok params =>
        simp only [hp] at h
        by_cases hv : function.returnType.baseType = Type_.Void
        · simp only [hv, ne_eq, not_true_eq_false, if_false] at h
          injection h with h
          subst h
          by_cases hprev : previousNodeType = ASTNodeType.Function <;>
            simp [hprev, blockMarkers]
        · simp only [hv, ne_eq, not_false_eq_true, if_true] at h
          cases hr : RustWrapperWriter.getTypeString function.returnType with
          | error e => simp [hr] at h
          | ok ret =>
            simp only [hr] at h
            injection h with h
            subst h
            by_cases hprev : previousNodeType = ASTNodeType.Function <;>
              simp [hprev, blockMarkers]
  · simp only [hf, if_false, bind, Except.bind, pure, Except.pure] at h ⊢
    by_cases he : node.nodeType = ASTNodeType.Enum
    · simp only [he, if_true] at h
      cases hcast : node.asEnum with
      | none => simp [hcast, throw, throwThe, MonadExceptOf.throw] at h
      | some e =>
        simp only [hcast] at h
        cases hen : RustWrapperWriter.writeEnumerators e.enumerators with
        | error err => simp [hen] at h
        | ok enumerators =>
          simp only [hen] at h
          injection h with h
          subst h
          by_cases hprev : previousNodeType = ASTNodeType.Function <;>
            simp [hprev, blockMarkers]
    · simp only [he, if_false] at h
      injection h with h
      subst h
      by_cases hprev : previousNodeType = ASTNodeType.Function <;>
        simp [hprev, blockMarkers]

/-- The markers of the loop started after a node of kind `previousNodeType`:
a closing first when that node was a function, then opening and closing in
turn. -/
theorem RustWrapperWriter.writeNodes_blockMarkers (nodes : List (ASTNode (Option String))) :
    ∀ (previousNodeType : ASTNodeType) (out : List Piece),
      RustWrapperWriter.writeNodes previousNodeType nodes = .ok out →
      ∃ n, blockMarkers out =
        (if previousNodeType = ASTNodeType.Function then [Mark.blockClose] else [])
          ++ (List.replicate n [Mark.blockOpen, Mark.blockClose]).flatten := by
  induction nodes with
  | nil =>
    intro previousNodeType out h
    simp only [RustWrapperWriter.writeNodes] at h
    injection h with h
    subst h
    refine ⟨0, ?_⟩
    by_cases hprev : previousNodeType = ASTNodeType.Function <;> simp [hprev, blockMarkers]
  | cons node rest ih =>
    intro previousNodeType out h
    simp only [RustWrapperWriter.writeNodes, bind, Except.bind, pure, Except.pure] at h
    cases hn : RustWrapperWriter.writeNode previousNodeType node with
    | error e => simp [hn] at h
    | ok here =>
      simp only [hn] at h
      cases hr : RustWrapperWriter.writeNodes node.nodeType rest with
      | error e => simp [hr] at h
      | ok after =>
        simp only [hr] at h
        injection h with h
        subst h
        obtain ⟨n, hafter⟩ := ih _ _ hr
        have hhere := RustWrapperWriter.writeNode_blockMarkers _ _ _ hn
        rw [blockMarkers_append, hhere, hafter]
        by_cases hf : node.nodeType = ASTNodeType.Function <;>
          by_cases hprev : previousNodeType = ASTNodeType.Function
        · exact ⟨n, by simp [hf, hprev]⟩
        · exact ⟨n + 1, by simp [hf, hprev, List.replicate_succ]⟩
        · exact ⟨n, by simp [hf, hprev]⟩
        · exact ⟨n, by simp [hf, hprev]⟩

theorem openClose_properties (n : Nat) :
    List.Chain' (fun a b => a ≠ b) (List.replicate n [Mark.blockOpen, Mark.blockClose]).flatten ∧
    (List.replicate n [Mark.blockOpen, Mark.blockClose]).flatten.head? ≠ some Mark.blockClose ∧
    (List.replicate n [Mark.blockOpen, Mark.blockClose]).flatten.count Mark.blockOpen = n ∧
    (List.replicate n [Mark.blockOpen, Mark.blockClose]).flatten.count Mark.blockClose = n ∧
    (0 < n → (List.replicate n [Mark.blockOpen, Mark.blockClose]).flatten.getLast?
      = some Mark.blockClose) := by
  induction n with
  | zero => simp
  | succ n ih =>
    obtain ⟨hchain, hhead, ho, hc, hlast⟩ := ih
    refine ⟨?_, by simp [List.replicate_succ], ?_, ?_, ?_⟩
    · simp only [List.replicate_succ, List.flatten_cons, List.cons_append, List.nil_append]
      refine List.Chain'.cons (by decide) ?_
      cases hj : (List.replicate n [Mark.blockOpen, Mark.blockClose]).flatten with
      | nil => simp
      | cons m ms =>
        rw [hj] at hchain hhead
        refine List.Chain'.cons ?_ hchain
        intro heq
        exact hhead (by simp [← heq])
    · simp [List.replicate_succ, List.count_cons, ho]
    · simp [List.replicate_succ, List.count_cons, hc]
    · intro _
      simp [List.replicate_succ', List.getLast?_append]

/-- C1: in the output of the flat writer the linkage-block markers are
opening, closing, opening, closing, ..., starting with an opening: no two
consecutive markers are equal, closings and openings are equally many, and
when a block was opened the last marker is a closing. -/
theorem RustWrapperWriter.write_blockMarkers_alternate (POLYGLOT_VERSION timeStr : String)
    (ast : AST (Option String)) (out : List Piece)
    (h : RustWrapperWriter.write POLYGLOT_VERSION timeStr ast = .ok out) :
    (∃ n, blockMarkers out = (List.replicate n [Mark.blockOpen, Mark.blockClose]).flatten) ∧
    List.Chain' (fun a b => a ≠ b) (blockMarkers out) ∧
    (blockMarkers out).head? ≠ some Mark.blockClose ∧
    (blockMarkers out).count Mark.blockClose = (blockMarkers out).count Mark.blockOpen ∧
    (Mark.blockOpen ∈ blockMarkers out → (blockMarkers out).getLast? = some Mark.blockClose) := by
  simp only [RustWrapperWriter.write, bind, Except.bind, pure, Except.pure] at h
  cases hb : RustWrapperWriter.writeNodes ASTNodeType.Undefined ast.nodes with
  | error e => simp [hb] at h
  | ok body =>
    simp only [hb] at h
    injection h with h
    subst h
    obtain ⟨n, hn⟩ := RustWrapperWriter.writeNodes_blockMarkers _ _ _ hb
    have hout : blockMarkers (⟨Mark.header, RustWrapperWriter.header POLYGLOT_VERSION timeStr
        ast.moduleName⟩ :: body) = (List.replicate n [Mark.blockOpen, Mark.blockClose]).flatten := by
      have : blockMarkers (⟨Mark.header, RustWrapperWriter.header POLYGLOT_VERSION timeStr
          ast.moduleName⟩ :: body) = blockMarkers body := by
        simp [blockMarkers]
      rw [this, hn]
      simp
    obtain ⟨hchain, hhead, ho, hc, hlast⟩ := openClose_properties n
    rw [hout]
    refine ⟨⟨n, rfl⟩, hchain, hhead, by rw [ho, hc], ?_⟩
    intro hmem
    apply hlast
    rcases Nat.eq_zero_or_pos n with h0 | h0
    · subst h0
      simp at hmem
    · exact h0

/-- C1, at a concrete input: two functions, an enum, then a function. -/
theorem RustWrapperWriter.write_blockMarkers_alternate_witness :
    blockMarkers
      [⟨Mark.header, RustWrapperWriter.header "0.1" "Thu Jan  1 00:00:00 1970\n" "m"⟩,
       ⟨Mark.blockOpen, "\nextern \x7b\n"⟩,
       ⟨Mark.function, "\t#[link_name = \"_Z1fv\"] pub fn f();\n"⟩,
       ⟨Mark.function, "\t#[link_name = \"_Z1gi\"] pub fn g(x: i32) -> i32;\n"⟩,
       ⟨Mark.blockClose, "\x7d\n\n"⟩,
       ⟨Mark.enumDecl, "#[repr(C)]\npub enum E\n\x7b\n\tA,\n\x7d\n"⟩,
       ⟨Mark.blockOpen, "\nextern \x7b\n"⟩,
       ⟨Mark.function, "\t#[link_name = \"_Z1fv\"] pub fn f();\n"⟩,
       ⟨Mark.blockClose, "\x7d\n"⟩]
      = [Mark.blockOpen, Mark.blockClose, Mark.blockOpen, Mark.blockClose] ∧
    (∃ n, blockMarkers
      [⟨Mark.header, RustWrapperWriter.header "0.1" "Thu Jan  1 00:00:00 1970\n" "m"⟩,
       ⟨Mark.blockOpen, "\nextern \x7b\n"⟩,
       ⟨Mark.function, "\t#[link_name = \"_Z1fv\"] pub fn f();\n"⟩,
       ⟨Mark.function, "\t#[link_name = \"_Z1gi\"] pub fn g(x: i32) -> i32;\n"⟩,
       ⟨Mark.blockClose, "\x7d\n\n"⟩,
       ⟨Mark.enumDecl, "#[repr(C)]\npub enum E\n\x7b\n\tA,\n\x7d\n"⟩,
       ⟨Mark.blockOpen, "\nextern \x7b\n"⟩,
       ⟨Mark.function, "\t#[link_name = \"_Z1fv\"] pub fn f();\n"⟩,
       ⟨Mark.blockClose, "\x7d\n"⟩]
      = (List.replicate n [Mark.blockOpen, Mark.blockClose]).flatten) :=
  ⟨by decide,
   (RustWrapperWriter.write_blockMarkers_alternate "0.1" "Thu Jan  1 00:00:00 1970\n"
    ⟨Language.Cpp, "m",
      [⟨ASTNodeType.Function, none, NodeData.function
          ⟨"f", "_Z1fv", ⟨Type_.Void, false, false, false, none⟩, [], false, false⟩⟩,
       ⟨ASTNodeType.Function, none, NodeData.function
          ⟨"g", "_Z1gi", int32R, [⟨int32R, "x", none⟩], false, false⟩⟩,
       ⟨ASTNodeType.Enum, none, NodeData.enum ⟨"E", [⟨"A", none⟩]⟩⟩,
       ⟨ASTNodeType.Function, none, NodeData.function
          ⟨"f", "_Z1fv", ⟨Type_.Void, false, false, false, none⟩, [], false, false⟩⟩]⟩
    _ rfl).1⟩

/-! ### Blank lines between the declarations of a namespace -/

theorem separatorFlags_append_decl (decl rest : List Piece) (seen : Bool)
    (h : ∀ piece ∈ decl, piece.mark ≠ Mark.terminator ∧ piece.mark ≠ Mark.separator) :
    separatorFlags (decl ++ rest) seen = separatorFlags rest seen := by
  induction decl with
  | nil => rfl
  | cons piece decl ih =>
    have hp := h piece (List.mem_cons_self _ _)
    simp only [List.cons_append, separatorFlags, hp.1, hp.2, if_false]
    exact ih fun q hq => h q (List.mem_cons_of_mem _ hq)

/-- The pieces written for one declaration are neither separators nor
terminators. -/
theorem DWrapperWriter.writeNode_marks (language : Language) (depth : Nat)
    (node : ASTNode String) (decl : List Piece) (depth1 : Nat)
    (h : DWrapperWriter.writeNode language depth node = .ok (decl, depth1)) :
    ∀ piece ∈ decl, piece.mark ≠ Mark.terminator ∧ piece.mark ≠ Mark.separator := by
  unfold DWrapperWriter.writeNode at h
  split at h
  · cases hcast : node.asFunction with
    | none => simp [hcast, throw, throwThe, MonadExceptOf.throw] at h
    | some function =>
      simp only [hcast, bind, Except.bind, pure, Except.pure] at h
      split at h
      · simp at h
      · injection h with h
        injection h with h1 h2
        subst h1
        simp
  · split at h
    · cases hcast : node.asEnum with
      | none => simp [hcast, throw, throwThe, MonadExceptOf.throw] at h
      | some e =>
        simp only [hcast, bind, Except.bind, pure, Except.pure] at h
        split at h
        · simp at h
        · injection h with h
          injection h with h1 h2
          subst h1
          simp
    · split at h
      · cases hcast : node.asClass with
        | none => simp [hcast, throw, throwThe, MonadExceptOf.throw] at h
        | some classNode =>
          simp only [hcast, bind, Except.bind, pure, Except.pure] at h
          split at h
          · simp at h
          · injection h with h
            injection h with h1 h2
            subst h1
            simp
      · simp only [pure, Except.pure] at h
        injection h with h
        injection h with h1 h2
        subst h1
        simp

theorem DWrapperWriter.separatorNeeded_eq_rule (current : ASTNodeType)
    (previous : Option ASTNodeType) :
    DWrapperWriter.separatorNeeded current (previous.getD ASTNodeType.Undefined)
      = separatorRule current previous := by
  cases current <;> cases previous <;> first | rfl | (rename_i p; cases p <;> rfl)

/-- The separators of the declaration loop started after `previous`. -/
theorem DWrapperWriter.writeChildNodes_separatorFlags (language : Language)
    (nodes : List (ASTNode String)) :
    ∀ (previous : Option ASTNodeType) (depth : Nat) (pieces : List Piece) (depth1 : Nat),
      DWrapperWriter.writeChildNodes language (previous.getD ASTNodeType.Undefined) nodes depth
        = .ok (pieces, depth1) →
      separatorFlags pieces false
        = List.zipWith separatorRule (nodes.map fun node => node.nodeType)
            (previous :: nodes.map fun node => some node.nodeType) := by
  induction nodes with
  | nil =>
    intro previous depth pieces depth1 h
    simp only [DWrapperWriter.writeChildNodes] at h
    injection h with h
    injection h with h1 h2
    subst h1
    rfl
  | cons node rest ih =>
    intro previous depth pieces depth1 h
    simp only [DWrapperWriter.writeChildNodes, bind, Except.bind, pure, Except.pure] at h
    cases hn : DWrapperWriter.writeNode language depth node with
    | error e => simp [hn] at h
    | ok r =>
      obtain ⟨decl, depth2⟩ := r
      simp only [hn] at h
      cases hr : DWrapperWriter.writeChildNodes language node.nodeType rest depth2 with
      | error e => simp [hr] at h
      | ok r2 =>
        obtain ⟨after, depth3⟩ := r2
        simp only [hr] at h
        injection h with h
        injection h with h1 h2
        subst h1
        have hafter := ih (some node.nodeType) depth2 after depth3 hr
        have hmarks := DWrapperWriter.writeNode_marks _ _ _ _ _ hn
        simp only [List.map_cons, List.zipWith_cons_cons, ← hafter,
          ← DWrapperWriter.separatorNeeded_eq_rule]
        by_cases hs : DWrapperWriter.separatorNeeded node.nodeType
            (previous.getD ASTNodeType.Undefined) = true
        · simp only [hs, if_true, List.append_assoc, List.cons_append, List.nil_append,
            separatorFlags, if_false, reduceCtorEq]
          rw [separatorFlags_append_decl _ _ _ hmarks]
          simp [separatorFlags]
        · simp only [Bool.not_eq_true] at hs
          simp only [hs, if_false, List.append_assoc, List.cons_append, List.nil_append,
            Bool.false_eq_true]
          rw [separatorFlags_append_decl _ _ _ hmarks]
          simp [separatorFlags]

/-- C2, as stated, fails: a function that is the first declaration of its
list gets no blank line before it. -/
theorem DWrapperWriter.separator_first_function_counterexample :
    DWrapperWriter.writeChildNodes Language.Cpp ASTNodeType.Undefined [addNode] 0
      = .ok ([⟨Mark.function, "int add(int a, int b);"⟩, ⟨Mark.terminator, "\n"⟩], 0) ∧
    separatorFlags [⟨Mark.function, "int add(int a, int b);"⟩, ⟨Mark.terminator, "\n"⟩] false
      = [false] ∧
    List.zipWith separatorClaimed ([addNode].map fun node => node.nodeType)
      (previousTypes [addNode]) = [true] := by
  refine ⟨rfl, by decide, by decide⟩

/-- C2, amended: in the declaration list of one namespace node a blank
separator line is written before every declaration that is not a function,
and before a function exactly when the node before it exists and is neither
a function nor of undefined kind; a function that comes first or follows a
function gets none. -/
theorem DWrapperWriter.writeChildNodes_separators (language : Language)
    (nodes : List (ASTNode String)) (depth : Nat) (pieces : List Piece) (depth1 : Nat)
    (h : DWrapperWriter.writeChildNodes language ASTNodeType.Undefined nodes depth
      = .ok (pieces, depth1)) :
    separatorFlags pieces false
      = List.zipWith separatorRule (nodes.map fun node => node.nodeType) (previousTypes nodes) :=
  DWrapperWriter.writeChildNodes_separatorFlags language nodes none depth pieces depth1 h

/-- C2 amended, at a concrete input: function, function, enum, function. -/
theorem DWrapperWriter.writeChildNodes_separators_witness :
    separatorFlags
      [⟨Mark.function, "int add(int a, int b);"⟩, ⟨Mark.terminator, "\n"⟩,
       ⟨Mark.function, "int add(int a, int b);"⟩, ⟨Mark.terminator, "\n"⟩,
       ⟨Mark.separator, "\n"⟩, ⟨Mark.enumDecl, "enum E\n\x7b\n\tA,\n\x7d"⟩,
       ⟨Mark.terminator, "\n"⟩,
       ⟨Mark.separator, "\n"⟩, ⟨Mark.function, "int add(int a, int b);"⟩,
       ⟨Mark.terminator, "\n"⟩] false
      = [false, false, true, true] :=
  DWrapperWriter.writeChildNodes_separators Language.Cpp
    [addNode, addNode, ⟨ASTNodeType.Enum, none, NodeData.enum ⟨"E", [⟨"A", none⟩]⟩⟩, addNode]
    0 _ 0 rfl

/-! ### A single function outside any namespace -/

set_option maxRecDepth 100000 in
/-- C10, as stated, fails: for C++ input the line of `add` does not carry the
mangled name; the output is the header, ending with the `extern(C++):` marker
and a blank line, followed by `int add(int a, int b);`, and the mangled name
occurs nowhere in it. -/
theorem DWrapperWriter.write_add_counterexample :
    (DWrapperWriter.write {} "0.1" "Thu Jan  1 00:00:00 1970\n"
        ⟨Language.Cpp, "m", [addNode]⟩).map (fun r => r.1)
      = .ok (DWrapperWriter.header "0.1" "Thu Jan  1 00:00:00 1970\n" Language.Cpp "m"
          ++ [⟨Mark.function, "int add(int a, int b);"⟩, ⟨Mark.terminator, "\n"⟩]) ∧
    ¬ ("_Z3addii".data <:+: "int add(int a, int b);".data) ∧
    ¬ ("_Z3addii".data <:+: (render (DWrapperWriter.header "0.1" "Thu Jan  1 00:00:00 1970\n"
          Language.Cpp "m"
          ++ [⟨Mark.function, "int add(int a, int b);"⟩, ⟨Mark.terminator, "\n"⟩])).data) := by
  refine ⟨rfl, by decide, by decide⟩

/-- For input that is not C++ the line of a function starts, after the
indentation, with the directive that carries the mangled name. -/
theorem DWrapperWriter.writeFunctionString_other (depth : Nat) (function : FunctionNode String)
    (isClassMethod : Bool) (line : String)
    (h : DWrapperWriter.writeFunctionString Language.Other depth function isClassMethod
      = .ok line) :
    ∃ rest, line
      = tabs depth ++ ("pragma(mangle, \"" ++ (function.mangledName ++ ("\") " ++ rest))) := by
  simp only [DWrapperWriter.writeFunctionString, bind, Except.bind, pure, Except.pure,
    ne_eq, reduceCtorEq, not_false_eq_true, if_true] at h
  by_cases hm : (isClassMethod && !function.isVirtual) = true <;>
    by_cases hnr : function.isNoreturn = true <;>
    simp only [hm, hnr, if_true, if_false, Bool.false_eq_true] at h
  · cases hp : DWrapperWriter.writeParams function.parameters "" with
    | error e => rw [hp] at h; simp at h
    | ok params =>
      rw [hp] at h
      injection h with h
      simp only [String.append_assoc] at h
      exact ⟨_, h.symm⟩
  · cases hret : DWrapperWriter.getTypeString function.returnType with
    | error e => rw [hret] at h; simp at h
    | ok ret =>
      rw [hret] at h
      cases hp : DWrapperWriter.writeParams function.parameters "" with
      | error e => rw [hp] at h; simp at h
      | ok params =>
        rw [hp] at h
        injection h with h
        simp only [String.append_assoc] at h
        exact ⟨_, h.symm⟩
  · cases hp : DWrapperWriter.writeParams function.parameters "" with
    | error e => rw [hp] at h; simp at h
    | ok params =>
      rw [hp] at h
      injection h with h
      simp only [String.append_assoc] at h
      exact ⟨_, h.symm⟩
  · cases hret : DWrapperWriter.getTypeString function.returnType with
    | error e => rw [hret] at h; simp at h
    | ok ret =>
      rw [hret] at h
      cases hp : DWrapperWriter.writeParams function.parameters "" with
      | error e => rw [hp] at h; simp at h
      | ok params =>
        rw [hp] at h
        injection h with h
        simp only [String.append_assoc] at h
        exact ⟨_, h.symm⟩

/-- C10, amended: for an input of one function outside any namespace whose
line renders, the output is the header (which ends with a blank line)
followed by the line of the function and a line break, with no separator
before the line. For input that is not C++ the line starts with the
directive carrying the mangled name; for C++ input the mangled name is not
written. For `int add(int a, int b)` the line is `int add(int a, int b);`
for C++ input and `pragma(mangle, "_Z3addii") int add(int a, int b);`
otherwise. -/
theorem DWrapperWriter.write_single_function (POLYGLOT_VERSION timeStr moduleName : String)
    (language : Language) (function : FunctionNode String) (line : String)
    (h : DWrapperWriter.writeFunctionString language 0 function false = .ok line) :
    DWrapperWriter.write {} POLYGLOT_VERSION timeStr
        ⟨language, moduleName, [⟨ASTNodeType.Function, none, NodeData.function function⟩]⟩
      = .ok (DWrapperWriter.header POLYGLOT_VERSION timeStr language moduleName
          ++ [⟨Mark.function, line⟩, ⟨Mark.terminator, "\n"⟩],
        ⟨NamespaceOrganizer.mk (Namespace.mk "" none) []
            [⟨ASTNodeType.Function, none, NodeData.function function⟩], 0⟩) ∧
    (language ≠ Language.Cpp →
      ∃ rest, line = "pragma(mangle, \"" ++ function.mangledName ++ "\") " ++ rest) ∧
    DWrapperWriter.writeFunctionString Language.Cpp 0 addFunction false
      = .ok "int add(int a, int b);" ∧
    DWrapperWriter.writeFunctionString Language.Other 0 addFunction false
      = .ok "pragma(mangle, \"_Z3addii\") int add(int a, int b);" := by
  refine ⟨?_, ?_, rfl, rfl⟩
  · simp [DWrapperWriter.write, DWrapperWriter.organize, DWrapperWriter.organizeNode,
      DWrapperWriter.attach, NamespaceOrganizer.empty,
      DWrapperWriter.writeFromNamespaceOrganizer, DWrapperWriter.writeChildNamespaces,
      DWrapperWriter.writeChildNodes, DWrapperWriter.writeNode, ASTNode.asFunction,
      DWrapperWriter.separatorNeeded, Namespace.name, h,
      bind, Except.bind, pure, Except.pure]
  · intro hl
    cases language with
    | Cpp => exact absurd rfl hl
    | Other =>
      obtain ⟨rest, hrest⟩ := DWrapperWriter.writeFunctionString_other 0 function false line h
      refine ⟨rest, ?_⟩
      rw [hrest]
      apply String.ext
      simp [tabs, String.data_append]

/-- C10 amended, at the function `add` of the scenario with C++ input. -/
theorem DWrapperWriter.write_single_function_witness :
    DWrapperWriter.write {} "0.1" "Thu Jan  1 00:00:00 1970\n"
        ⟨Language.Cpp, "m", [⟨ASTNodeType.Function, none, NodeData.function addFunction⟩]⟩
      = .ok (DWrapperWriter.header "0.1" "Thu Jan  1 00:00:00 1970\n" Language.Cpp "m"
          ++ [⟨Mark.function, "int add(int a, int b);"⟩, ⟨Mark.terminator, "\n"⟩],
        ⟨NamespaceOrganizer.mk (Namespace.mk "" none) []
            [⟨ASTNodeType.Function, none, NodeData.function addFunction⟩], 0⟩) :=
  (DWrapperWriter.write_single_function "0.1" "Thu Jan  1 00:00:00 1970\n" "m" Language.Cpp
    addFunction "int add(int a, int b);" rfl).1

/-! ### The namespace organizer -/

theorem foldl_push_eq_reverse (names stack : List String) :
    names.foldl (fun stack name => name :: stack) stack = names.reverse ++ stack := by
  induction names generalizing stack with
  | nil => rfl
  | cons name names ih => simp [ih]

/-- The stack that `write` walks is the namespace path, outermost first. -/
theorem DWrapperWriter.organizeNode_eq_attach (organizer : NamespaceOrganizer)
    (node : ASTNode String) :
    DWrapperWriter.organizeNode organizer node = DWrapperWriter.attach node node.path organizer := by
  unfold DWrapperWriter.organizeNode ASTNode.path
  cases node.cppNamespace with
  | none => rfl
  | some ns => simp [DWrapperWriter.namespaceStack, foldl_push_eq_reverse]

theorem Namespace.chain_ne_nil (ns : Namespace) : ns.chain ≠ [] := by
  cases ns with
  | mk name parent => cases parent <;> simp [Namespace.chain]

theorem ASTNode.path_eq_nil_iff (node : ASTNode String) :
    node.path = [] ↔ node.cppNamespace.isNone = true := by
  unfold ASTNode.path
  cases h : node.cppNamespace with
  | none => simp
  | some ns => simp [Namespace.chain_ne_nil]

theorem DWrapperWriter.attach_name (node : ASTNode String) (q : List String)
    (t : NamespaceOrganizer) : (DWrapperWriter.attach node q t).name = t.name := by
  cases t; cases q <;> rfl

theorem DWrapperWriter.attach_nil (node : ASTNode String) (t : NamespaceOrganizer) :
    DWrapperWriter.attach node [] t
      = .mk t.currentNamespace t.childNamespaces (t.childNodes ++ [node]) := by
  cases t; rfl

theorem DWrapperWriter.attach_cons (node : ASTNode String) (top : String) (q : List String)
    (t : NamespaceOrganizer) :
    DWrapperWriter.attach node (top :: q) t
      = .mk t.currentNamespace
          (DWrapperWriter.enterChild top (DWrapperWriter.attach node q) t.childNamespaces)
          t.childNodes := by
  cases t; rfl

theorem NamespaceOrganizer.childNamespaces_mk (ns : Namespace) (cs : List NamespaceOrganizer)
    (nodes : List (ASTNode String)) : (NamespaceOrganizer.mk ns cs nodes).childNamespaces = cs :=
  rfl

theorem NamespaceOrganizer.childNodes_mk (ns : Namespace) (cs : List NamespaceOrganizer)
    (nodes : List (ASTNode String)) : (NamespaceOrganizer.mk ns cs nodes).childNodes = nodes :=
  rfl

theorem NamespaceOrganizer.fresh_name (name : String) :
    (NamespaceOrganizer.fresh name).name = name := rfl

theorem DWrapperWriter.enterChild_cons (top : String)
    (k : NamespaceOrganizer → NamespaceOrganizer) (c : NamespaceOrganizer)
    (cs : List NamespaceOrganizer) :
    DWrapperWriter.enterChild top k (c :: cs)
      = if c.name = top then k c :: cs else c :: DWrapperWriter.enterChild top k cs := rfl

/-- Looking a name up after one round of the walk: the name walked finds the
node entered, every other name finds what it found before. -/
theorem DWrapperWriter.find_enterChild (top : String)
    (k : NamespaceOrganizer → NamespaceOrganizer) (hk : ∀ c, (k c).name = c.name)
    (a : String) (cs : List NamespaceOrganizer) :
    (DWrapperWriter.enterChild top k cs).find? (fun child => child.name = a)
      = if a = top then
          some (k ((cs.find? (fun child => child.name = top)).getD (NamespaceOrganizer.fresh top)))
        else cs.find? (fun child => child.name = a) := by
  induction cs with
  | nil =>
    have hname : (k (NamespaceOrganizer.fresh top)).name = top := by
      rw [hk, NamespaceOrganizer.fresh_name]
    by_cases ha : a = top
    · subst ha
      simp only [DWrapperWriter.enterChild, if_true, List.find?_nil, Option.getD_none]
      rw [List.find?_cons_of_pos _ (by simp [hname])]
    · have hne : ¬ top = a := fun h => ha h.symm
      simp only [DWrapperWriter.enterChild, ha, if_false, List.find?_nil]
      rw [List.find?_cons_of_neg _ (by simp [hname, hne])]
      rfl
  | cons c cs ih =>
    rw [DWrapperWriter.enterChild_cons]
    by_cases hc : c.name = top
    · simp only [hc, if_true]
      by_cases ha : a = top
      · subst ha
        simp [List.find?_cons, hk, hc]
      · have hne : ¬ top = a := fun h => ha h.symm
        simp [List.find?_cons, hk, hc, hne, ha]
    · simp only [hc, if_false]
      by_cases hca : c.name = a
      · have hat : ¬ a = top := fun h => hc (hca.trans h)
        simp [List.find?_cons, hca, hat]
      · by_cases ha : a = top
        · subst ha
          simp [List.find?_cons, hc, ih]
        · simp [List.find?_cons, hca, ih, ha]

theorem NamespaceOrganizer.declarationsAt_fresh (name : String) (p : List String) :
    (NamespaceOrganizer.fresh name).declarationsAt p = [] := by
  cases p <;> rfl

theorem NamespaceOrganizer.follow_cons (top : String) (rest : List String)
    (t : NamespaceOrganizer) :
    NamespaceOrganizer.follow (top :: rest) t
      = (t.childNamespaces.find? (fun child => child.name = top)).bind
          (NamespaceOrganizer.follow rest) := by
  simp only [NamespaceOrganizer.follow]
  cases t.childNamespaces.find? (fun child => child.name = top) <;> rfl

theorem NamespaceOrganizer.declarationsAt_cons (top : String) (rest : List String)
    (t : NamespaceOrganizer) :
    t.declarationsAt (top :: rest)
      = match t.childNamespaces.find? (fun child => child.name = top) with
        | some child => child.declarationsAt rest
        | none => [] := by
  simp only [NamespaceOrganizer.declarationsAt, NamespaceOrganizer.follow_cons]
  cases t.childNamespaces.find? (fun child => child.name = top) <;> rfl

/-- Attaching a declaration at path `q` appends it to the declarations at
`q` and leaves the declarations at every other path as they were. -/
theorem DWrapperWriter.declarationsAt_attach (node : ASTNode String) (q : List String) :
    ∀ (p : List String) (t : NamespaceOrganizer),
      (DWrapperWriter.attach node q t).declarationsAt p
        = t.declarationsAt p ++ (if p = q then [node] else []) := by
  induction q with
  | nil =>
    intro p t
    rw [DWrapperWriter.attach_nil]
    cases p with
    | nil => simp [NamespaceOrganizer.declarationsAt, NamespaceOrganizer.follow,
        NamespaceOrganizer.childNodes_mk]
    | cons a ps =>
      simp [NamespaceOrganizer.declarationsAt_cons, NamespaceOrganizer.childNamespaces_mk]
  | cons top qs ih =>
    intro p t
    rw [DWrapperWriter.attach_cons]
    cases p with
    | nil => simp [NamespaceOrganizer.declarationsAt, NamespaceOrganizer.follow,
        NamespaceOrganizer.childNodes_mk]
    | cons a ps =>
      have hfind := DWrapperWriter.find_enterChild top (DWrapperWriter.attach node qs)
        (DWrapperWriter.attach_name node qs) a t.childNamespaces
      rw [NamespaceOrganizer.declarationsAt_cons, NamespaceOrganizer.declarationsAt_cons,
        NamespaceOrganizer.childNamespaces_mk, hfind]
      by_cases ha : a = top
      · subst ha
        simp only [if_true, List.cons.injEq, true_and]
        cases hf : List.find? (fun child => decide (child.name = a)) t.childNamespaces with
        | none =>
          simp only [Option.getD_none]
          rw [ih ps, NamespaceOrganizer.declarationsAt_fresh]
        | some c =>
          simp only [Option.getD_some]
          exact ih ps c
      · have hpq : ¬ (a :: ps = top :: qs) := fun h => ha (List.cons.inj h).1
        simp only [ha, if_false, hpq, List.append_nil]

/-- The declarations at a path after the loop: those already there, then the
declarations of the input with that path, in input order. -/
theorem DWrapperWriter.declarationsAt_organize (nodes : List (ASTNode String)) :
    ∀ (t : NamespaceOrganizer) (p : List String),
      (DWrapperWriter.organize t nodes).declarationsAt p
        = t.declarationsAt p ++ nodes.filter (fun node => node.path = p) := by
  induction nodes with
  | nil => intro t p; simp [DWrapperWriter.organize]
  | cons node nodes ih =>
    intro t p
    have hstep : DWrapperWriter.organize t (node :: nodes)
        = DWrapperWriter.organize (DWrapperWriter.organizeNode t node) nodes := rfl
    rw [hstep, ih, DWrapperWriter.organizeNode_eq_attach, DWrapperWriter.declarationsAt_attach]
    by_cases hp : p = node.path
    · subst hp
      simp
    · have hp1 : ¬ node.path = p := fun h => hp h.symm
      simp [hp, hp1]

theorem NamespaceOrganizer.declarationsAt_empty (p : List String) :
    NamespaceOrganizer.empty.declarationsAt p = [] :=
  NamespaceOrganizer.declarationsAt_fresh "" p

theorem NamespaceOrganizer.paths_eq (t : NamespaceOrganizer) :
    t.paths = NamespaceOrganizer.pathsOfList t.childNamespaces := by
  cases t
  simp [NamespaceOrganizer.paths, NamespaceOrganizer.pathsOfList,
    NamespaceOrganizer.descendants, NamespaceOrganizer.childNamespaces_mk]

theorem NamespaceOrganizer.descendants_eq (t : NamespaceOrganizer) :
    t.descendants = NamespaceOrganizer.descendantsOfList t.childNamespaces := by
  cases t
  simp [NamespaceOrganizer.descendants, NamespaceOrganizer.childNamespaces_mk]

theorem NamespaceOrganizer.pathsOfList_nil : NamespaceOrganizer.pathsOfList [] = [] := by
  simp [NamespaceOrganizer.pathsOfList, NamespaceOrganizer.descendantsOfList]

theorem NamespaceOrganizer.pathsOfList_cons (c : NamespaceOrganizer)
    (cs : List NamespaceOrganizer) :
    NamespaceOrganizer.pathsOfList (c :: cs)
      = ([c.name] :: c.paths.map (fun r => c.name :: r)) ++ NamespaceOrganizer.pathsOfList cs := by
  simp [NamespaceOrganizer.pathsOfList, NamespaceOrganizer.descendantsOfList,
    NamespaceOrganizer.paths, List.map_map, Function.comp_def]

/-- A path below a list of trees starts with the name of one of them and goes
on with nothing or with a path below it. -/
theorem NamespaceOrganizer.mem_pathsOfList (cs : List NamespaceOrganizer) (p : List String) :
    p ∈ NamespaceOrganizer.pathsOfList cs
      ↔ ∃ c ∈ cs, ∃ r, p = c.name :: r ∧ (r = [] ∨ r ∈ c.paths) := by
  induction cs with
  | nil => simp [NamespaceOrganizer.pathsOfList_nil]
  | cons c cs ih =>
    rw [NamespaceOrganizer.pathsOfList_cons]
    simp only [List.mem_append, List.mem_cons, List.mem_map, ih]
    constructor
    · rintro ((h | ⟨r, hr, h⟩) | ⟨c1, hc1, r, h⟩)
      · exact ⟨c, Or.inl rfl, [], h, Or.inl rfl⟩
      · exact ⟨c, Or.inl rfl, r, h.symm, Or.inr hr⟩
      · exact ⟨c1, Or.inr hc1, r, h⟩
    · rintro ⟨c1, hc1 | hc1, r, h, hr | hr⟩
      · subst hc1 hr; exact Or.inl (Or.inl h)
      · subst hc1; exact Or.inl (Or.inr ⟨r, hr, h.symm⟩)
      · exact Or.inr ⟨c1, hc1, r, h, Or.inl hr⟩
      · exact Or.inr ⟨c1, hc1, r, h, Or.inr hr⟩

theorem NamespaceOrganizer.nil_not_mem_paths (t : NamespaceOrganizer) : [] ∉ t.paths := by
  rw [NamespaceOrganizer.paths_eq, NamespaceOrganizer.mem_pathsOfList]
  rintro ⟨c, _, r, h, _⟩
  exact absurd h (by simp)

theorem NamespaceOrganizer.paths_fresh (name : String) :
    (NamespaceOrganizer.fresh name).paths = [] := by
  simp [NamespaceOrganizer.paths_eq, NamespaceOrganizer.fresh,
    NamespaceOrganizer.childNamespaces_mk, NamespaceOrganizer.pathsOfList_nil]

theorem nonempty_initial_segment_cons (p : List String) (top : String) (qs : List String) :
    (p ≠ [] ∧ p <+: top :: qs) ↔ ∃ r, p = top :: r ∧ r <+: qs := by
  rw [List.prefix_cons_iff]
  constructor
  · rintro ⟨hne, h | h⟩
    · exact absurd h hne
    · exact h
  · rintro ⟨r, hr, hpre⟩
    exact ⟨by simp [hr], Or.inr ⟨r, hr, hpre⟩⟩

theorem NamespaceOrganizer.mem_block (name : String) (below : List (List String))
    (p : List String) :
    p ∈ [name] :: below.map (fun r => name :: r)
      ↔ ∃ r, p = name :: r ∧ (r = [] ∨ r ∈ below) := by
  simp only [List.mem_cons, List.mem_map]
  constructor
  · rintro (h | ⟨r, hr, h⟩)
    · exact ⟨[], h, Or.inl rfl⟩
    · exact ⟨r, h.symm, Or.inr hr⟩
  · rintro ⟨r, h, hr | hr⟩
    · subst hr; exact Or.inl h
    · exact Or.inr ⟨r, hr, h.symm⟩

/-- The paths below the children after one round of the walk: the paths
there were, and the non-empty initial segments of the path walked. -/
theorem DWrapperWriter.mem_pathsOfList_enterChild (top : String) (qs : List String)
    (k : NamespaceOrganizer → NamespaceOrganizer) (hk : ∀ c, (k c).name = c.name)
    (hm : ∀ c r, r ∈ (k c).paths ↔ r ∈ c.paths ∨ (r ≠ [] ∧ r <+: qs))
    (cs : List NamespaceOrganizer) (p : List String) :
    p ∈ NamespaceOrganizer.pathsOfList (DWrapperWriter.enterChild top k cs)
      ↔ p ∈ NamespaceOrganizer.pathsOfList cs ∨ (p ≠ [] ∧ p <+: top :: qs) := by
  rw [nonempty_initial_segment_cons]
  induction cs with
  | nil =>
    simp only [DWrapperWriter.enterChild, NamespaceOrganizer.pathsOfList_cons,
      NamespaceOrganizer.pathsOfList_nil, List.append_nil, NamespaceOrganizer.mem_block, hk, hm,
      NamespaceOrganizer.fresh_name, NamespaceOrganizer.paths_fresh, List.not_mem_nil,
      false_or]
    constructor
    · rintro ⟨r, h, hr | ⟨_, hr⟩⟩
      · subst hr; exact ⟨[], h, List.nil_prefix⟩
      · exact ⟨r, h, hr⟩
    · rintro ⟨r, h, hr⟩
      by_cases hnil : r = []
      · exact ⟨r, h, Or.inl hnil⟩
      · exact ⟨r, h, Or.inr ⟨hnil, hr⟩⟩
  | cons c cs ih =>
    rw [DWrapperWriter.enterChild_cons]
    by_cases hc : c.name = top
    · simp only [hc, if_true, NamespaceOrganizer.pathsOfList_cons, List.mem_append,
        NamespaceOrganizer.mem_block, hk, hm]
      constructor
      · rintro (⟨r, h, hr | hr | ⟨_, hr⟩⟩ | h)
        · exact Or.inl (Or.inl ⟨r, h, Or.inl hr⟩)
        · exact Or.inl (Or.inl ⟨r, h, Or.inr hr⟩)
        · exact Or.inr ⟨r, h, hr⟩
        · exact Or.inl (Or.inr h)
      · rintro ((⟨r, h, hr | hr⟩ | h) | ⟨r, h, hr⟩)
        · exact Or.inl ⟨r, h, Or.inl hr⟩
        · exact Or.inl ⟨r, h, Or.inr (Or.inl hr)⟩
        · exact Or.inr h
        · by_cases hnil : r = []
          · exact Or.inl ⟨r, h, Or.inl hnil⟩
          · exact Or.inl ⟨r, h, Or.inr (Or.inr ⟨hnil, hr⟩)⟩
    · simp only [hc, if_false, NamespaceOrganizer.pathsOfList_cons, List.mem_append,
        NamespaceOrganizer.mem_block, ih]
      constructor
      · rintro (h | h | h)
        · exact Or.inl (Or.inl h)
        · exact Or.inl (Or.inr h)
        · exact Or.inr h
      · rintro ((h | h) | h)
        · exact Or.inl h
        · exact Or.inr (Or.inl h)
        · exact Or.inr (Or.inr h)

/-- The paths of the tree after attaching at `q`: the paths there were, and
the non-empty initial segments of `q`. -/
theorem DWrapperWriter.mem_paths_attach (node : ASTNode String) (q : List String) :
    ∀ (t : NamespaceOrganizer) (p : List String),
      p ∈ (DWrapperWriter.attach node q t).paths ↔ p ∈ t.paths ∨ (p ≠ [] ∧ p <+: q) := by
  induction q with
  | nil =>
    intro t p
    rw [DWrapperWriter.attach_nil, NamespaceOrganizer.paths_eq, NamespaceOrganizer.paths_eq,
      NamespaceOrganizer.childNamespaces_mk]
    constructor
    · exact Or.inl
    · rintro (h | ⟨hne, h⟩)
      · exact h
      · exact absurd (List.prefix_nil.1 h) hne
  | cons top qs ih =>
    intro t p
    rw [DWrapperWriter.attach_cons, NamespaceOrganizer.paths_eq, NamespaceOrganizer.paths_eq,
      NamespaceOrganizer.childNamespaces_mk]
    exact DWrapperWriter.mem_pathsOfList_enterChild top qs _
      (DWrapperWriter.attach_name node qs) ih _ p

theorem NamespaceOrganizer.nodup_block (c : NamespaceOrganizer) :
    ([c.name] :: c.paths.map (fun r => c.name :: r)).Nodup ↔ c.paths.Nodup := by
  rw [List.nodup_cons, List.nodup_map_iff (List.cons_injective)]
  constructor
  · exact fun h => h.2
  · intro h
    refine ⟨?_, h⟩
    simp only [List.mem_map, not_exists, not_and]
    intro r hr heq
    have : r = [] := by simpa using heq
    subst this
    exact NamespaceOrganizer.nil_not_mem_paths c hr

/-- One round of the walk keeps the paths below the children free of
repetition. -/
theorem DWrapperWriter.nodup_pathsOfList_enterChild (top : String) (qs : List String)
    (k : NamespaceOrganizer → NamespaceOrganizer) (hk : ∀ c, (k c).name = c.name)
    (hm : ∀ c r, r ∈ (k c).paths ↔ r ∈ c.paths ∨ (r ≠ [] ∧ r <+: qs))
    (hn : ∀ c, c.paths.Nodup → (k c).paths.Nodup)
    (cs : List NamespaceOrganizer) (h : (NamespaceOrganizer.pathsOfList cs).Nodup) :
    (NamespaceOrganizer.pathsOfList (DWrapperWriter.enterChild top k cs)).Nodup := by
  induction cs with
  | nil =>
    simp only [DWrapperWriter.enterChild, NamespaceOrganizer.pathsOfList_cons,
      NamespaceOrganizer.pathsOfList_nil, List.append_nil]
    rw [NamespaceOrganizer.nodup_block]
    exact hn _ (by simp [NamespaceOrganizer.paths_fresh])
  | cons c cs ih =>
    rw [NamespaceOrganizer.pathsOfList_cons, List.nodup_append] at h
    obtain ⟨hblock, hrest, hdisj⟩ := h
    rw [DWrapperWriter.enterChild_cons]
    by_cases hc : c.name = top
    · simp only [hc, if_true]
      rw [NamespaceOrganizer.pathsOfList_cons, List.nodup_append]
      refine ⟨?_, hrest, ?_⟩
      · rw [NamespaceOrganizer.nodup_block]
        exact hn c ((NamespaceOrganizer.nodup_block c).1 hblock)
      · intro x hx1 hx2
        rw [NamespaceOrganizer.mem_block] at hx1
        obtain ⟨r, hxr, _⟩ := hx1
        rw [hk, hc] at hxr
        rw [NamespaceOrganizer.mem_pathsOfList] at hx2
        obtain ⟨c1, hc1, r1, hxr1, _⟩ := hx2
        have hname : c1.name = top := by
          rw [hxr] at hxr1
          exact ((List.cons.inj hxr1).1).symm
        have h1 : [top] ∈ [c.name] :: c.paths.map (fun r => c.name :: r) := by
          rw [hc]; exact List.mem_cons_self _ _
        have h2 : [top] ∈ NamespaceOrganizer.pathsOfList cs := by
          rw [NamespaceOrganizer.mem_pathsOfList]
          exact ⟨c1, hc1, [], by rw [hname], Or.inl rfl⟩
        exact hdisj h1 h2
    · simp only [hc, if_false]
      rw [NamespaceOrganizer.pathsOfList_cons, List.nodup_append]
      refine ⟨hblock, ih hrest, ?_⟩
      intro x hx1 hx2
      rw [DWrapperWriter.mem_pathsOfList_enterChild top qs k hk hm] at hx2
      rcases hx2 with hx2 | hx2
      · exact hdisj hx1 hx2
      · rw [nonempty_initial_segment_cons] at hx2
        obtain ⟨r, hxr, _⟩ := hx2
        rw [NamespaceOrganizer.mem_block] at hx1
        obtain ⟨r1, hxr1, _⟩ := hx1
        rw [hxr] at hxr1
        exact hc ((List.cons.inj hxr1).1).symm

/-- Attaching a declaration keeps the paths of the tree free of repetition. -/
theorem DWrapperWriter.nodup_paths_attach (node : ASTNode String) (q : List String) :
    ∀ t : NamespaceOrganizer, t.paths.Nodup → (DWrapperWriter.attach node q t).paths.Nodup := by
  induction q with
  | nil =>
    intro t h
    rw [DWrapperWriter.attach_nil, NamespaceOrganizer.paths_eq,
      NamespaceOrganizer.childNamespaces_mk, ← NamespaceOrganizer.paths_eq]
    exact h
  | cons top qs ih =>
    intro t h
    rw [DWrapperWriter.attach_cons, NamespaceOrganizer.paths_eq,
      NamespaceOrganizer.childNamespaces_mk]
    rw [NamespaceOrganizer.paths_eq] at h
    exact DWrapperWriter.nodup_pathsOfList_enterChild top qs _
      (DWrapperWriter.attach_name node qs) (DWrapperWriter.mem_paths_attach node qs) ih _ h

/-- After the loop over the input, started on a tree whose paths are free of
repetition: the paths are still free of repetition, and they are the paths
there were together with the non-empty initial segments of the paths of the
input. -/
theorem DWrapperWriter.paths_organize (nodes : List (ASTNode String)) :
    ∀ t : NamespaceOrganizer, t.paths.Nodup →
      (DWrapperWriter.organize t nodes).paths.Nodup ∧
      ∀ p, p ∈ (DWrapperWriter.organize t nodes).paths
        ↔ p ∈ t.paths ∨ (p ≠ [] ∧ ∃ node ∈ nodes, p <+: node.path) := by
  induction nodes with
  | nil =>
    intro t h
    exact ⟨h, fun p => by simp [DWrapperWriter.organize]⟩
  | cons node nodes ih =>
    intro t h
    have hstep : DWrapperWriter.organize t (node :: nodes)
        = DWrapperWriter.organize (DWrapperWriter.organizeNode t node) nodes := rfl
    rw [hstep, DWrapperWriter.organizeNode_eq_attach]
    obtain ⟨hnodup, hmem⟩ := ih _ (DWrapperWriter.nodup_paths_attach node node.path t h)
    refine ⟨hnodup, fun p => ?_⟩
    rw [hmem, DWrapperWriter.mem_paths_attach]
    constructor
    · rintro ((h1 | ⟨hne, h1⟩) | ⟨hne, n, hn, h1⟩)
      · exact Or.inl h1
      · exact Or.inr ⟨hne, node, List.mem_cons_self _ _, h1⟩
      · exact Or.inr ⟨hne, n, List.mem_cons_of_mem _ hn, h1⟩
    · rintro (h1 | ⟨hne, n, hn, h1⟩)
      · exact Or.inl (Or.inl h1)
      · rcases List.mem_cons.1 hn with hn | hn
        · subst hn; exact Or.inl (Or.inr ⟨hne, h1⟩)
        · exact Or.inr ⟨hne, n, hn, h1⟩

theorem NamespaceOrganizer.mem_descendantsOfList (cs : List NamespaceOrganizer)
    (p : List String) (o : NamespaceOrganizer) :
    (p, o) ∈ NamespaceOrganizer.descendantsOfList cs
      ↔ ∃ c ∈ cs, ∃ r, p = c.name :: r ∧ ((r = [] ∧ o = c) ∨ (r, o) ∈ c.descendants) := by
  induction cs with
  | nil => simp [NamespaceOrganizer.descendantsOfList]
  | cons c cs ih =>
    simp only [NamespaceOrganizer.descendantsOfList, List.mem_append, List.mem_cons,
      List.mem_map, Prod.mk.injEq, ih, Prod.exists]
    constructor
    · rintro ((⟨h1, h2⟩ | ⟨r, o1, hr, h1, h2⟩) | ⟨c1, hc1, r, h⟩)
      · exact ⟨c, Or.inl rfl, [], h1, Or.inl ⟨rfl, h2⟩⟩
      · subst h2; exact ⟨c, Or.inl rfl, r, h1.symm, Or.inr hr⟩
      · exact ⟨c1, Or.inr hc1, r, h⟩
    · rintro ⟨c1, hc1 | hc1, r, h, ⟨hr, ho⟩ | hr⟩
      · subst hc1 hr; exact Or.inl (Or.inl ⟨h, ho⟩)
      · subst hc1; exact Or.inl (Or.inr ⟨r, o, hr, h.symm, rfl⟩)
      · exact Or.inr ⟨c1, hc1, r, h, Or.inl ⟨hr, ho⟩⟩
      · exact Or.inr ⟨c1, hc1, r, h, Or.inr hr⟩

/-- When the paths below a list of trees are free of repetition, looking up
the name of one of the trees finds that tree, and the paths below it are free
of repetition. -/
theorem NamespaceOrganizer.find_of_nodup (cs : List NamespaceOrganizer)
    (h : (NamespaceOrganizer.pathsOfList cs).Nodup) (c : NamespaceOrganizer) (hc : c ∈ cs) :
    cs.find? (fun child => child.name = c.name) = some c ∧ c.paths.Nodup := by
  induction cs with
  | nil => simp at hc
  | cons c0 cs ih =>
    rw [NamespaceOrganizer.pathsOfList_cons, List.nodup_append] at h
    obtain ⟨hblock, hrest, hdisj⟩ := h
    rcases List.mem_cons.1 hc with hc | hc
    · subst hc
      exact ⟨List.find?_cons_of_pos _ (by simp),
        (List.nodup_map_iff List.cons_injective).1 (List.nodup_cons.1 hblock).2⟩
    · have hne : ¬ c0.name = c.name := by
        intro heq
        have h1 : [c0.name] ∈ [c0.name] :: c0.paths.map (fun r => c0.name :: r) :=
          List.mem_cons_self _ _
        have h2 : [c0.name] ∈ NamespaceOrganizer.pathsOfList cs := by
          rw [NamespaceOrganizer.mem_pathsOfList]
          exact ⟨c, hc, [], by rw [heq], Or.inl rfl⟩
        exact hdisj h1 h2
      rw [List.find?_cons_of_neg _ (by simp [hne])]
      exact ih hrest hc

theorem NamespaceOrganizer.names_nodup_of_nodup (cs : List NamespaceOrganizer)
    (h : (NamespaceOrganizer.pathsOfList cs).Nodup) :
    (cs.map NamespaceOrganizer.name).Nodup := by
  induction cs with
  | nil => simp
  | cons c0 cs ih =>
    rw [NamespaceOrganizer.pathsOfList_cons, List.nodup_append] at h
    obtain ⟨_, hrest, hdisj⟩ := h
    rw [List.map_cons, List.nodup_cons]
    refine ⟨?_, ih hrest⟩
    intro hmem
    obtain ⟨c, hc, heq⟩ := List.mem_map.1 hmem
    have h1 : [c0.name] ∈ [c0.name] :: c0.paths.map (fun r => c0.name :: r) :=
      List.mem_cons_self _ _
    have h2 : [c0.name] ∈ NamespaceOrganizer.pathsOfList cs := by
      rw [NamespaceOrganizer.mem_pathsOfList]
      exact ⟨c, hc, [], by rw [heq], Or.inl rfl⟩
    exact hdisj h1 h2

/-- In a tree whose paths are free of repetition every node is the one
reached by following its path. -/
theorem NamespaceOrganizer.follow_of_mem_descendants (p : List String) :
    ∀ (t o : NamespaceOrganizer), t.paths.Nodup → (p, o) ∈ t.descendants →
      NamespaceOrganizer.follow p t = some o := by
  induction p with
  | nil =>
    intro t o _ hmem
    have : [] ∈ t.paths := List.mem_map.2 ⟨([], o), hmem, rfl⟩
    exact absurd this (NamespaceOrganizer.nil_not_mem_paths t)
  | cons a r ih =>
    intro t o hnodup hmem
    rw [NamespaceOrganizer.descendants_eq, NamespaceOrganizer.mem_descendantsOfList] at hmem
    obtain ⟨c, hc, r1, hp, hcase⟩ := hmem
    obtain ⟨ha, hr⟩ := List.cons.inj hp
    subst ha hr
    rw [NamespaceOrganizer.paths_eq] at hnodup
    obtain ⟨hfind, hcn⟩ := NamespaceOrganizer.find_of_nodup _ hnodup c hc
    rw [NamespaceOrganizer.follow_cons, hfind]
    rcases hcase with ⟨hr, ho⟩ | hcase
    · subst hr ho; rfl
    · exact ih c o hcn hcase

/-- In a tree whose paths are free of repetition the children of every node
reached by a path have pairwise distinct names. -/
theorem NamespaceOrganizer.names_nodup_of_follow (p : List String) :
    ∀ (t o : NamespaceOrganizer), t.paths.Nodup → NamespaceOrganizer.follow p t = some o →
      (o.childNamespaces.map NamespaceOrganizer.name).Nodup := by
  induction p with
  | nil =>
    intro t o hnodup hf
    simp only [NamespaceOrganizer.follow, Option.some.injEq] at hf
    subst hf
    rw [NamespaceOrganizer.paths_eq] at hnodup
    exact NamespaceOrganizer.names_nodup_of_nodup _ hnodup
  | cons a r ih =>
    intro t o hnodup hf
    rw [NamespaceOrganizer.follow_cons] at hf
    cases hfind : t.childNamespaces.find? (fun child => child.name = a) with
    | none => rw [hfind] at hf; simp at hf
    | some c =>
      rw [hfind] at hf
      rw [NamespaceOrganizer.paths_eq] at hnodup
      exact ih c o (NamespaceOrganizer.find_of_nodup _ hnodup c
        (List.mem_of_find?_eq_some hfind)).2 hf

theorem NamespaceOrganizer.paths_empty : NamespaceOrganizer.empty.paths = [] :=
  NamespaceOrganizer.paths_fresh ""

/-- When a child with the name walked exists, the walk enters it and the
names of the children stay as they were. -/
theorem DWrapperWriter.enterChild_of_find (top : String)
    (k : NamespaceOrganizer → NamespaceOrganizer) (hk : ∀ c, (k c).name = c.name)
    (cs : List NamespaceOrganizer) (child : NamespaceOrganizer)
    (h : cs.find? (fun c => c.name = top) = some child) :
    (DWrapperWriter.enterChild top k cs).map NamespaceOrganizer.name
        = cs.map NamespaceOrganizer.name ∧
      (DWrapperWriter.enterChild top k cs).find? (fun c => c.name = top) = some (k child) := by
  refine ⟨?_, by rw [DWrapperWriter.find_enterChild top k hk top cs, h]; simp⟩
  induction cs with
  | nil => simp at h
  | cons c cs ih =>
    rw [DWrapperWriter.enterChild_cons]
    by_cases hc : c.name = top
    · simp [hc, hk]
    · rw [List.find?_cons_of_neg _ (by simp [hc])] at h
      simp [hc, ih h]

/-- C3: the organizer started on an empty root puts every declaration
without a namespace in the declaration list of the root and every other
declaration in the node reached from the root by its namespace path,
outermost first; the declaration list of every node of the tree, reached by a
path or met in the enumeration of the tree, is the list of the input
declarations with that path, in input order. -/
theorem DWrapperWriter.organize_places_declarations (nodes : List (ASTNode String)) :
    (DWrapperWriter.organize NamespaceOrganizer.empty nodes).childNodes
      = nodes.filter (fun node => node.cppNamespace.isNone) ∧
    (∀ node ∈ nodes, ∃ o,
      NamespaceOrganizer.follow node.path (DWrapperWriter.organize NamespaceOrganizer.empty nodes)
        = some o ∧ node ∈ o.childNodes) ∧
    (∀ p o,
      NamespaceOrganizer.follow p (DWrapperWriter.organize NamespaceOrganizer.empty nodes) = some o →
      o.childNodes = nodes.filter (fun node => node.path = p)) ∧
    (∀ p o, (p, o) ∈ (DWrapperWriter.organize NamespaceOrganizer.empty nodes).descendants →
      o.childNodes = nodes.filter (fun node => node.path = p)) := by
  have hat : ∀ p o,
      NamespaceOrganizer.follow p (DWrapperWriter.organize NamespaceOrganizer.empty nodes) = some o →
      o.childNodes = nodes.filter (fun node => node.path = p) := by
    intro p o hf
    have h := DWrapperWriter.declarationsAt_organize nodes NamespaceOrganizer.empty p
    rw [NamespaceOrganizer.declarationsAt_empty, List.nil_append] at h
    simp only [NamespaceOrganizer.declarationsAt, hf] at h
    exact h
  refine ⟨?_, ?_, hat, ?_⟩
  · rw [hat [] _ rfl]
    apply List.filter_congr
    intro node _
    by_cases h : node.cppNamespace.isNone = true
    · simp [h, (ASTNode.path_eq_nil_iff node).2 h]
    · have : ¬ node.path = [] := fun hp => h ((ASTNode.path_eq_nil_iff node).1 hp)
      simp [h, this]
  · intro node hnode
    have h := DWrapperWriter.declarationsAt_organize nodes NamespaceOrganizer.empty node.path
    rw [NamespaceOrganizer.declarationsAt_empty, List.nil_append] at h
    have hmem : node ∈ nodes.filter (fun n => n.path = node.path) := by
      simp [List.mem_filter, hnode]
    rw [← h] at hmem
    unfold NamespaceOrganizer.declarationsAt at hmem
    cases hf : NamespaceOrganizer.follow node.path
        (DWrapperWriter.organize NamespaceOrganizer.empty nodes) with
    | none => rw [hf] at hmem; simp at hmem
    | some o => rw [hf] at hmem; exact ⟨o, rfl, hmem⟩
  · intro p o hmem
    have hnodup := (DWrapperWriter.paths_organize nodes NamespaceOrganizer.empty
      (by simp [NamespaceOrganizer.paths_empty])).1
    exact hat p o (NamespaceOrganizer.follow_of_mem_descendants p _ o hnodup hmem)

/-- C3, at a concrete input: `add` outside any namespace and `Color` inside
`gfx`; the node reached by the path of `Color` holds it. -/
theorem DWrapperWriter.organize_places_declarations_witness :
    ∃ o, NamespaceOrganizer.follow colorNode.path
        (DWrapperWriter.organize NamespaceOrganizer.empty [addNode, colorNode]) = some o ∧
      colorNode ∈ o.childNodes :=
  (DWrapperWriter.organize_places_declarations [addNode, colorNode]).2.1 colorNode
    (List.mem_cons_of_mem _ (List.mem_cons_self _ _))

/-- C4: in the tree the organizer builds from an empty root the paths of the
nodes are pairwise different, and they are the non-empty initial segments of
the namespace paths of the input (outermost first) and nothing else; the
children of the root and of every other node have pairwise distinct names;
and attaching along a path whose first name is carried by a child enters that
child and leaves the names of the children as they were. -/
theorem DWrapperWriter.organize_one_node_per_path (nodes : List (ASTNode String)) :
    (DWrapperWriter.organize NamespaceOrganizer.empty nodes).paths.Nodup ∧
    (∀ p, p ∈ (DWrapperWriter.organize NamespaceOrganizer.empty nodes).paths
      ↔ p ≠ [] ∧ ∃ node ∈ nodes, p <+: node.path) ∧
    ((DWrapperWriter.organize NamespaceOrganizer.empty nodes).childNamespaces.map
      NamespaceOrganizer.name).Nodup ∧
    (∀ p o, (p, o) ∈ (DWrapperWriter.organize NamespaceOrganizer.empty nodes).descendants →
      (o.childNamespaces.map NamespaceOrganizer.name).Nodup) ∧
    (∀ (node : ASTNode String) (top : String) (q : List String) (t child : NamespaceOrganizer),
      t.childNamespaces.find? (fun c => c.name = top) = some child →
      (DWrapperWriter.attach node (top :: q) t).childNamespaces.map NamespaceOrganizer.name
          = t.childNamespaces.map NamespaceOrganizer.name ∧
        (DWrapperWriter.attach node (top :: q) t).childNamespaces.find? (fun c => c.name = top)
          = some (DWrapperWriter.attach node q child)) := by
  obtain ⟨hnodup, hmem⟩ := DWrapperWriter.paths_organize nodes NamespaceOrganizer.empty
    (by simp [NamespaceOrganizer.paths_empty])
  refine ⟨hnodup, ?_, ?_, ?_, ?_⟩
  · intro p
    rw [hmem, NamespaceOrganizer.paths_empty]
    simp
  · exact NamespaceOrganizer.names_nodup_of_follow [] _ _ hnodup rfl
  · intro p o hd
    exact NamespaceOrganizer.names_nodup_of_follow p _ o hnodup
      (NamespaceOrganizer.follow_of_mem_descendants p _ o hnodup hd)
  · intro node top q t child hfind
    rw [DWrapperWriter.attach_cons, NamespaceOrganizer.childNamespaces_mk]
    exact DWrapperWriter.enterChild_of_find top _ (DWrapperWriter.attach_name node q) _ child hfind

/-- C4, at a concrete input: two declarations in `gfx` and one outside; the
tree has the single path `gfx`. -/
theorem DWrapperWriter.organize_one_node_per_path_witness :
    ["gfx"] ∈ (DWrapperWriter.organize NamespaceOrganizer.empty
      [colorNode, addNode, colorNode]).paths ∧
    (DWrapperWriter.organize NamespaceOrganizer.empty [colorNode, addNode, colorNode]).paths
      = [["gfx"]] :=
  ⟨((DWrapperWriter.organize_one_node_per_path [colorNode, addNode, colorNode]).2.1 ["gfx"]).2
    ⟨by decide, colorNode, List.mem_cons_self _ _, by decide⟩, by decide⟩

/-! ### The file header -/

set_option maxRecDepth 100000 in
/-- C14: the headers evaluated for the module `m`. The D writer puts the
language label in the "exported from ... into" position and the module name
in the module statement. The Rust writer puts the module name in the
"exported from ... into" position and writes the language label nowhere; the
header of the scanner's Rust generator carries neither the module name nor a
label of the input language. -/
theorem header_label_position :
    render (DWrapperWriter.header "0.1" "Thu Jan  1 00:00:00 1970\n" Language.Cpp "m")
      = "// *** WARNING: autogenerated file, do not modify. Changes will be overwritten. ***\n// Generated by Polyglot version 0.1 at Thu Jan  1 00:00:00 1970.\n// This file contains symbols that have been exported from C++ into D.\n\nmodule m;\n\n@nogc:\nextern(C++):\n\n" ∧
    RustWrapperWriter.header "0.1" "Thu Jan  1 00:00:00 1970\n" "m"
      = "// *** WARNING: autogenerated file, do not modify. Changes will be overwritten. ***\n// Generated by Polyglot version 0.1 at Thu Jan  1 00:00:00 1970.\n// This file contains symbols that have been exported from m into Rust.\n" ∧
    ¬ ("C++".data <:+: (RustWrapperWriter.header "0.1" "Thu Jan  1 00:00:00 1970\n" "m").data) ∧
    RustGen.getRustFileHeader "0.1" "Thu Jan  1 00:00:00 1970\n" "m"
      = some "// *** WARNING: autogenerated file, do not modify. Changes will be overwritten. ***\n// Generated by Polyglot version 0.1 at Thu Jan  1 00:00:00 1970.\n// This file contains symbols that have been exported from other languages into Rust." := by
  refine ⟨by decide, by decide, by decide, by decide⟩

/-! ### The return type in the flat writer -/

/-- C15: the flat writer evaluated on `void *get()` and on
`int add(int a, int b)`: the line of `get` carries no arrow although the
return type renders as `void *`; the line of `add` carries ` -> i32`. -/
theorem RustWrapperWriter.writeNode_void_pointer :
    RustWrapperWriter.getTypeString getFunction.returnType = .ok "void *" ∧
    RustWrapperWriter.writeNode ASTNodeType.Undefined
        ⟨ASTNodeType.Function, none, NodeData.function getFunction⟩
      = .ok [⟨Mark.blockOpen, "\nextern \x7b\n"⟩,
             ⟨Mark.function, "\t#[link_name = \"_Z3getv\"] pub fn get();\n"⟩] ∧
    RustWrapperWriter.writeNode ASTNodeType.Undefined
        ⟨ASTNodeType.Function, none, NodeData.function addFunctionR⟩
      = .ok [⟨Mark.blockOpen, "\nextern \x7b\n"⟩,
             ⟨Mark.function,
              "\t#[link_name = \"_Z3addii\"] pub fn add(a: i32, b: i32) -> i32;\n"⟩] := by
  refine ⟨by decide, by decide, by decide⟩

/-! ### Floating-point literals -/

/-- C18: both writers evaluated on float-tagged values: the different doubles
`0.0000001` and `0.00000025` render as the same literal `0.000000`, and the
different doubles `1.0000001` and `1.0` as the same literal `1.000000`, so
the literal does not determine the payload. -/
theorem getValueString_double_collision :
    doubleOneTenMillionth ≠ doubleQuarterMillionth ∧ doubleOneAndABit ≠ doubleOne ∧
    DWrapperWriter.getValueString ⟨Type_.Float64, Payload.double doubleOneTenMillionth⟩
      = .ok "0.000000" ∧
    DWrapperWriter.getValueString ⟨Type_.Float64, Payload.double doubleQuarterMillionth⟩
      = .ok "0.000000" ∧
    RustWrapperWriter.getValueString ⟨Type_.Float64, Payload.double doubleOneTenMillionth⟩
      = .ok "0.000000" ∧
    RustWrapperWriter.getValueString ⟨Type_.Float64, Payload.double doubleQuarterMillionth⟩
      = .ok "0.000000" ∧
    DWrapperWriter.getValueString ⟨Type_.Float32, Payload.double doubleOneAndABit⟩
      = .ok "1.000000" ∧
    DWrapperWriter.getValueString ⟨Type_.Float32, Payload.double doubleOne⟩
      = .ok "1.000000" ∧
    RustWrapperWriter.getValueString ⟨Type_.Float32, Payload.double doubleOneAndABit⟩
      = .ok "1.000000" ∧
    RustWrapperWriter.getValueString ⟨Type_.Float32, Payload.double doubleOne⟩
      = .ok "1.000000" := by
  refine ⟨by decide, by decide, by decide, by decide, by decide, by decide, by decide,
    by decide, by decide, by decide⟩

/-! ### Default values in the flat writer -/

theorem RustWrapperWriter.writeParams_withoutDefault (ps : List (Parameter (Option String))) :
    ∀ acc : String,
      RustWrapperWriter.writeParams (ps.map Parameter.withoutDefault) acc
        = RustWrapperWriter.writeParams ps acc := by
  induction ps with
  | nil => intro acc; rfl
  | cons p ps ih =>
    intro acc
    simp only [List.map_cons, RustWrapperWriter.writeParams, Parameter.withoutDefault, ih]

theorem RustWrapperWriter.writeNode_withoutDefaults (previousNodeType : ASTNodeType)
    (node : ASTNode (Option String)) :
    RustWrapperWriter.writeNode previousNodeType node.withoutDefaults
      = RustWrapperWriter.writeNode previousNodeType node := by
  obtain ⟨nodeType, ns, data⟩ := node
  cases data with
  | function f =>
    simp only [RustWrapperWriter.writeNode, ASTNode.withoutDefaults, NodeData.withoutDefaults,
      ASTNode.asFunction, ASTNode.asEnum, FunctionNode.withoutDefaults,
      RustWrapperWriter.writeParams_withoutDefault]
  | enum e => rfl
  | class_ c => rfl
  | other => rfl

theorem RustWrapperWriter.writeNodes_withoutDefaults (nodes : List (ASTNode (Option String))) :
    ∀ previousNodeType : ASTNodeType,
      RustWrapperWriter.writeNodes previousNodeType (nodes.map ASTNode.withoutDefaults)
        = RustWrapperWriter.writeNodes previousNodeType nodes := by
  induction nodes with
  | nil => intro previousNodeType; rfl
  | cons node nodes ih =>
    intro previousNodeType
    have hty : node.withoutDefaults.nodeType = node.nodeType := rfl
    simp only [List.map_cons, RustWrapperWriter.writeNodes,
      RustWrapperWriter.writeNode_withoutDefaults, hty, ih]

theorem RustWrapperWriter.write_withoutDefaults (POLYGLOT_VERSION timeStr : String)
    (ast : AST (Option String)) :
    RustWrapperWriter.write POLYGLOT_VERSION timeStr ast.withoutDefaults
      = RustWrapperWriter.write POLYGLOT_VERSION timeStr ast := by
  simp only [RustWrapperWriter.write, AST.withoutDefaults,
    RustWrapperWriter.writeNodes_withoutDefaults]

/-- C16: two trees that are equal once the default values of all parameters
are removed give the same result in the flat writer: the same text when
emission succeeds and the same failure when it fails, so a default value
neither shows in the output nor makes emission fail. -/
theorem RustWrapperWriter.write_ignores_defaults (POLYGLOT_VERSION timeStr : String)
    (ast1 ast2 : AST (Option String)) (h : ast1.withoutDefaults = ast2.withoutDefaults) :
    RustWrapperWriter.write POLYGLOT_VERSION timeStr ast1
      = RustWrapperWriter.write POLYGLOT_VERSION timeStr ast2 := by
  rw [← RustWrapperWriter.write_withoutDefaults POLYGLOT_VERSION timeStr ast1,
    ← RustWrapperWriter.write_withoutDefaults POLYGLOT_VERSION timeStr ast2, h]

/-- C16, at a concrete input: `add` without defaults and `add` whose second
parameter has a default with the undefined tag, which has no literal. -/
theorem RustWrapperWriter.write_ignores_defaults_witness :
    RustWrapperWriter.write "0.1" "Thu Jan  1 00:00:00 1970\n"
        ⟨Language.Cpp, "m", [⟨ASTNodeType.Function, none, NodeData.function addFunctionR⟩]⟩
      = RustWrapperWriter.write "0.1" "Thu Jan  1 00:00:00 1970\n"
        ⟨Language.Cpp, "m", [⟨ASTNodeType.Function, none, NodeData.function
          { addFunctionR with parameters :=
              [⟨int32R, "a", none⟩,
               ⟨int32R, "b", some ⟨Type_.Undefined, Payload.int64 3⟩⟩] }⟩]⟩ :=
  RustWrapperWriter.write_ignores_defaults "0.1" "Thu Jan  1 00:00:00 1970\n" _ _ rfl

/-! ### Functions inside linkage blocks, enums outside -/

/-- The pieces one round of the flat writer's loop writes. -/
theorem RustWrapperWriter.writeNode_pieces (previousNodeType : ASTNodeType)
    (node : ASTNode (Option String)) (here : List Piece)
    (h : RustWrapperWriter.writeNode previousNodeType node = .ok here) :
    ∃ text, here =
      if node.nodeType = ASTNodeType.Function then
        (if previousNodeType = ASTNodeType.Function then []
          else [⟨Mark.blockOpen, "\nextern \x7b\n"⟩]) ++ [⟨Mark.function, text⟩]
      else
        (if previousNodeType = ASTNodeType.Function then [⟨Mark.blockClose, "\x7d\n\n"⟩]
          else [])
          ++ (if node.nodeType = ASTNodeType.Enum then [⟨Mark.enumDecl, text⟩] else []) := by
  unfold RustWrapperWriter.writeNode at h
  by_cases hf : node.nodeType = ASTNodeType.Function
  · simp only [hf, if_true] at h ⊢
    cases hcast : node.asFunction with
    | none => simp [hcast, throw, throwThe, MonadExceptOf.throw] at h
    | some function =>
      simp only [hcast, bind, Except.bind, pure, Except.pure] at h
      cases hp : RustWrapperWriter.writeParams function.parameters "" with
      | error e => simp [hp] at h
      | ok params =>
        simp only [hp] at h
        by_cases hv : function.returnType.baseType = Type_.Void
        · simp only [hv, ne_eq, not_true_eq_false, if_false] at h
          injection h with h
          subst h
          by_cases hprev : previousNodeType = ASTNodeType.Function <;> simp [hprev]
        · simp only [hv, ne_eq, not_false_eq_true, if_true] at h
          cases hr : RustWrapperWriter.getTypeString function.returnType with
          | error e => simp [hr] at h
          | ok ret =>
            simp only [hr] at h
            injection h with h
            subst h
            by_cases hprev : previousNodeType = ASTNodeType.Function <;> simp [hprev]
  · simp only [hf, if_false, bind, Except.bind, pure, Except.pure] at h ⊢
    by_cases he : node.nodeType = ASTNodeType.Enum
    · simp only [he, if_true] at h ⊢
      cases hcast : node.asEnum with
      | none => simp [hcast, throw, throwThe, MonadExceptOf.throw] at h
      | some e =>
        simp only [hcast] at h
        cases hen : RustWrapperWriter.writeEnumerators e.enumerators with
        | error err => simp [hen] at h
        | ok enumerators =>
          simp only [hen] at h
          injection h with h
          subst h
          by_cases hprev : previousNodeType = ASTNodeType.Function <;> simp [hprev]
    · simp only [he, if_false] at h ⊢
      injection h with h
      subst h
      by_cases hprev : previousNodeType = ASTNodeType.Function <;> simp [hprev]

/-- The marks one round of the flat writer's loop writes. -/
theorem RustWrapperWriter.writeNode_flatMarks (previousNodeType : ASTNodeType)
    (node : ASTNode (Option String)) (here : List Piece)
    (h : RustWrapperWriter.writeNode previousNodeType node = .ok here) :
    here.map Piece.mark =
      if node.nodeType = ASTNodeType.Function then
        (if previousNodeType = ASTNodeType.Function then [] else [Mark.blockOpen])
          ++ [Mark.function]
      else
        (if previousNodeType = ASTNodeType.Function then [Mark.blockClose] else [])
          ++ (if node.nodeType = ASTNodeType.Enum then [Mark.enumDecl] else []) := by
  obtain ⟨text, htext⟩ := RustWrapperWriter.writeNode_pieces _ _ _ h
  rw [htext]
  by_cases hf : node.nodeType = ASTNodeType.Function <;>
    by_cases hprev : previousNodeType = ASTNodeType.Function <;>
    by_cases he : node.nodeType = ASTNodeType.Enum <;>
    simp [hf, hprev, he]

/-- The stream of the loop started after a node of kind `previousNodeType`
reads well from the state "inside a block" exactly when that node was a
function. -/
theorem RustWrapperWriter.writeNodes_blocksWellFormed (nodes : List (ASTNode (Option String))) :
    ∀ (previousNodeType : ASTNodeType) (out : List Piece),
      RustWrapperWriter.writeNodes previousNodeType nodes = .ok out →
      blocksWellFormed (decide (previousNodeType = ASTNodeType.Function))
        (out.map Piece.mark) = true := by
  induction nodes with
  | nil =>
    intro previousNodeType out h
    simp only [RustWrapperWriter.writeNodes] at h
    injection h with h
    subst h
    by_cases hprev : previousNodeType = ASTNodeType.Function <;>
      simp [hprev, blocksWellFormed]
  | cons node rest ih =>
    intro previousNodeType out h
    simp only [RustWrapperWriter.writeNodes, bind, Except.bind, pure, Except.pure] at h
    cases hn : RustWrapperWriter.writeNode previousNodeType node with
    | error e => simp [hn] at h
    | ok here =>
      simp only [hn] at h
      cases hr : RustWrapperWriter.writeNodes node.nodeType rest with
      | error e => simp [hr] at h
      | ok after =>
        simp only [hr] at h
        injection h with h
        subst h
        have hafter := ih _ _ hr
        have hhere := RustWrapperWriter.writeNode_flatMarks _ _ _ hn
        rw [List.map_append, hhere]
        by_cases hf : node.nodeType = ASTNodeType.Function <;>
          by_cases hprev : previousNodeType = ASTNodeType.Function <;>
          by_cases he : node.nodeType = ASTNodeType.Enum <;>
          simp_all [blocksWellFormed]

/-! ### The parameter list between the parentheses -/

theorem intercalate_go_data (sep : String) (rest : List String) :
    ∀ acc : String,
      (String.intercalate.go acc sep rest).data
        = acc.data ++ (rest.map fun r => sep.data ++ r.data).flatten := by
  induction rest with
  | nil => intro acc; simp [String.intercalate.go]
  | cons r rest ih =>
    intro acc
    simp [String.intercalate.go, ih, String.data_append, List.append_assoc]

theorem trailing_separator_shift (sep : List Char) (rest : List (List Char)) :
    ∀ first : List Char,
      ((first :: rest).map fun r => r ++ sep).flatten
        = first ++ (rest.map fun r => sep ++ r).flatten ++ sep := by
  induction rest with
  | nil => intro first; simp
  | cons r rest ih =>
    intro first
    have := ih r
    simp only [List.map_cons, List.flatten_cons, List.append_assoc] at this ⊢
    rw [this]

/-- Dropping the last two characters of the rendered parameters, each
followed by a comma and a blank, leaves them joined by a comma and a blank;
for no parameters at all the wrapped-around length takes the whole empty
string. -/
theorem strip_trailing_separator (rendered : List String) (params : String)
    (hdata : params.data = (rendered.map fun r => r.data ++ [',', ' ']).flatten)
    (hlen : params.length < 18446744073709551616) :
    substr0 params (sizeMinus params 2) = ", ".intercalate rendered := by
  apply String.ext
  cases rendered with
  | nil =>
    have h0 : params.data = [] := by simpa using hdata
    simp [substr0, String.intercalate, h0]
  | cons r rest =>
    have hshift := trailing_separator_shift [',', ' '] (rest.map String.data) r.data
    simp only [List.map_cons, List.map_map, Function.comp_def] at hshift hdata
    rw [hshift] at hdata
    have hinter : (", ".intercalate (r :: rest)).data
        = r.data ++ (rest.map fun x => [',', ' '] ++ x.data).flatten := by
      simp only [String.intercalate, intercalate_go_data]
    have hlength : params.length
        = (r.data ++ (rest.map fun x => [',', ' '] ++ x.data).flatten).length + 2 := by
      simp only [String.length, hdata, List.length_append, List.length_cons, List.length_nil]
    have hsize : sizeMinus params 2
        = (r.data ++ (rest.map fun x => [',', ' '] ++ x.data).flatten).length := by
      unfold sizeMinus
      omega
    simp only [substr0, hsize, hdata, hinter]
    rw [List.take_append_of_le_length (Nat.le_refl _), List.take_length]

/-- The string the D parameter loop builds: what was there, then every
rendered parameter followed by a comma and a blank. -/
theorem DWrapperWriter.writeParams_data (ps : List (Parameter String)) :
    ∀ (acc params : String), DWrapperWriter.writeParams ps acc = .ok params →
      ∃ rendered, List.Forall₂ (fun p r => DWrapperWriter.parameterText p = .ok r) ps rendered ∧
        params.data = acc.data ++ (rendered.map fun r => r.data ++ [',', ' ']).flatten := by
  induction ps with
  | nil =>
    intro acc params h
    simp only [DWrapperWriter.writeParams] at h
    injection h with h
    subst h
    exact ⟨[], List.Forall₂.nil, by simp⟩
  | cons p ps ih =>
    intro acc params h
    simp only [DWrapperWriter.writeParams, bind, Except.bind, pure, Except.pure] at h
    cases ht : DWrapperWriter.getTypeString p.type with
    | error e => simp [ht] at h
    | ok t =>
      simp only [ht] at h
      cases hv : p.value with
      | none =>
        simp only [hv] at h
        obtain ⟨rendered, hall, hdata⟩ := ih _ _ h
        refine ⟨(t ++ " " ++ p.name) :: rendered, List.Forall₂.cons ?_ hall, ?_⟩
        · simp [DWrapperWriter.parameterText, ht, hv, bind, Except.bind, pure, Except.pure]
        · rw [hdata]
          simp [String.data_append, List.append_assoc]
      | some value =>
        simp only [hv] at h
        cases hl : DWrapperWriter.getValueString value with
        | error e => simp [hl] at h
        | ok lit =>
          simp only [hl] at h
          obtain ⟨rendered, hall, hdata⟩ := ih _ _ h
          refine ⟨(t ++ " " ++ p.name ++ " = " ++ lit) :: rendered,
            List.Forall₂.cons ?_ hall, ?_⟩
          · simp [DWrapperWriter.parameterText, ht, hv, hl, bind, Except.bind, pure,
              Except.pure]
          · rw [hdata]
            simp [String.data_append, List.append_assoc]

/-- The string the Rust parameter loop builds: what was there, then every
rendered parameter followed by a comma and a blank. -/
theorem RustWrapperWriter.writeParams_flatData (ps : List (Parameter (Option String))) :
    ∀ (acc params : String), RustWrapperWriter.writeParams ps acc = .ok params →
      ∃ rendered,
        List.Forall₂ (fun p r => RustWrapperWriter.parameterText p = .ok r) ps rendered ∧
        params.data = acc.data ++ (rendered.map fun r => r.data ++ [',', ' ']).flatten := by
  induction ps with
  | nil =>
    intro acc params h
    simp only [RustWrapperWriter.writeParams] at h
    injection h with h
    subst h
    exact ⟨[], List.Forall₂.nil, by simp⟩
  | cons p ps ih =>
    intro acc params h
    simp only [RustWrapperWriter.writeParams, bind, Except.bind, pure, Except.pure] at h
    cases ht : RustWrapperWriter.getTypeString p.type with
    | error e => simp [ht] at h
    | ok t =>
      simp only [ht] at h
      obtain ⟨rendered, hall, hdata⟩ := ih _ _ h
      refine ⟨(p.name ++ ": " ++ t) :: rendered, List.Forall₂.cons ?_ hall, ?_⟩
      · simp [RustWrapperWriter.parameterText, ht, bind, Except.bind, pure, Except.pure]
      · rw [hdata]
        simp [String.data_append, List.append_assoc]

theorem empty_string_append (s : String) : "" ++ s = s := by
  apply String.ext
  simp [String.data_append]

/-- The line of a function in the D writer, piece by piece. -/
theorem DWrapperWriter.writeFunctionString_line (language : Language) (depth : Nat)
    (function : FunctionNode String) (isClassMethod : Bool) (line : String)
    (h : DWrapperWriter.writeFunctionString language depth function isClassMethod = .ok line) :
    ∃ ret params,
      (if function.isNoreturn = true then Except.ok "noreturn"
        else DWrapperWriter.getTypeString function.returnType) = .ok ret ∧
      DWrapperWriter.writeParams function.parameters "" = .ok params ∧
      line = tabs depth
        ++ ((if language = Language.Cpp then ""
              else "pragma(mangle, \"" ++ (function.mangledName ++ "\") "))
        ++ ((if (isClassMethod && !function.isVirtual) = true then "final " else "")
        ++ (ret ++ (" " ++ (function.functionName ++ ("("
        ++ (substr0 params (sizeMinus params 2) ++ ");"))))))) := by
  simp only [DWrapperWriter.writeFunctionString, bind, Except.bind, pure, Except.pure,
    ne_eq] at h
  by_cases hnr : function.isNoreturn = true
  · simp only [hnr, if_true] at h ⊢
    cases hp : DWrapperWriter.writeParams function.parameters "" with
    | error e =>
      rw [hp] at h
      cases language <;> by_cases hm : (isClassMethod && !function.isVirtual) = true <;>
        simp [hm] at h
    | ok params =>
      rw [hp] at h
      refine ⟨"noreturn", params, rfl, rfl, ?_⟩
      cases language <;> by_cases hm : (isClassMethod && !function.isVirtual) = true <;>
        simp only [hm, if_true, if_false, Bool.false_eq_true, reduceCtorEq, not_true_eq_false,
          not_false_eq_true, Except.ok.injEq] at h ⊢ <;>
        subst h <;>
        simp only [String.append_assoc, empty_string_append]
  · simp only [hnr, if_false, Bool.false_eq_true] at h ⊢
    cases hret : DWrapperWriter.getTypeString function.returnType with
    | error e =>
      rw [hret] at h
      cases language <;> by_cases hm : (isClassMethod && !function.isVirtual) = true <;>
        simp [hm] at h
    | ok ret =>
      rw [hret] at h
      cases hp : DWrapperWriter.writeParams function.parameters "" with
      | error e =>
        rw [hp] at h
        cases language <;> by_cases hm : (isClassMethod && !function.isVirtual) = true <;>
          simp [hm] at h
      | ok params =>
        rw [hp] at h
        refine ⟨ret, params, rfl, rfl, ?_⟩
        cases language <;> by_cases hm : (isClassMethod && !function.isVirtual) = true <;>
          simp only [hm, if_true, if_false, Bool.false_eq_true, reduceCtorEq,
            not_true_eq_false, not_false_eq_true, Except.ok.injEq] at h ⊢ <;>
          subst h <;>
          simp only [String.append_assoc, empty_string_append]

/-- The text of the first constructor of a class in the D writer, piece by
piece. -/
theorem DWrapperWriter.writeConstructors_line (depth : Nat) (c : Constructor String)
    (rest : List (Constructor String)) (text : String)
    (h : DWrapperWriter.writeConstructors depth (c :: rest) = .ok text) :
    ∃ params restText,
      DWrapperWriter.writeParams c.parameters "" = .ok params ∧
      DWrapperWriter.writeConstructors depth rest = .ok restText ∧
      text = tabs depth ++ ("pragma(mangle, \"" ++ (c.mangledName ++ ("\") this("
        ++ (substr0 params (sizeMinus params 2) ++ (");" ++ ("\n" ++ restText)))))) := by
  simp only [DWrapperWriter.writeConstructors, bind, Except.bind, pure, Except.pure] at h
  cases hp : DWrapperWriter.writeParams c.parameters "" with
  | error e => rw [hp] at h; simp at h
  | ok params =>
    rw [hp] at h
    cases hr : DWrapperWriter.writeConstructors depth rest with
    | error e => rw [hr] at h; simp at h
    | ok restText =>
      rw [hr] at h
      simp only [Except.ok.injEq] at h
      subst h
      exact ⟨params, restText, rfl, rfl, by simp only [String.append_assoc]⟩

/-- The line of a function in the Rust writer, piece by piece. -/
theorem RustWrapperWriter.writeNode_line (previousNodeType : ASTNodeType)
    (node : ASTNode (Option String)) (function : FunctionNode (Option String))
    (here : List Piece) (hf : node.nodeType = ASTNodeType.Function)
    (hcast : node.asFunction = some function)
    (h : RustWrapperWriter.writeNode previousNodeType node = .ok here) :
    ∃ params arrow,
      RustWrapperWriter.writeParams function.parameters "" = .ok params ∧
      (if function.returnType.baseType = Type_.Void then Except.ok ""
        else (RustWrapperWriter.getTypeString function.returnType).map fun ret => " -> " ++ ret)
        = .ok arrow ∧
      here = (if previousNodeType = ASTNodeType.Function then []
              else [⟨Mark.blockOpen, "\nextern \x7b\n"⟩])
        ++ [⟨Mark.function, "\t#[link_name = \"" ++ (function.mangledName ++ ("\"] pub fn "
          ++ (function.functionName ++ ("(" ++ (substr0 params (sizeMinus params 2)
          ++ (")" ++ (arrow ++ ";\n")))))))⟩] := by
  unfold RustWrapperWriter.writeNode at h
  simp only [hf, if_true, hcast, bind, Except.bind, pure, Except.pure] at h
  cases hp : RustWrapperWriter.writeParams function.parameters "" with
  | error e => simp [hp] at h
  | ok params =>
    simp only [hp] at h
    by_cases hv : function.returnType.baseType = Type_.Void
    · simp only [hv, ne_eq, not_true_eq_false, if_false, Except.ok.injEq] at h
      subst h
      refine ⟨params, "", rfl, by simp [hv], ?_⟩
      by_cases hprev : previousNodeType = ASTNodeType.Function <;>
        simp only [hprev, if_true, if_false, ne_eq, not_true_eq_false, not_false_eq_true,
          List.nil_append, List.cons_append, String.append_assoc, empty_string_append]
    · simp only [hv, ne_eq, not_false_eq_true, if_true] at h
      cases hr : RustWrapperWriter.getTypeString function.returnType with
      | error e => simp [hr] at h
      | ok ret =>
        simp only [hr, Except.ok.injEq] at h
        subst h
        refine ⟨params, " -> " ++ ret, rfl, by simp [hv, Except.map], ?_⟩
        by_cases hprev : previousNodeType = ASTNodeType.Function <;>
          simp only [hprev, if_true, if_false, ne_eq, not_true_eq_false, not_false_eq_true,
            List.nil_append, List.cons_append, String.append_assoc]

/-- C19: in both writers the parameter loop, once the last two characters are
cut off, yields the rendered parameters joined by a comma and a blank, with
no separator at the end and the empty string for no parameters; cutting
starts at the first character, so it never reaches outside the string. A
rendered parameter is `type name`, with ` = literal` when it has a default,
in the D writer and `name: type` in the Rust writer. This text stands between
the parentheses of a function line and of a constructor line in the D writer
and of a function line in the Rust writer. -/
theorem parameters_joined_by_separator :
    (∀ (ps : List (Parameter String)) (params : String),
      DWrapperWriter.writeParams ps "" = .ok params → params.length < 18446744073709551616 →
      ∃ rendered,
        List.Forall₂ (fun p r => DWrapperWriter.parameterText p = .ok r) ps rendered ∧
        substr0 params (sizeMinus params 2) = ", ".intercalate rendered) ∧
    (∀ (ps : List (Parameter (Option String))) (params : String),
      RustWrapperWriter.writeParams ps "" = .ok params →
      params.length < 18446744073709551616 →
      ∃ rendered,
        List.Forall₂ (fun p r => RustWrapperWriter.parameterText p = .ok r) ps rendered ∧
        substr0 params (sizeMinus params 2) = ", ".intercalate rendered) ∧
    (∀ (language : Language) (depth : Nat) (function : FunctionNode String)
      (isClassMethod : Bool) (line : String),
      DWrapperWriter.writeFunctionString language depth function isClassMethod = .ok line →
      ∃ ret params,
        DWrapperWriter.writeParams function.parameters "" = .ok params ∧
        line = tabs depth
          ++ ((if language = Language.Cpp then ""
                else "pragma(mangle, \"" ++ (function.mangledName ++ "\") "))
          ++ ((if (isClassMethod && !function.isVirtual) = true then "final " else "")
          ++ (ret ++ (" " ++ (function.functionName ++ ("("
          ++ (substr0 params (sizeMinus params 2) ++ ");")))))))) ∧
    (∀ (depth : Nat) (c : Constructor String) (rest : List (Constructor String))
      (text : String),
      DWrapperWriter.writeConstructors depth (c :: rest) = .ok text →
      ∃ params restText,
        DWrapperWriter.writeParams c.parameters "" = .ok params ∧
        text = tabs depth ++ ("pragma(mangle, \"" ++ (c.mangledName ++ ("\") this("
          ++ (substr0 params (sizeMinus params 2) ++ (");" ++ ("\n" ++ restText))))))) ∧
    (∀ (previousNodeType : ASTNodeType) (node : ASTNode (Option String))
      (function : FunctionNode (Option String)) (here : List Piece),
      node.nodeType = ASTNodeType.Function → node.asFunction = some function →
      RustWrapperWriter.writeNode previousNodeType node = .ok here →
      ∃ params arrow,
        RustWrapperWriter.writeParams function.parameters "" = .ok params ∧
        here = (if previousNodeType = ASTNodeType.Function then []
                else [⟨Mark.blockOpen, "\nextern \x7b\n"⟩])
          ++ [⟨Mark.function, "\t#[link_name = \"" ++ (function.mangledName
            ++ ("\"] pub fn " ++ (function.functionName ++ ("("
            ++ (substr0 params (sizeMinus params 2) ++ (")" ++ (arrow ++ ";\n")))))))⟩]) := by
  refine ⟨?_, ?_, ?_, ?_, ?_⟩
  · intro ps params h hlen
    obtain ⟨rendered, hall, hdata⟩ := DWrapperWriter.writeParams_data ps "" params h
    exact ⟨rendered, hall, strip_trailing_separator rendered params (by simpa using hdata) hlen⟩
  · intro ps params h hlen
    obtain ⟨rendered, hall, hdata⟩ := RustWrapperWriter.writeParams_flatData ps "" params h
    exact ⟨rendered, hall, strip_trailing_separator rendered params (by simpa using hdata) hlen⟩
  · intro language depth function isClassMethod line h
    obtain ⟨ret, params, _, hp, hline⟩ :=
      DWrapperWriter.writeFunctionString_line language depth function isClassMethod line h
    exact ⟨ret, params, hp, hline⟩
  · intro depth c rest text h
    obtain ⟨params, restText, hp, _, htext⟩ :=
      DWrapperWriter.writeConstructors_line depth c rest text h
    exact ⟨params, restText, hp, htext⟩
  · intro previousNodeType node function here hf hcast h
    obtain ⟨params, arrow, hp, _, hhere⟩ :=
      RustWrapperWriter.writeNode_line previousNodeType node function here hf hcast h
    exact ⟨params, arrow, hp, hhere⟩

/-- C19, at concrete inputs: the two parameters of `add` in the D writer and
the empty parameter list in the Rust writer. -/
theorem parameters_joined_by_separator_witness :
    (∃ rendered,
      List.Forall₂ (fun p r => DWrapperWriter.parameterText p = .ok r) addFunction.parameters
        rendered ∧
      substr0 "int a, int b, " (sizeMinus "int a, int b, " 2) = ", ".intercalate rendered) ∧
    (∃ rendered,
      List.Forall₂ (fun p r => RustWrapperWriter.parameterText p = .ok r) [] rendered ∧
      substr0 "" (sizeMinus "" 2) = ", ".intercalate rendered) :=
  ⟨parameters_joined_by_separator.1 addFunction.parameters "int a, int b, " rfl (by decide),
   parameters_joined_by_separator.2.1 [] "" rfl (by decide)⟩

/-! ### A single enum inside one namespace -/

theorem string_join_cons (a : String) (l : List String) :
    String.join (a :: l) = a ++ String.join l := by
  have hgen : ∀ (l : List String) (acc : String),
      l.foldl (fun r s => r ++ s) acc = acc ++ l.foldl (fun r s => r ++ s) "" := by
    intro l
    induction l with
    | nil => intro acc; simp
    | cons b l ih =>
      intro acc
      simp only [List.foldl_cons]
      rw [ih (acc ++ b), ih ("" ++ b)]
      simp only [String.append_assoc, empty_string_append]
  simp only [String.join, List.foldl_cons]
  rw [hgen l ("" ++ a)]
  simp only [empty_string_append]

/-- The lines of an enum block in the D writer: one line per enumerator, in
order. -/
theorem DWrapperWriter.writeEnumerators_lines (depth : Nat) (es : List Enumerator) :
    ∀ text : String, DWrapperWriter.writeEnumerators depth es = .ok text →
      ∃ lines,
        List.Forall₂ (fun e l => DWrapperWriter.enumeratorLine depth e = .ok l) es lines ∧
        text = String.join lines := by
  induction es with
  | nil =>
    intro text h
    simp only [DWrapperWriter.writeEnumerators, Except.ok.injEq] at h
    subst h
    exact ⟨[], List.Forall₂.nil, rfl⟩
  | cons e es ih =>
    intro text h
    simp only [DWrapperWriter.writeEnumerators, bind, Except.bind, pure, Except.pure] at h
    cases hv : e.value with
    | none =>
      simp only [hv] at h
      cases hr : DWrapperWriter.writeEnumerators depth es with
      | error err => simp [hr] at h
      | ok restText =>
        simp only [hr, Except.ok.injEq] at h
        subst h
        obtain ⟨lines, hall, hjoin⟩ := ih restText hr
        refine ⟨(tabs (depth + 1) ++ e.name ++ ",\n") :: lines, List.Forall₂.cons ?_ hall, ?_⟩
        · simp [DWrapperWriter.enumeratorLine, hv]
        · rw [string_join_cons, hjoin]
    | some value =>
      simp only [hv] at h
      cases hl : DWrapperWriter.getValueString value with
      | error err => simp [hl] at h
      | ok lit =>
        simp only [hl] at h
        cases hr : DWrapperWriter.writeEnumerators depth es with
        | error err => simp [hr] at h
        | ok restText =>
          simp only [hr, Except.ok.injEq] at h
          subst h
          obtain ⟨lines, hall, hjoin⟩ := ih restText hr
          refine ⟨(tabs (depth + 1) ++ e.name ++ " = " ++ lit ++ ",\n") :: lines,
            List.Forall₂.cons ?_ hall, ?_⟩
          · simp [DWrapperWriter.enumeratorLine, hv, hl, bind, Except.bind, pure, Except.pure]
          · rw [string_join_cons, hjoin]
            simp only [String.append_assoc]

set_option maxRecDepth 100000 in
/-- C11, as stated, fails: for input that is not C++, and for C++ input whose
namespace has the empty name, the enum inside the namespace is written
without any scope marker and without deeper indentation. -/
theorem DWrapperWriter.write_enum_no_scope_counterexample :
    (DWrapperWriter.write {} "0.1" "Thu Jan  1 00:00:00 1970\n"
        ⟨Language.Other, "m", [colorNode]⟩).map (fun r => r.1)
      = .ok (DWrapperWriter.header "0.1" "Thu Jan  1 00:00:00 1970\n" Language.Other "m"
          ++ [⟨Mark.childSeparator, "\n"⟩, ⟨Mark.separator, "\n"⟩,
              ⟨Mark.enumDecl, "enum Color\n\x7b\n\tRed = 0,\n\tGreen = 1,\n\x7d"⟩,
              ⟨Mark.terminator, "\n"⟩]) ∧
    (DWrapperWriter.write {} "0.1" "Thu Jan  1 00:00:00 1970\n"
        ⟨Language.Cpp, "m",
          [⟨ASTNodeType.Enum, some (Namespace.mk "" none), NodeData.enum colorEnum⟩]⟩).map
        (fun r => r.1)
      = .ok (DWrapperWriter.header "0.1" "Thu Jan  1 00:00:00 1970\n" Language.Cpp "m"
          ++ [⟨Mark.childSeparator, "\n"⟩, ⟨Mark.separator, "\n"⟩,
              ⟨Mark.enumDecl, "enum Color\n\x7b\n\tRed = 0,\n\tGreen = 1,\n\x7d"⟩,
              ⟨Mark.terminator, "\n"⟩]) := by
  refine ⟨rfl, rfl⟩

/-- C11, amended: for an input of one enum inside one namespace whose
enumerators render, the output is the header, a line break, and the enum
block between a blank separator line and a line break. When the input
language is C++ and the namespace name is not empty the block stands between
a scope marker naming the namespace and the line closing that scope and is
written one indentation level deeper; otherwise no scope marker is written
and the block is not indented. The block lists every enumerator in order,
one level deeper than the block, with ` = literal` for each enumerator that
carries a value. -/
theorem DWrapperWriter.write_single_enum (POLYGLOT_VERSION timeStr moduleName : String)
    (language : Language) (e : EnumNode) (name : String) (enumerators : String)
    (h : DWrapperWriter.writeEnumerators
      (if language = Language.Cpp ∧ name ≠ "" then 1 else 0) e.enumerators = .ok enumerators) :
    (DWrapperWriter.write {} POLYGLOT_VERSION timeStr
        ⟨language, moduleName,
          [⟨ASTNodeType.Enum, some (Namespace.mk name none), NodeData.enum e⟩]⟩).map
        (fun r => r.1)
      = .ok (DWrapperWriter.header POLYGLOT_VERSION timeStr language moduleName
          ++ [⟨Mark.childSeparator, "\n"⟩]
          ++ (if language = Language.Cpp ∧ name ≠ "" then
                [⟨Mark.scopeOpen, tabs 0 ++ "extern(C++, " ++ name ++ ")\n" ++ tabs 0 ++ "\x7b\n"⟩]
              else [])
          ++ [⟨Mark.separator, "\n"⟩,
              ⟨Mark.enumDecl,
                tabs (if language = Language.Cpp ∧ name ≠ "" then 1 else 0) ++ "enum "
                ++ e.enumName ++ "\n"
                ++ tabs (if language = Language.Cpp ∧ name ≠ "" then 1 else 0) ++ "\x7b\n"
                ++ enumerators
                ++ tabs (if language = Language.Cpp ∧ name ≠ "" then 1 else 0) ++ "\x7d"⟩,
              ⟨Mark.terminator, "\n"⟩]
          ++ (if language = Language.Cpp ∧ name ≠ "" then [⟨Mark.scopeClose, tabs 0 ++ "\x7d\n"⟩]
              else [])) ∧
    ∃ lines,
      List.Forall₂ (fun en l => DWrapperWriter.enumeratorLine
        (if language = Language.Cpp ∧ name ≠ "" then 1 else 0) en = .ok l) e.enumerators lines ∧
      enumerators = String.join lines := by
  refine ⟨?_, DWrapperWriter.writeEnumerators_lines _ _ _ h⟩
  by_cases hs : language = Language.Cpp ∧ name ≠ ""
  · have h1 : DWrapperWriter.writeEnumerators 1 e.enumerators = .ok enumerators := by
      rw [if_pos hs] at h; exact h
    rw [if_pos hs, if_pos hs, if_pos hs]
    obtain ⟨hl, hn⟩ := hs
    subst hl
    simp [DWrapperWriter.write, DWrapperWriter.organize, DWrapperWriter.organizeNode,
      DWrapperWriter.attach, DWrapperWriter.enterChild, DWrapperWriter.namespaceStack,
      Namespace.chain, NamespaceOrganizer.empty, NamespaceOrganizer.fresh,
      DWrapperWriter.writeFromNamespaceOrganizer, DWrapperWriter.writeChildNamespaces,
      DWrapperWriter.writeChildNodes, DWrapperWriter.writeNode, ASTNode.asEnum,
      DWrapperWriter.separatorNeeded, Namespace.name, h1, hn, Except.map,
      bind, Except.bind, pure, Except.pure]
  · have h0 : DWrapperWriter.writeEnumerators 0 e.enumerators = .ok enumerators := by
      rw [if_neg hs] at h; exact h
    rw [if_neg hs, if_neg hs, if_neg hs]
    have hs1 : ¬ (language = Language.Cpp ∧ ¬ name = "") := hs
    simp [DWrapperWriter.write, DWrapperWriter.organize, DWrapperWriter.organizeNode,
      DWrapperWriter.attach, DWrapperWriter.enterChild, DWrapperWriter.namespaceStack,
      Namespace.chain, NamespaceOrganizer.empty, NamespaceOrganizer.fresh,
      DWrapperWriter.writeFromNamespaceOrganizer, DWrapperWriter.writeChildNamespaces,
      DWrapperWriter.writeChildNodes, DWrapperWriter.writeNode, ASTNode.asEnum,
      DWrapperWriter.separatorNeeded, Namespace.name, h0, hs1, Except.map,
      bind, Except.bind, pure, Except.pure]

/-- C11 amended, at the scenario: `Color` inside `gfx` with C++ input. -/
theorem DWrapperWriter.write_single_enum_witness :
    (DWrapperWriter.write {} "0.1" "Thu Jan  1 00:00:00 1970\n"
        ⟨Language.Cpp, "m",
          [⟨ASTNodeType.Enum, some (Namespace.mk "gfx" none), NodeData.enum colorEnum⟩]⟩).map
        (fun r => r.1)
      = .ok (DWrapperWriter.header "0.1" "Thu Jan  1 00:00:00 1970\n" Language.Cpp "m"
          ++ [⟨Mark.childSeparator, "\n"⟩,
              ⟨Mark.scopeOpen, "extern(C++, gfx)\n\x7b\n"⟩,
              ⟨Mark.separator, "\n"⟩,
              ⟨Mark.enumDecl, "\tenum Color\n\t\x7b\n\t\tRed = 0,\n\t\tGreen = 1,\n\t\x7d"⟩,
              ⟨Mark.terminator, "\n"⟩,
              ⟨Mark.scopeClose, "\x7d\n"⟩]) :=
  (DWrapperWriter.write_single_enum "0.1" "Thu Jan  1 00:00:00 1970\n" "m" Language.Cpp
    colorEnum "gfx" "\t\tRed = 0,\n\t\tGreen = 1,\n" rfl).1

/-! ### The walk over the namespace tree -/

/-- The branch for a class leaves the indentation depth as it found it. -/
theorem DWrapperWriter.writeClass_depth (language : Language) (depth : Nat)
    (classNode : ClassNode String) (text : String) (depth1 : Nat)
    (h : DWrapperWriter.writeClass language depth classNode = .ok (text, depth1)) :
    depth1 = depth := by
  simp only [DWrapperWriter.writeClass, bind, Except.bind, pure, Except.pure] at h
  repeat' (split at h)
  all_goals
    first
      | (simp only [Except.ok.injEq, Prod.mk.injEq] at h; omega)
      | (simp at h)

/-- Writing one declaration leaves the indentation depth as it found it. -/
theorem DWrapperWriter.writeNode_depth (language : Language) (depth : Nat)
    (node : ASTNode String) (decl : List Piece) (depth1 : Nat)
    (h : DWrapperWriter.writeNode language depth node = .ok (decl, depth1)) :
    depth1 = depth := by
  unfold DWrapperWriter.writeNode at h
  split at h
  · cases hcast : node.asFunction with
    | none => simp [hcast, throw, throwThe, MonadExceptOf.throw] at h
    | some function =>
      simp only [hcast, bind, Except.bind, pure, Except.pure] at h
      split at h
      · simp at h
      · simp only [Except.ok.injEq, Prod.mk.injEq] at h
        exact h.2.symm
  · split at h
    · cases hcast : node.asEnum with
      | none => simp [hcast, throw, throwThe, MonadExceptOf.throw] at h
      | some e =>
        simp only [hcast, bind, Except.bind, pure, Except.pure] at h
        split at h
        · simp at h
        · simp only [Except.ok.injEq, Prod.mk.injEq] at h
          exact h.2.symm
    · split at h
      · cases hcast : node.asClass with
        | none => simp [hcast, throw, throwThe, MonadExceptOf.throw] at h
        | some classNode =>
          simp only [hcast, bind, Except.bind, pure, Except.pure] at h
          cases hc : DWrapperWriter.writeClass language depth classNode with
          | error e => simp [hc] at h
          | ok r =>
            obtain ⟨text, d⟩ := r
            simp only [hc, Except.ok.injEq, Prod.mk.injEq] at h
            rw [← h.2]
            exact DWrapperWriter.writeClass_depth _ _ _ _ _ hc
      · simp only [pure, Except.pure, Except.ok.injEq, Prod.mk.injEq] at h
        exact h.2.symm

/-- The declaration loop leaves the indentation depth as it found it and
writes one terminator per declaration. -/
theorem DWrapperWriter.writeChildNodes_depth (language : Language)
    (nodes : List (ASTNode String)) :
    ∀ (previousNodeType : ASTNodeType) (depth : Nat) (pieces : List Piece) (depth1 : Nat),
      DWrapperWriter.writeChildNodes language previousNodeType nodes depth
        = .ok (pieces, depth1) →
      depth1 = depth ∧ terminatorCount pieces = nodes.length := by
  induction nodes with
  | nil =>
    intro previousNodeType depth pieces depth1 h
    simp only [DWrapperWriter.writeChildNodes, Except.ok.injEq, Prod.mk.injEq] at h
    obtain ⟨h1, h2⟩ := h
    subst h1
    exact ⟨h2.symm, rfl⟩
  | cons node rest ih =>
    intro previousNodeType depth pieces depth1 h
    simp only [DWrapperWriter.writeChildNodes, bind, Except.bind, pure, Except.pure] at h
    cases hn : DWrapperWriter.writeNode language depth node with
    | error e => simp [hn] at h
    | ok r =>
      obtain ⟨decl, depth2⟩ := r
      simp only [hn] at h
      cases hr : DWrapperWriter.writeChildNodes language node.nodeType rest depth2 with
      | error e => simp [hr] at h
      | ok r2 =>
        obtain ⟨after, depth3⟩ := r2
        simp only [hr, Except.ok.injEq, Prod.mk.injEq] at h
        obtain ⟨h1, h2⟩ := h
        subst h1
        obtain ⟨hd, hcount⟩ := ih _ _ _ _ hr
        have hd2 := DWrapperWriter.writeNode_depth _ _ _ _ _ hn
        have hmarks := DWrapperWriter.writeNode_marks _ _ _ _ _ hn
        refine ⟨by omega, ?_⟩
        have hdecl : (decl.map Piece.mark).count Mark.terminator = 0 := by
          rw [List.count_eq_zero]
          intro hmem
          obtain ⟨piece, hp, hpm⟩ := List.mem_map.1 hmem
          exact (hmarks piece hp).1 hpm
        unfold terminatorCount at hcount ⊢
        by_cases hs : DWrapperWriter.separatorNeeded node.nodeType previousNodeType = true
        · simp [hs, List.count_cons, hdecl, hcount]
        · simp [hs, List.count_cons, hdecl, hcount]

mutual
/-- Induction over the namespace tree: a property that holds for a node
whenever it holds for all its children holds for every node. -/
theorem NamespaceOrganizer.induction_tree (P : NamespaceOrganizer → Prop)
    (step : ∀ ns cs nodes, (∀ c ∈ cs, P c) → P (NamespaceOrganizer.mk ns cs nodes)) :
    ∀ t : NamespaceOrganizer, P t
  | .mk ns cs nodes => step ns cs nodes (NamespaceOrganizer.induction_children P step cs)
/-- Induction over the namespace tree, for the children of a node. -/
theorem NamespaceOrganizer.induction_children (P : NamespaceOrganizer → Prop)
    (step : ∀ ns cs nodes, (∀ c ∈ cs, P c) → P (NamespaceOrganizer.mk ns cs nodes)) :
    ∀ (cs : List NamespaceOrganizer), ∀ c ∈ cs, P c
  | [], _, h => absurd h (List.not_mem_nil _)
  | c :: cs, x, h =>
    (List.mem_cons.1 h).elim (fun hx => hx ▸ NamespaceOrganizer.induction_tree P step c)
      (fun hx => NamespaceOrganizer.induction_children P step cs x hx)
end

theorem DWrapperWriter.writeFromNamespaceOrganizer_mk (language : Language) (ns : Namespace)
    (cs : List NamespaceOrganizer) (nodes : List (ASTNode String)) (depth : Nat) :
    DWrapperWriter.writeFromNamespaceOrganizer language (NamespaceOrganizer.mk ns cs nodes) depth
      = if language = Language.Cpp ∧ ns.name ≠ "" then
          (DWrapperWriter.writeChildNodes language ASTNodeType.Undefined nodes (depth + 1)).bind
            fun r1 =>
              (DWrapperWriter.writeChildNamespaces language cs r1.2).bind fun r2 =>
                .ok ([⟨Mark.scopeOpen, tabs depth ++ "extern(C++, " ++ ns.name ++ ")\n"
                        ++ tabs depth ++ "\x7b\n"⟩]
                      ++ r1.1 ++ r2.1 ++ [⟨Mark.scopeClose, tabs (r2.2 - 1) ++ "\x7d\n"⟩],
                    r2.2 - 1)
        else
          (DWrapperWriter.writeChildNodes language ASTNodeType.Undefined nodes depth).bind
            fun r1 =>
              (DWrapperWriter.writeChildNamespaces language cs r1.2).bind fun r2 =>
                .ok (r1.1 ++ r2.1, r2.2) := by
  by_cases hs : language = Language.Cpp ∧ ns.name ≠ ""
  · simp only [DWrapperWriter.writeFromNamespaceOrganizer, hs, and_self, if_true, bind,
      Except.bind, pure, Except.pure, ne_eq, not_false_eq_true, List.nil_append]
  · simp only [DWrapperWriter.writeFromNamespaceOrganizer, hs, if_false, bind,
      Except.bind, pure, Except.pure, List.nil_append]

theorem DWrapperWriter.writeChildNamespaces_cons (language : Language) (c : NamespaceOrganizer)
    (cs : List NamespaceOrganizer) (depth : Nat) :
    DWrapperWriter.writeChildNamespaces language (c :: cs) depth
      = (DWrapperWriter.writeFromNamespaceOrganizer language c depth).bind fun r1 =>
          (DWrapperWriter.writeChildNamespaces language cs r1.2).bind fun r2 =>
            .ok (⟨Mark.childSeparator, "\n"⟩ :: r1.1 ++ r2.1, r2.2) := by
  simp only [DWrapperWriter.writeChildNamespaces, bind, Except.bind, pure, Except.pure]

/-- What the walk over a tree returns, split into its parts. -/
theorem DWrapperWriter.writeFromNamespaceOrganizer_parts (language : Language) (ns : Namespace)
    (cs : List NamespaceOrganizer) (nodes : List (ASTNode String)) (depth : Nat)
    (out : List Piece) (depth1 : Nat)
    (h : DWrapperWriter.writeFromNamespaceOrganizer language (NamespaceOrganizer.mk ns cs nodes)
      depth = .ok (out, depth1)) :
    ∃ inner decls depth2 children depth3 before after,
      DWrapperWriter.writeChildNodes language ASTNodeType.Undefined nodes inner
        = .ok (decls, depth2) ∧
      DWrapperWriter.writeChildNamespaces language cs depth2 = .ok (children, depth3) ∧
      out = before ++ decls ++ children ++ after ∧
      terminatorCount before = 0 ∧ terminatorCount after = 0 ∧
      ((inner = depth + 1 ∧ depth1 = depth3 - 1) ∨ (inner = depth ∧ depth1 = depth3)) := by
  rw [DWrapperWriter.writeFromNamespaceOrganizer_mk] at h
  by_cases hs : language = Language.Cpp ∧ ns.name ≠ ""
  · rw [if_pos hs] at h
    cases h1 : DWrapperWriter.writeChildNodes language ASTNodeType.Undefined nodes (depth + 1) with
    | error e => simp [h1, Except.bind] at h
    | ok r1 =>
      obtain ⟨decls, depth2⟩ := r1
      simp only [h1, Except.bind] at h
      cases h2 : DWrapperWriter.writeChildNamespaces language cs depth2 with
      | error e => simp [h2] at h
      | ok r2 =>
        obtain ⟨children, depth3⟩ := r2
        simp only [h2, Except.ok.injEq, Prod.mk.injEq] at h
        exact ⟨depth + 1, decls, depth2, children, depth3, _, _, h1, h2, h.1.symm, rfl, rfl,
          Or.inl ⟨rfl, h.2.symm⟩⟩
  · rw [if_neg hs] at h
    cases h1 : DWrapperWriter.writeChildNodes language ASTNodeType.Undefined nodes depth with
    | error e => simp [h1, Except.bind] at h
    | ok r1 =>
      obtain ⟨decls, depth2⟩ := r1
      simp only [h1, Except.bind] at h
      cases h2 : DWrapperWriter.writeChildNamespaces language cs depth2 with
      | error e => simp [h2] at h
      | ok r2 =>
        obtain ⟨children, depth3⟩ := r2
        simp only [h2, Except.ok.injEq, Prod.mk.injEq] at h
        exact ⟨depth, decls, depth2, children, depth3, [], [], h1, h2,
          by rw [← h.1]; simp, rfl, rfl, Or.inr ⟨rfl, h.2.symm⟩⟩

/-- What the loop over the child namespaces returns for a non-empty list,
split into its parts. -/
theorem DWrapperWriter.writeChildNamespaces_parts (language : Language)
    (c : NamespaceOrganizer) (cs : List NamespaceOrganizer) (depth : Nat)
    (out : List Piece) (depth1 : Nat)
    (h : DWrapperWriter.writeChildNamespaces language (c :: cs) depth = .ok (out, depth1)) :
    ∃ here depth2 rest,
      DWrapperWriter.writeFromNamespaceOrganizer language c depth = .ok (here, depth2) ∧
      DWrapperWriter.writeChildNamespaces language cs depth2 = .ok (rest, depth1) ∧
      out = ⟨Mark.childSeparator, "\n"⟩ :: here ++ rest := by
  rw [DWrapperWriter.writeChildNamespaces_cons] at h
  cases h1 : DWrapperWriter.writeFromNamespaceOrganizer language c depth with
  | error e => simp [h1, Except.bind] at h
  | ok r1 =>
    obtain ⟨here, depth2⟩ := r1
    simp only [h1, Except.bind] at h
    cases h2 : DWrapperWriter.writeChildNamespaces language cs depth2 with
    | error e => simp [h2] at h
    | ok r2 =>
      obtain ⟨rest, depth3⟩ := r2
      simp only [h2, Except.ok.injEq, Prod.mk.injEq] at h
      obtain ⟨ho, hd⟩ := h
      subst hd
      exact ⟨here, depth2, rest, rfl, h2, ho.symm⟩

theorem terminatorCount_append (xs ys : List Piece) :
    terminatorCount (xs ++ ys) = terminatorCount xs + terminatorCount ys := by
  simp [terminatorCount]

/-- The walk over a tree leaves the indentation depth as it found it and
writes one terminator per declaration of the tree. -/
theorem DWrapperWriter.writeFromNamespaceOrganizer_balanced (language : Language) :
    ∀ (t : NamespaceOrganizer) (depth : Nat) (out : List Piece) (depth1 : Nat),
      DWrapperWriter.writeFromNamespaceOrganizer language t depth = .ok (out, depth1) →
      depth1 = depth ∧ terminatorCount out = t.declarationCount := by
  intro t
  induction t using NamespaceOrganizer.induction_tree with
  | step ns cs nodes ih =>
    have hlist : ∀ (l : List NamespaceOrganizer), (∀ c ∈ l, c ∈ cs) →
        ∀ (depth : Nat) (out : List Piece) (depth1 : Nat),
          DWrapperWriter.writeChildNamespaces language l depth = .ok (out, depth1) →
          depth1 = depth ∧ terminatorCount out = NamespaceOrganizer.declarationCountOfList l := by
      intro l
      induction l with
      | nil =>
        intro _ depth out depth1 h
        simp only [DWrapperWriter.writeChildNamespaces, Except.ok.injEq, Prod.mk.injEq] at h
        obtain ⟨h1, h2⟩ := h
        subst h1
        exact ⟨h2.symm, rfl⟩
      | cons c l ihl =>
        intro hsub depth out depth1 h
        obtain ⟨here, depth2, rest, h1, h2, hout⟩ :=
          DWrapperWriter.writeChildNamespaces_parts _ _ _ _ _ _ h
        obtain ⟨hd1, hc1⟩ := ih c (hsub c (List.mem_cons_self _ _)) _ _ _ h1
        obtain ⟨hd2, hc2⟩ := ihl (fun x hx => hsub x (List.mem_cons_of_mem _ hx)) _ _ _ h2
        refine ⟨by omega, ?_⟩
        rw [hout]
        have hcons : terminatorCount (⟨Mark.childSeparator, "\n"⟩ :: here ++ rest)
            = terminatorCount here + terminatorCount rest := by
          simp [terminatorCount, List.count_cons]
        rw [hcons, hc1, hc2]
        simp [NamespaceOrganizer.declarationCountOfList]
    intro depth out depth1 h
    obtain ⟨inner, decls, depth2, children, depth3, before, after, h1, h2, hout, hb, ha, hdepth⟩ :=
      DWrapperWriter.writeFromNamespaceOrganizer_parts _ _ _ _ _ _ _ h
    obtain ⟨hd1, hc1⟩ := DWrapperWriter.writeChildNodes_depth _ _ _ _ _ _ h1
    obtain ⟨hd2, hc2⟩ := hlist cs (fun _ hx => hx) _ _ _ h2
    refine ⟨by omega, ?_⟩
    rw [hout, terminatorCount_append, terminatorCount_append, terminatorCount_append, hb, ha,
      hc1, hc2]
    simp [NamespaceOrganizer.declarationCount]

/-! ### Running the writer again on the same instance -/

theorem NamespaceOrganizer.declarationCount_mk (ns : Namespace) (cs : List NamespaceOrganizer)
    (nodes : List (ASTNode String)) :
    (NamespaceOrganizer.mk ns cs nodes).declarationCount
      = nodes.length + NamespaceOrganizer.declarationCountOfList cs := by
  simp [NamespaceOrganizer.declarationCount]

theorem NamespaceOrganizer.declarationCount_eq (t : NamespaceOrganizer) :
    t.declarationCount
      = t.childNodes.length + NamespaceOrganizer.declarationCountOfList t.childNamespaces := by
  cases t
  simp [NamespaceOrganizer.declarationCount, NamespaceOrganizer.childNodes_mk,
    NamespaceOrganizer.childNamespaces_mk]

theorem DWrapperWriter.declarationCountOfList_enterChild (top : String)
    (k : NamespaceOrganizer → NamespaceOrganizer)
    (hk : ∀ c, (k c).declarationCount = c.declarationCount + 1)
    (cs : List NamespaceOrganizer) :
    NamespaceOrganizer.declarationCountOfList (DWrapperWriter.enterChild top k cs)
      = NamespaceOrganizer.declarationCountOfList cs + 1 := by
  induction cs with
  | nil =>
    simp [DWrapperWriter.enterChild, NamespaceOrganizer.declarationCountOfList, hk,
      NamespaceOrganizer.fresh, NamespaceOrganizer.declarationCount]
  | cons c cs ih =>
    rw [DWrapperWriter.enterChild_cons]
    by_cases hc : c.name = top
    · simp only [hc, if_true, NamespaceOrganizer.declarationCountOfList, hk]
      omega
    · simp only [hc, if_false, NamespaceOrganizer.declarationCountOfList, ih]
      omega

/-- Attaching a declaration adds one declaration to the tree. -/
theorem DWrapperWriter.declarationCount_attach (node : ASTNode String) (q : List String) :
    ∀ t : NamespaceOrganizer,
      (DWrapperWriter.attach node q t).declarationCount = t.declarationCount + 1 := by
  induction q with
  | nil =>
    intro t
    rw [DWrapperWriter.attach_nil, NamespaceOrganizer.declarationCount_mk,
      NamespaceOrganizer.declarationCount_eq t]
    simp
    omega
  | cons top qs ih =>
    intro t
    rw [DWrapperWriter.attach_cons, NamespaceOrganizer.declarationCount_mk,
      NamespaceOrganizer.declarationCount_eq t,
      DWrapperWriter.declarationCountOfList_enterChild top _ ih]
    omega

/-- The loop over the input adds one declaration to the tree per declaration
of the input. -/
theorem DWrapperWriter.declarationCount_organize (nodes : List (ASTNode String)) :
    ∀ t : NamespaceOrganizer,
      (DWrapperWriter.organize t nodes).declarationCount = t.declarationCount + nodes.length := by
  induction nodes with
  | nil => intro t; simp [DWrapperWriter.organize]
  | cons node nodes ih =>
    intro t
    have hstep : DWrapperWriter.organize t (node :: nodes)
        = DWrapperWriter.organize (DWrapperWriter.organizeNode t node) nodes := rfl
    rw [hstep, ih, DWrapperWriter.organizeNode_eq_attach, DWrapperWriter.declarationCount_attach]
    simp
    omega

theorem DWrapperWriter.organize_append (t : NamespaceOrganizer)
    (nodesA nodesB : List (ASTNode String)) :
    DWrapperWriter.organize (DWrapperWriter.organize t nodesA) nodesB
      = DWrapperWriter.organize t (nodesA ++ nodesB) := by
  simp [DWrapperWriter.organize, List.foldl_append]

/-- What `write` returns, split into its parts: the tree is the one the loop
over the input builds on the tree of the instance, the output is the header
followed by the walk over that tree. -/
theorem DWrapperWriter.write_parts (self : DWrapperWriter) (POLYGLOT_VERSION timeStr : String)
    (ast : AST String) (out : List Piece) (w : DWrapperWriter)
    (h : DWrapperWriter.write self POLYGLOT_VERSION timeStr ast = .ok (out, w)) :
    ∃ body depth,
      DWrapperWriter.writeFromNamespaceOrganizer ast.language
          (DWrapperWriter.organize self.m_namespaceOrganizer ast.nodes) self.m_indentationDepth
        = .ok (body, depth) ∧
      out = DWrapperWriter.header POLYGLOT_VERSION timeStr ast.language ast.moduleName ++ body ∧
      w = ⟨DWrapperWriter.organize self.m_namespaceOrganizer ast.nodes, depth⟩ := by
  simp only [DWrapperWriter.write, bind, Except.bind, pure, Except.pure] at h
  cases hw : DWrapperWriter.writeFromNamespaceOrganizer ast.language
      (DWrapperWriter.organize self.m_namespaceOrganizer ast.nodes) self.m_indentationDepth with
  | error e => simp [hw] at h
  | ok r =>
    obtain ⟨body, depth⟩ := r
    simp only [hw, Except.ok.injEq, Prod.mk.injEq] at h
    exact ⟨body, depth, rfl, h.1.symm, h.2.symm⟩

theorem DWrapperWriter.terminatorCount_header (POLYGLOT_VERSION timeStr : String)
    (language : Language) (moduleName : String) :
    terminatorCount (DWrapperWriter.header POLYGLOT_VERSION timeStr language moduleName) = 0 := by
  cases language <;> simp [DWrapperWriter.header, terminatorCount]

theorem NamespaceOrganizer.declarationCount_empty :
    NamespaceOrganizer.empty.declarationCount = 0 := by
  simp [NamespaceOrganizer.empty, NamespaceOrganizer.declarationCount,
    NamespaceOrganizer.declarationCountOfList]

/-- C20: when a run on input A and then a run on input B are made on the same
instance, the tree of the first run stays in the instance, and the second run
returns what a fresh instance returns for the declarations of A followed by
those of B: it writes one declaration per declaration of A and of B, so its
output differs from the output of a fresh instance for B whenever A is not
empty. -/
theorem DWrapperWriter.write_reused_instance (version1 time1 version2 time2 : String)
    (astA astB : AST String) (outA outB : List Piece) (w1 w2 : DWrapperWriter)
    (hA : DWrapperWriter.write {} version1 time1 astA = .ok (outA, w1))
    (hB : DWrapperWriter.write w1 version2 time2 astB = .ok (outB, w2)) :
    w1.m_namespaceOrganizer = DWrapperWriter.organize NamespaceOrganizer.empty astA.nodes ∧
    w1.m_indentationDepth = 0 ∧
    DWrapperWriter.write {} version2 time2
        ⟨astB.language, astB.moduleName, astA.nodes ++ astB.nodes⟩ = .ok (outB, w2) ∧
    terminatorCount outB = astA.nodes.length + astB.nodes.length ∧
    (∀ (outF : List Piece) (wF : DWrapperWriter),
      DWrapperWriter.write {} version2 time2 astB = .ok (outF, wF) →
      terminatorCount outF = astB.nodes.length ∧ (astA.nodes ≠ [] → outB ≠ outF)) := by
  obtain ⟨bodyA, depthA, hwA, _, hw1⟩ := DWrapperWriter.write_parts _ _ _ _ _ _ hA
  obtain ⟨hdA, _⟩ := DWrapperWriter.writeFromNamespaceOrganizer_balanced _ _ _ _ _ hwA
  have hdepthA : depthA = 0 := hdA
  subst hdepthA
  subst hw1
  obtain ⟨bodyB, depthB, hwB, houtB, hw2⟩ := DWrapperWriter.write_parts _ _ _ _ _ _ hB
  simp only [DWrapperWriter.organize_append] at hwB hw2
  obtain ⟨_, hcB⟩ := DWrapperWriter.writeFromNamespaceOrganizer_balanced _ _ _ _ _ hwB
  have hcountB : terminatorCount outB = astA.nodes.length + astB.nodes.length := by
    rw [houtB, terminatorCount_append, DWrapperWriter.terminatorCount_header, hcB,
      DWrapperWriter.declarationCount_organize, NamespaceOrganizer.declarationCount_empty]
    simp
  refine ⟨rfl, rfl, ?_, hcountB, ?_⟩
  · have hwB1 : DWrapperWriter.writeFromNamespaceOrganizer astB.language
        (DWrapperWriter.organize NamespaceOrganizer.empty (astA.nodes ++ astB.nodes)) 0
        = .ok (bodyB, depthB) := hwB
    simp only [DWrapperWriter.write, bind, Except.bind, pure, Except.pure, hwB1, houtB, hw2]
  · intro outF wF hF
    obtain ⟨bodyF, depthF, hwF, houtF, _⟩ := DWrapperWriter.write_parts _ _ _ _ _ _ hF
    obtain ⟨_, hcF⟩ := DWrapperWriter.writeFromNamespaceOrganizer_balanced _ _ _ _ _ hwF
    have hcountF : terminatorCount outF = astB.nodes.length := by
      rw [houtF, terminatorCount_append, DWrapperWriter.terminatorCount_header, hcF]
      have : (DWrapperWriter.organize ({} : DWrapperWriter).m_namespaceOrganizer
          astB.nodes).declarationCount = astB.nodes.length := by
        rw [DWrapperWriter.declarationCount_organize]
        exact (by simp [NamespaceOrganizer.declarationCount_empty] :
          NamespaceOrganizer.empty.declarationCount + astB.nodes.length = astB.nodes.length)
      rw [this]
      simp
    refine ⟨hcountF, ?_⟩
    intro hne heq
    rw [heq, hcountF] at hcountB
    have : 0 < astA.nodes.length := List.length_pos.2 hne
    omega

/-- C20, at a concrete input: a run on `add`, then a run on `Color` inside
`gfx` on the same instance; the second run writes `add` again. -/
theorem DWrapperWriter.write_reused_instance_witness :
    DWrapperWriter.write {} "0.1" "Thu Jan  1 00:00:01 1970\n"
        ⟨Language.Cpp, "b", [addNode] ++ [colorNode]⟩
      = .ok (DWrapperWriter.header "0.1" "Thu Jan  1 00:00:01 1970\n" Language.Cpp "b"
          ++ [⟨Mark.function, "int add(int a, int b);"⟩, ⟨Mark.terminator, "\n"⟩,
              ⟨Mark.childSeparator, "\n"⟩,
              ⟨Mark.scopeOpen, "extern(C++, gfx)\n\x7b\n"⟩,
              ⟨Mark.separator, "\n"⟩,
              ⟨Mark.enumDecl, "\tenum Color\n\t\x7b\n\t\tRed = 0,\n\t\tGreen = 1,\n\t\x7d"⟩,
              ⟨Mark.terminator, "\n"⟩,
              ⟨Mark.scopeClose, "\x7d\n"⟩],
        ⟨DWrapperWriter.organize NamespaceOrganizer.empty ([addNode] ++ [colorNode]), 0⟩) :=
  (DWrapperWriter.write_reused_instance "0.1" "Thu Jan  1 00:00:00 1970\n" "0.1"
    "Thu Jan  1 00:00:01 1970\n" ⟨Language.Cpp, "a", [addNode]⟩ ⟨Language.Cpp, "b", [colorNode]⟩
    (DWrapperWriter.header "0.1" "Thu Jan  1 00:00:00 1970\n" Language.Cpp "a"
      ++ [Piece.mk Mark.function "int add(int a, int b);", Piece.mk Mark.terminator "\n"])
    _
    ⟨DWrapperWriter.organize NamespaceOrganizer.empty [addNode], 0⟩
    _ rfl rfl).2.2.1

/-! ### Running the organizer again on the same input -/

/-- When every non-empty initial segment of the path walked is already the
path of a node, one round of the walk leaves the paths below the children as
they were. -/
theorem DWrapperWriter.pathsOfList_enterChild_of_mem (top : String) (qs : List String)
    (k : NamespaceOrganizer → NamespaceOrganizer) (hk : ∀ c, (k c).name = c.name)
    (hkeep : ∀ c : NamespaceOrganizer, c.paths.Nodup →
      (∀ r, r ≠ [] → r <+: qs → r ∈ c.paths) → (k c).paths = c.paths)
    (cs : List NamespaceOrganizer) (hnodup : (NamespaceOrganizer.pathsOfList cs).Nodup)
    (hall : ∀ p, p ≠ [] → p <+: top :: qs → p ∈ NamespaceOrganizer.pathsOfList cs) :
    NamespaceOrganizer.pathsOfList (DWrapperWriter.enterChild top k cs)
      = NamespaceOrganizer.pathsOfList cs := by
  induction cs with
  | nil =>
    have := hall [top] (by simp) (by simp)
    simp [NamespaceOrganizer.pathsOfList_nil] at this
  | cons c cs ih =>
    rw [NamespaceOrganizer.pathsOfList_cons, List.nodup_append] at hnodup
    obtain ⟨hblock, hrest, hdisj⟩ := hnodup
    rw [DWrapperWriter.enterChild_cons]
    by_cases hc : c.name = top
    · simp only [hc, if_true]
      rw [NamespaceOrganizer.pathsOfList_cons, NamespaceOrganizer.pathsOfList_cons, hk, hc]
      have hcn : c.paths.Nodup := (NamespaceOrganizer.nodup_block c).1 hblock
      have hkc : (k c).paths = c.paths := by
        apply hkeep c hcn
        intro r hr hpre
        have hmem := hall (top :: r) (by simp) (by simpa using hpre)
        rw [NamespaceOrganizer.pathsOfList_cons, List.mem_append] at hmem
        rcases hmem with hmem | hmem
        · rw [NamespaceOrganizer.mem_block] at hmem
          obtain ⟨r1, heq, hr1⟩ := hmem
          have : r = r1 := (List.cons.inj heq).2
          subst this
          rcases hr1 with h0 | h1
          · exact absurd h0 hr
          · exact h1
        · exfalso
          rw [NamespaceOrganizer.mem_pathsOfList] at hmem
          obtain ⟨c1, hc1, r1, heq, _⟩ := hmem
          have hname : c1.name = top := ((List.cons.inj heq).1).symm
          have h1 : [top] ∈ [c.name] :: c.paths.map (fun r => c.name :: r) := by
            rw [hc]; exact List.mem_cons_self _ _
          have h2 : [top] ∈ NamespaceOrganizer.pathsOfList cs := by
            rw [NamespaceOrganizer.mem_pathsOfList]
            exact ⟨c1, hc1, [], by rw [hname], Or.inl rfl⟩
          exact hdisj h1 h2
      rw [hkc]
    · simp only [hc, if_false]
      rw [NamespaceOrganizer.pathsOfList_cons, NamespaceOrganizer.pathsOfList_cons]
      congr 1
      apply ih hrest
      intro p hp hpre
      have hmem := hall p hp hpre
      rw [NamespaceOrganizer.pathsOfList_cons, List.mem_append] at hmem
      rcases hmem with hmem | hmem
      · exfalso
        rw [NamespaceOrganizer.mem_block] at hmem
        obtain ⟨r1, heq, _⟩ := hmem
        obtain ⟨r2, heq2, _⟩ := (nonempty_initial_segment_cons p top qs).1 ⟨hp, hpre⟩
        rw [heq] at heq2
        exact hc (List.cons.inj heq2).1
      · exact hmem

/-- Attaching along a path all of whose nodes exist leaves the paths of the
tree, in their order, as they were. -/
theorem DWrapperWriter.paths_attach_of_mem (node : ASTNode String) (q : List String) :
    ∀ t : NamespaceOrganizer, t.paths.Nodup → (∀ p, p ≠ [] → p <+: q → p ∈ t.paths) →
      (DWrapperWriter.attach node q t).paths = t.paths := by
  induction q with
  | nil =>
    intro t _ _
    rw [DWrapperWriter.attach_nil, NamespaceOrganizer.paths_eq,
      NamespaceOrganizer.childNamespaces_mk, ← NamespaceOrganizer.paths_eq]
  | cons top qs ih =>
    intro t hnodup hall
    rw [DWrapperWriter.attach_cons, NamespaceOrganizer.paths_eq,
      NamespaceOrganizer.childNamespaces_mk]
    rw [NamespaceOrganizer.paths_eq] at hnodup hall ⊢
    exact DWrapperWriter.pathsOfList_enterChild_of_mem top qs _
      (DWrapperWriter.attach_name node qs) ih _ hnodup hall

/-- The loop over declarations all of whose namespace nodes exist leaves the
paths of the tree, in their order, as they were. -/
theorem DWrapperWriter.paths_organize_of_mem (nodes : List (ASTNode String)) :
    ∀ t : NamespaceOrganizer, t.paths.Nodup →
      (∀ node ∈ nodes, ∀ p, p ≠ [] → p <+: node.path → p ∈ t.paths) →
      (DWrapperWriter.organize t nodes).paths = t.paths := by
  induction nodes with
  | nil => intro t _ _; rfl
  | cons node nodes ih =>
    intro t hnodup hall
    have hstep : DWrapperWriter.organize t (node :: nodes)
        = DWrapperWriter.organize (DWrapperWriter.organizeNode t node) nodes := rfl
    have hpaths : (DWrapperWriter.attach node node.path t).paths = t.paths :=
      DWrapperWriter.paths_attach_of_mem node node.path t hnodup
        (hall node (List.mem_cons_self _ _))
    rw [hstep, DWrapperWriter.organizeNode_eq_attach, ih, hpaths]
    · rw [hpaths]; exact hnodup
    · intro n hn p hp hpre
      rw [hpaths]
      exact hall n (List.mem_cons_of_mem _ hn) p hp hpre

/-- C17, as stated, fails: running the loop again on the tree the first run
left attaches every declaration a second time, so the root holds `add` twice
after the second run and once after the first. -/
theorem DWrapperWriter.organize_twice_counterexample :
    (DWrapperWriter.organize NamespaceOrganizer.empty [addNode]).childNodes.length = 1 ∧
    (DWrapperWriter.organize (DWrapperWriter.organize NamespaceOrganizer.empty [addNode])
      [addNode]).childNodes.length = 2 := by
  decide

/-- C17, amended: the tree a fresh instance holds after a run is the tree the
organizer builds from the empty root, whatever the version and the time.
Running the organizer again on the same input, on the tree the first run
left, keeps the shape, the same namespace nodes in the same order, and keeps
the declarations already in each node in their order, but attaches every
declaration a second time: each node holds the list of the first run followed
by the same list again. -/
theorem DWrapperWriter.organize_twice (nodes : List (ASTNode String)) :
    (∀ (POLYGLOT_VERSION timeStr moduleName : String) (language : Language)
      (out : List Piece) (w : DWrapperWriter),
      DWrapperWriter.write {} POLYGLOT_VERSION timeStr ⟨language, moduleName, nodes⟩
        = .ok (out, w) →
      w.m_namespaceOrganizer = DWrapperWriter.organize NamespaceOrganizer.empty nodes) ∧
    (DWrapperWriter.organize (DWrapperWriter.organize NamespaceOrganizer.empty nodes) nodes).paths
      = (DWrapperWriter.organize NamespaceOrganizer.empty nodes).paths ∧
    (∀ p,
      (DWrapperWriter.organize (DWrapperWriter.organize NamespaceOrganizer.empty nodes)
        nodes).declarationsAt p
      = (DWrapperWriter.organize NamespaceOrganizer.empty nodes).declarationsAt p
        ++ (DWrapperWriter.organize NamespaceOrganizer.empty nodes).declarationsAt p) := by
  refine ⟨?_, ?_, ?_⟩
  · intro POLYGLOT_VERSION timeStr moduleName language out w h
    obtain ⟨_, _, _, _, hw⟩ := DWrapperWriter.write_parts _ _ _ _ _ _ h
    rw [hw]
  · obtain ⟨hnodup, hmem⟩ := DWrapperWriter.paths_organize nodes NamespaceOrganizer.empty
      (by simp [NamespaceOrganizer.paths_empty])
    apply DWrapperWriter.paths_organize_of_mem nodes _ hnodup
    intro node hnode p hp hpre
    rw [hmem]
    exact Or.inr ⟨hp, node, hnode, hpre⟩
  · intro p
    rw [DWrapperWriter.declarationsAt_organize nodes
      (DWrapperWriter.organize NamespaceOrganizer.empty nodes) p]
    congr 1
    rw [DWrapperWriter.declarationsAt_organize nodes NamespaceOrganizer.empty p,
      NamespaceOrganizer.declarationsAt_empty, List.nil_append]

/-- C17 amended, at a concrete input: after a run of a fresh instance on
`Color` inside `gfx` and on `add` the instance holds the tree the organizer
builds from the empty root. -/
theorem DWrapperWriter.organize_twice_witness :
    (⟨DWrapperWriter.organize NamespaceOrganizer.empty [colorNode, addNode], 0⟩
        : DWrapperWriter).m_namespaceOrganizer
      = DWrapperWriter.organize NamespaceOrganizer.empty [colorNode, addNode] :=
  (DWrapperWriter.organize_twice [colorNode, addNode]).1 "0.1" "Thu Jan  1 00:00:00 1970\n" "m"
    Language.Cpp
    (DWrapperWriter.header "0.1" "Thu Jan  1 00:00:00 1970\n" Language.Cpp "m"
      ++ [Piece.mk Mark.function "int add(int a, int b);", Piece.mk Mark.terminator "\n",
          Piece.mk Mark.childSeparator "\n",
          Piece.mk Mark.scopeOpen "extern(C++, gfx)\n\x7b\n",
          Piece.mk Mark.separator "\n",
          Piece.mk Mark.enumDecl "\tenum Color\n\t\x7b\n\t\tRed = 0,\n\t\tGreen = 1,\n\t\x7d",
          Piece.mk Mark.terminator "\n",
          Piece.mk Mark.scopeClose "\x7d\n"])
    ⟨DWrapperWriter.organize NamespaceOrganizer.empty [colorNode, addNode], 0⟩ rfl

/-! ### Blank lines between functions -/

/-- What the declaration loop returns for a non-empty list, split into its
parts. -/
theorem DWrapperWriter.writeChildNodes_cons_parts (language : Language)
    (previousNodeType : ASTNodeType) (node : ASTNode String) (rest : List (ASTNode String))
    (depth : Nat) (pieces : List Piece) (depth1 : Nat)
    (h : DWrapperWriter.writeChildNodes language previousNodeType (node :: rest) depth
      = .ok (pieces, depth1)) :
    ∃ decl after,
      DWrapperWriter.writeNode language depth node = .ok (decl, depth) ∧
      DWrapperWriter.writeChildNodes language node.nodeType rest depth = .ok (after, depth1) ∧
      pieces = (if DWrapperWriter.separatorNeeded node.nodeType previousNodeType
          then [Piece.mk Mark.separator "\n"] else [])
        ++ decl ++ [Piece.mk Mark.terminator "\n"] ++ after := by
  simp only [DWrapperWriter.writeChildNodes, bind, Except.bind, pure, Except.pure] at h
  cases h1 : DWrapperWriter.writeNode language depth node with
  | error e => simp [h1] at h
  | ok r1 =>
    obtain ⟨decl, depth2⟩ := r1
    have hd := DWrapperWriter.writeNode_depth language depth node decl depth2 h1
    have hd1 := hd.symm
    subst hd1
    simp only [h1] at h
    cases h2 : DWrapperWriter.writeChildNodes language node.nodeType rest depth with
    | error e => simp [h2] at h
    | ok r2 =>
      obtain ⟨after, depth3⟩ := r2
      simp only [h2, Except.ok.injEq, Prod.mk.injEq] at h
      obtain ⟨ho, hd3⟩ := h
      subst hd3
      exact ⟨decl, after, rfl, rfl, ho.symm⟩

/-- The pieces the declaration loop writes for the back of a list end the
pieces it writes for the whole list. -/
theorem DWrapperWriter.writeChildNodes_suffix (language : Language)
    (front back : List (ASTNode String)) :
    ∀ (previousNodeType : ASTNodeType) (depth : Nat) (pieces : List Piece) (depth1 : Nat),
      DWrapperWriter.writeChildNodes language previousNodeType (front ++ back) depth
        = .ok (pieces, depth1) →
      ∃ previous tail, DWrapperWriter.writeChildNodes language previous back depth
        = .ok (tail, depth1) ∧ tail <:+ pieces := by
  induction front with
  | nil =>
    intro previousNodeType depth pieces depth1 h
    exact ⟨previousNodeType, pieces, h, List.suffix_refl _⟩
  | cons node front ih =>
    intro previousNodeType depth pieces depth1 h
    obtain ⟨decl, after, _, h2, hp⟩ :=
      DWrapperWriter.writeChildNodes_cons_parts language previousNodeType node (front ++ back)
        depth pieces depth1 h
    obtain ⟨previous, tail, h3, h4⟩ := ih _ _ _ _ h2
    refine ⟨previous, tail, h3, ?_⟩
    rw [hp]
    exact h4.trans (List.suffix_append _ _)

/-- The piece written for a function declaration is its line. -/
theorem DWrapperWriter.writeNode_function (language : Language) (depth : Nat)
    (node : ASTNode String) (decl : List Piece) (depth1 : Nat)
    (hkind : node.nodeType = ASTNodeType.Function)
    (h : DWrapperWriter.writeNode language depth node = .ok (decl, depth1)) :
    ∃ function line, node.asFunction = some function ∧
      DWrapperWriter.writeFunctionString language depth function false = .ok line ∧
      decl = [Piece.mk Mark.function line] := by
  unfold DWrapperWriter.writeNode at h
  rw [if_pos hkind] at h
  cases hcast : node.asFunction with
  | none => simp [hcast, throw, throwThe, MonadExceptOf.throw] at h
  | some function =>
    simp only [hcast, bind, Except.bind, pure, Except.pure] at h
    cases hl : DWrapperWriter.writeFunctionString language depth function false with
    | error e => simp [hl] at h
    | ok line =>
      simp only [hl, Except.ok.injEq, Prod.mk.injEq] at h
      exact ⟨function, line, rfl, hl, h.1.symm⟩

/-- Two functions next to each other in the list of the declaration loop:
their lines are written with only the line break between them. -/
theorem DWrapperWriter.writeChildNodes_adjacent_functions (language : Language)
    (front back : List (ASTNode String)) (first second : ASTNode String)
    (previousNodeType : ASTNodeType) (depth : Nat) (pieces : List Piece) (depth1 : Nat)
    (hfirst : first.nodeType = ASTNodeType.Function)
    (hsecond : second.nodeType = ASTNodeType.Function)
    (h : DWrapperWriter.writeChildNodes language previousNodeType
      (front ++ first :: second :: back) depth = .ok (pieces, depth1)) :
    ∃ f1 f2 l1 l2, first.asFunction = some f1 ∧ second.asFunction = some f2 ∧
      DWrapperWriter.writeFunctionString language depth f1 false = .ok l1 ∧
      DWrapperWriter.writeFunctionString language depth f2 false = .ok l2 ∧
      [Piece.mk Mark.function l1, Piece.mk Mark.terminator "\n", Piece.mk Mark.function l2]
        <:+: pieces := by
  obtain ⟨previous, tail, h1, ⟨s0, hs0⟩⟩ :=
    DWrapperWriter.writeChildNodes_suffix language front (first :: second :: back)
      previousNodeType depth pieces depth1 h
  obtain ⟨decl1, after1, hn1, hrest1, ht1⟩ :=
    DWrapperWriter.writeChildNodes_cons_parts language previous first (second :: back)
      depth tail depth1 h1
  obtain ⟨decl2, after2, hn2, _, ht2⟩ :=
    DWrapperWriter.writeChildNodes_cons_parts language first.nodeType second back
      depth after1 depth1 hrest1
  obtain ⟨f1, l1, hf1, hl1, hd1⟩ :=
    DWrapperWriter.writeNode_function language depth first decl1 depth hfirst hn1
  obtain ⟨f2, l2, hf2, hl2, hd2⟩ :=
    DWrapperWriter.writeNode_function language depth second decl2 depth hsecond hn2
  have hsep : DWrapperWriter.separatorNeeded second.nodeType first.nodeType = false := by
    rw [hfirst, hsecond]; rfl
  rw [hsep] at ht2
  refine ⟨f1, f2, l1, l2, hf1, hf2, hl1, hl2, ?_⟩
  refine ⟨s0 ++ (if DWrapperWriter.separatorNeeded first.nodeType previous
      then [Piece.mk Mark.separator "\n"] else []), Piece.mk Mark.terminator "\n" :: after2, ?_⟩
  rw [← hs0, ht1, ht2, hd1, hd2]
  simp

/-- A declaration that is not a function, anywhere in the list of the
declaration loop: its pieces are written between a separator and the line
break. -/
theorem DWrapperWriter.writeChildNodes_non_function (language : Language)
    (front back : List (ASTNode String)) (node : ASTNode String)
    (previousNodeType : ASTNodeType) (depth : Nat) (pieces : List Piece) (depth1 : Nat)
    (hkind : node.nodeType ≠ ASTNodeType.Function)
    (h : DWrapperWriter.writeChildNodes language previousNodeType
      (front ++ node :: back) depth = .ok (pieces, depth1)) :
    ∃ decl, DWrapperWriter.writeNode language depth node = .ok (decl, depth) ∧
      ([Piece.mk Mark.separator "\n"] ++ decl ++ [Piece.mk Mark.terminator "\n"])
        <:+: pieces := by
  obtain ⟨previous, tail, h1, ⟨s0, hs0⟩⟩ :=
    DWrapperWriter.writeChildNodes_suffix language front (node :: back)
      previousNodeType depth pieces depth1 h
  obtain ⟨decl, after, hn, _, ht⟩ :=
    DWrapperWriter.writeChildNodes_cons_parts language previous node back
      depth tail depth1 h1
  have hsep : DWrapperWriter.separatorNeeded node.nodeType previous = true := by
    simp [DWrapperWriter.separatorNeeded, hkind]
  rw [hsep] at ht
  refine ⟨decl, hn, ⟨s0, after, ?_⟩⟩
  rw [← hs0, ht]
  simp

/-- The pieces the walk writes for a child namespace stand, next to each
other, in what the loop over the child namespaces writes. -/
theorem DWrapperWriter.writeChildNamespaces_infix (language : Language)
    (cs : List NamespaceOrganizer) :
    ∀ (depth : Nat) (out : List Piece) (depth1 : Nat),
      DWrapperWriter.writeChildNamespaces language cs depth = .ok (out, depth1) →
      ∀ c ∈ cs, ∃ dc here dc1,
        DWrapperWriter.writeFromNamespaceOrganizer language c dc = .ok (here, dc1) ∧
        here <:+: out := by
  induction cs with
  | nil => intro _ _ _ _ c hc; simp at hc
  | cons c0 cs ih =>
    intro depth out depth1 h c hc
    obtain ⟨here, depth2, rest, h1, h2, ho⟩ :=
      DWrapperWriter.writeChildNamespaces_parts language c0 cs depth out depth1 h
    rcases List.mem_cons.1 hc with hc | hc
    · subst hc
      exact ⟨depth, here, depth2, h1, ⟨[Piece.mk Mark.childSeparator "\n"], rest, by
        rw [ho]; simp⟩⟩
    · obtain ⟨dc, hr, dc1, h3, h4⟩ := ih _ _ _ h2 c hc
      refine ⟨dc, hr, dc1, h3, h4.trans ?_⟩
      rw [ho]
      exact ⟨Piece.mk Mark.childSeparator "\n" :: here, [], by simp⟩

/-- The pieces the declaration loop writes for a node of the tree stand, next
to each other, in what the walk over the tree writes. -/
theorem DWrapperWriter.writeFromNamespaceOrganizer_infix (language : Language)
    (p : List String) :
    ∀ (t : NamespaceOrganizer) (depth : Nat) (out : List Piece) (depth1 : Nat)
      (o : NamespaceOrganizer),
      DWrapperWriter.writeFromNamespaceOrganizer language t depth = .ok (out, depth1) →
      NamespaceOrganizer.follow p t = some o →
      ∃ inner pieces,
        DWrapperWriter.writeChildNodes language ASTNodeType.Undefined o.childNodes inner
          = .ok (pieces, inner) ∧ pieces <:+: out := by
  induction p with
  | nil =>
    intro t depth out depth1 o h hf
    simp only [NamespaceOrganizer.follow, Option.some.injEq] at hf
    subst hf
    cases t with
    | mk ns cs nodes =>
      obtain ⟨inner, decls, depth2, children, depth3, before, after, h1, _, ho, _, _, _⟩ :=
        DWrapperWriter.writeFromNamespaceOrganizer_parts language ns cs nodes depth out depth1 h
      have hd := (DWrapperWriter.writeChildNodes_depth language nodes _ _ _ _ h1).1
      rw [hd] at h1
      exact ⟨inner, decls, h1, ⟨before, children ++ after, by rw [ho]; simp⟩⟩
  | cons top rest ih =>
    intro t depth out depth1 o h hf
    rw [NamespaceOrganizer.follow_cons] at hf
    cases hfind : t.childNamespaces.find? (fun child => child.name = top) with
    | none => simp [hfind] at hf
    | some c =>
      rw [hfind] at hf
      have hf1 : NamespaceOrganizer.follow rest c = some o := hf
      have hmem : c ∈ t.childNamespaces := List.mem_of_find?_eq_some hfind
      cases t with
      | mk ns cs nodes =>
        obtain ⟨inner, decls, depth2, children, depth3, before, after, _, h2, ho, _, _, _⟩ :=
          DWrapperWriter.writeFromNamespaceOrganizer_parts language ns cs nodes depth out
            depth1 h
        obtain ⟨dc, here, dc1, h3, h4⟩ :=
          DWrapperWriter.writeChildNamespaces_infix language cs _ _ _ h2 c hmem
        obtain ⟨inner1, pieces, h5, h6⟩ := ih c dc here dc1 o h3 hf1
        refine ⟨inner1, pieces, h5, h6.trans (h4.trans ⟨before ++ decls, after, ?_⟩)⟩
        rw [ho]

/-- After a run of a fresh instance the pieces of the declaration loop over
the declarations of one namespace path, in input order, stand next to each
other in the output. -/
theorem DWrapperWriter.write_declarations_infix (POLYGLOT_VERSION timeStr : String)
    (ast : AST String) (out : List Piece) (w : DWrapperWriter)
    (h : DWrapperWriter.write {} POLYGLOT_VERSION timeStr ast = .ok (out, w))
    (p : List String) (hp : ast.nodes.filter (fun node => node.path = p) ≠ []) :
    ∃ inner pieces,
      DWrapperWriter.writeChildNodes ast.language ASTNodeType.Undefined
          (ast.nodes.filter (fun node => node.path = p)) inner = .ok (pieces, inner) ∧
      pieces <:+: out := by
  obtain ⟨body, depth, hwalk, hout, _⟩ :=
    DWrapperWriter.write_parts _ _ _ _ _ _ h
  have hdecl := DWrapperWriter.declarationsAt_organize ast.nodes NamespaceOrganizer.empty p
  rw [NamespaceOrganizer.declarationsAt_empty, List.nil_append] at hdecl
  unfold NamespaceOrganizer.declarationsAt at hdecl
  cases hfollow : NamespaceOrganizer.follow p
      (DWrapperWriter.organize NamespaceOrganizer.empty ast.nodes) with
  | none =>
    rw [hfollow] at hdecl
    exact absurd hdecl.symm hp
  | some o =>
    rw [hfollow] at hdecl
    have hdecl1 : o.childNodes = ast.nodes.filter (fun node => node.path = p) := hdecl
    obtain ⟨inner, pieces, h1, h2⟩ :=
      DWrapperWriter.writeFromNamespaceOrganizer_infix ast.language p _ _ _ _ o hwalk hfollow
    rw [hdecl1] at h1
    refine ⟨inner, pieces, h1, h2.trans
      ⟨DWrapperWriter.header POLYGLOT_VERSION timeStr ast.language ast.moduleName, [], ?_⟩⟩
    rw [hout, List.append_nil]

set_option maxRecDepth 100000 in
/-- C13, as stated, fails: `add` outside any namespace and `sub` inside `gfx`
are consecutive in the input, and a blank line stands between their lines in
the output, before the scope of `gfx` for C++ input and directly between the
two lines for other input. -/
theorem DWrapperWriter.write_functions_blank_line_counterexample :
    (DWrapperWriter.write {} "0.1" "Thu Jan  1 00:00:00 1970\n"
        ⟨Language.Cpp, "m", [addNode, subNode]⟩).map (fun r => r.1)
      = .ok (DWrapperWriter.header "0.1" "Thu Jan  1 00:00:00 1970\n" Language.Cpp "m"
          ++ [⟨Mark.function, "int add(int a, int b);"⟩, ⟨Mark.terminator, "\n"⟩,
              ⟨Mark.childSeparator, "\n"⟩,
              ⟨Mark.scopeOpen, "extern(C++, gfx)\n\x7b\n"⟩,
              ⟨Mark.function, "\tint sub(int a, int b);"⟩, ⟨Mark.terminator, "\n"⟩,
              ⟨Mark.scopeClose, "\x7d\n"⟩]) ∧
    (DWrapperWriter.write {} "0.1" "Thu Jan  1 00:00:00 1970\n"
        ⟨Language.Other, "m", [addNode, subNode]⟩).map (fun r => render (r.1.drop 2))
      = .ok ("pragma(mangle, \"_Z3addii\") int add(int a, int b);\n\n"
          ++ "pragma(mangle, \"_ZN3gfx3subEii\") int sub(int a, int b);\n") := by
  refine ⟨rfl, rfl⟩

/-- C13, amended: in the output of a run of a fresh instance, two functions
that stand next to each other among the declarations of one namespace path,
in particular two functions consecutive in the input that have the same
namespace path, have their lines written at the same depth with only the line
break between them, so no blank line. Every declaration of the input that is
not a function, whatever precedes it, is written between a blank separator
line and its line break. -/
theorem DWrapperWriter.write_function_runs (POLYGLOT_VERSION timeStr : String)
    (ast : AST String) (out : List Piece) (w : DWrapperWriter)
    (h : DWrapperWriter.write {} POLYGLOT_VERSION timeStr ast = .ok (out, w)) :
    (∀ (p : List String) (front back : List (ASTNode String)) (first second : ASTNode String),
      ast.nodes.filter (fun node => node.path = p) = front ++ first :: second :: back →
      first.nodeType = ASTNodeType.Function → second.nodeType = ASTNodeType.Function →
      ∃ depth f1 f2 l1 l2, first.asFunction = some f1 ∧ second.asFunction = some f2 ∧
        DWrapperWriter.writeFunctionString ast.language depth f1 false = .ok l1 ∧
        DWrapperWriter.writeFunctionString ast.language depth f2 false = .ok l2 ∧
        [Piece.mk Mark.function l1, Piece.mk Mark.terminator "\n", Piece.mk Mark.function l2]
          <:+: out) ∧
    (∀ (front back : List (ASTNode String)) (first second : ASTNode String),
      ast.nodes = front ++ first :: second :: back → first.path = second.path →
      first.nodeType = ASTNodeType.Function → second.nodeType = ASTNodeType.Function →
      ∃ depth f1 f2 l1 l2, first.asFunction = some f1 ∧ second.asFunction = some f2 ∧
        DWrapperWriter.writeFunctionString ast.language depth f1 false = .ok l1 ∧
        DWrapperWriter.writeFunctionString ast.language depth f2 false = .ok l2 ∧
        [Piece.mk Mark.function l1, Piece.mk Mark.terminator "\n", Piece.mk Mark.function l2]
          <:+: out) ∧
    (∀ node ∈ ast.nodes, node.nodeType ≠ ASTNodeType.Function →
      ∃ depth decl, DWrapperWriter.writeNode ast.language depth node = .ok (decl, depth) ∧
        ([Piece.mk Mark.separator "\n"] ++ decl ++ [Piece.mk Mark.terminator "\n"])
          <:+: out) := by
  have hgeneral : ∀ (p : List String) (front back : List (ASTNode String))
      (first second : ASTNode String),
      ast.nodes.filter (fun node => node.path = p) = front ++ first :: second :: back →
      first.nodeType = ASTNodeType.Function → second.nodeType = ASTNodeType.Function →
      ∃ depth f1 f2 l1 l2, first.asFunction = some f1 ∧ second.asFunction = some f2 ∧
        DWrapperWriter.writeFunctionString ast.language depth f1 false = .ok l1 ∧
        DWrapperWriter.writeFunctionString ast.language depth f2 false = .ok l2 ∧
        [Piece.mk Mark.function l1, Piece.mk Mark.terminator "\n", Piece.mk Mark.function l2]
          <:+: out := by
    intro p front back first second hsplit hfirst hsecond
    obtain ⟨inner, pieces, h1, h2⟩ :=
      DWrapperWriter.write_declarations_infix POLYGLOT_VERSION timeStr ast out w h p
        (by rw [hsplit]; simp)
    rw [hsplit] at h1
    obtain ⟨f1, f2, l1, l2, hf1, hf2, hl1, hl2, hin⟩ :=
      DWrapperWriter.writeChildNodes_adjacent_functions ast.language front back first second
        ASTNodeType.Undefined inner pieces inner hfirst hsecond h1
    exact ⟨inner, f1, f2, l1, l2, hf1, hf2, hl1, hl2, hin.trans h2⟩
  refine ⟨hgeneral, ?_, ?_⟩
  · intro front back first second hsplit hpath hfirst hsecond
    apply hgeneral first.path (front.filter (fun node => node.path = first.path))
      (back.filter (fun node => node.path = first.path)) first second _ hfirst hsecond
    rw [hsplit, List.filter_append, List.filter_cons_of_pos (by simp),
      List.filter_cons_of_pos (by simp [hpath])]
  · intro node hnode hkind
    have hmem : node ∈ ast.nodes.filter (fun other => other.path = node.path) :=
      List.mem_filter.2 ⟨hnode, by simp⟩
    obtain ⟨front, back, hsplit⟩ := List.append_of_mem hmem
    obtain ⟨inner, pieces, h1, h2⟩ :=
      DWrapperWriter.write_declarations_infix POLYGLOT_VERSION timeStr ast out w h node.path
        (by rw [hsplit]; simp)
    rw [hsplit] at h1
    obtain ⟨decl, hn, hin⟩ :=
      DWrapperWriter.writeChildNodes_non_function ast.language front back node
        ASTNodeType.Undefined inner pieces inner hkind h1
    exact ⟨inner, decl, hn, hin.trans h2⟩

set_option maxRecDepth 100000 in
/-- C13 amended, at a concrete input: `add` and `sub` in the same namespace
`gfx`, consecutive in the input, are written with only the line break
between their lines. -/
theorem DWrapperWriter.write_function_runs_witness :
    ∃ depth f1 f2 l1 l2, subNode.asFunction = some f1 ∧
      (ASTNode.mk ASTNodeType.Function (some (Namespace.mk "gfx" none))
        (NodeData.function addFunction)).asFunction = some f2 ∧
      DWrapperWriter.writeFunctionString Language.Cpp depth f1 false = .ok l1 ∧
      DWrapperWriter.writeFunctionString Language.Cpp depth f2 false = .ok l2 ∧
      [Piece.mk Mark.function l1, Piece.mk Mark.terminator "\n", Piece.mk Mark.function l2]
        <:+: DWrapperWriter.header "0.1" "Thu Jan  1 00:00:00 1970\n" Language.Cpp "m"
          ++ [Piece.mk Mark.childSeparator "\n",
              Piece.mk Mark.scopeOpen "extern(C++, gfx)\n\x7b\n",
              Piece.mk Mark.function "\tint sub(int a, int b);",
              Piece.mk Mark.terminator "\n",
              Piece.mk Mark.function "\tint add(int a, int b);",
              Piece.mk Mark.terminator "\n",
              Piece.mk Mark.scopeClose "\x7d\n"] :=
  (DWrapperWriter.write_function_runs "0.1" "Thu Jan  1 00:00:00 1970\n"
    ⟨Language.Cpp, "m", [subNode,
      ASTNode.mk ASTNodeType.Function (some (Namespace.mk "gfx" none))
        (NodeData.function addFunction)]⟩
    (DWrapperWriter.header "0.1" "Thu Jan  1 00:00:00 1970\n" Language.Cpp "m"
          ++ [Piece.mk Mark.childSeparator "\n",
              Piece.mk Mark.scopeOpen "extern(C++, gfx)\n\x7b\n",
              Piece.mk Mark.function "\tint sub(int a, int b);",
              Piece.mk Mark.terminator "\n",
              Piece.mk Mark.function "\tint add(int a, int b);",
              Piece.mk Mark.terminator "\n",
              Piece.mk Mark.scopeClose "\x7d\n"])
    ⟨DWrapperWriter.organize NamespaceOrganizer.empty [subNode,
      ASTNode.mk ASTNodeType.Function (some (Namespace.mk "gfx" none))
        (NodeData.function addFunction)], 0⟩ rfl).2.1 [] [] subNode
    (ASTNode.mk ASTNodeType.Function (some (Namespace.mk "gfx" none))
        (NodeData.function addFunction)) rfl rfl rfl rfl

/-! ### Classes in the flat writer -/

/-- For a declaration that is not a function the loop body of the flat writer
reads the previous kind only to see whether it is a function. -/
theorem RustWrapperWriter.writeNode_previous (p q : ASTNodeType)
    (node : ASTNode (Option String))
    (hpq : p = ASTNodeType.Function ↔ q = ASTNodeType.Function) :
    RustWrapperWriter.writeNode p node = RustWrapperWriter.writeNode q node := by
  have h1 : (p ≠ ASTNodeType.Function) = (q ≠ ASTNodeType.Function) := by
    simp only [ne_eq, hpq]
  have h2 : (p = ASTNodeType.Function) = (q = ASTNodeType.Function) := propext hpq
  unfold RustWrapperWriter.writeNode
  simp only [h1, h2]

/-- The loop of the flat writer reads the kind it starts with only to see
whether it is a function. -/
theorem RustWrapperWriter.writeNodes_previous (p q : ASTNodeType)
    (nodes : List (ASTNode (Option String)))
    (hpq : p = ASTNodeType.Function ↔ q = ASTNodeType.Function) :
    RustWrapperWriter.writeNodes p nodes = RustWrapperWriter.writeNodes q nodes := by
  cases nodes with
  | nil =>
    have h2 : (p = ASTNodeType.Function) = (q = ASTNodeType.Function) := propext hpq
    simp only [RustWrapperWriter.writeNodes, h2]
  | cons node rest =>
    simp only [RustWrapperWriter.writeNodes]
    rw [RustWrapperWriter.writeNode_previous p q node hpq]

/-- What the loop body of the flat writer writes for a class: the line that
closes the open block when the previous declaration is a function, and
nothing else. -/
theorem RustWrapperWriter.writeNode_flatClass (previousNodeType : ASTNodeType)
    (node : ASTNode (Option String)) (hkind : node.nodeType = ASTNodeType.Class) :
    RustWrapperWriter.writeNode previousNodeType node
      = .ok (if previousNodeType = ASTNodeType.Function
          then [Piece.mk Mark.blockClose "\x7d\n\n"] else []) := by
  unfold RustWrapperWriter.writeNode
  simp [hkind, pure, Except.pure]

/-- The loop body of the flat writer writes for the step that replaces a
class what it writes for the class. -/
theorem RustWrapperWriter.writeNode_withoutClass (previousNodeType : ASTNodeType)
    (node : ASTNode (Option String)) :
    RustWrapperWriter.writeNode previousNodeType node.withoutClass
      = RustWrapperWriter.writeNode previousNodeType node := by
  by_cases hkind : node.nodeType = ASTNodeType.Class
  · rw [RustWrapperWriter.writeNode_flatClass previousNodeType node hkind]
    unfold RustWrapperWriter.writeNode
    simp [ASTNode.withoutClass, hkind, pure, Except.pure]
  · simp [ASTNode.withoutClass, hkind]

/-- The loop of the flat writer returns for the list with every class
replaced what it returns for the list. -/
theorem RustWrapperWriter.writeNodes_withoutClass (nodes : List (ASTNode (Option String))) :
    ∀ previousNodeType : ASTNodeType,
      RustWrapperWriter.writeNodes previousNodeType (nodes.map ASTNode.withoutClass)
        = RustWrapperWriter.writeNodes previousNodeType nodes := by
  induction nodes with
  | nil => intro previousNodeType; rfl
  | cons node rest ih =>
    intro previousNodeType
    simp only [List.map_cons, RustWrapperWriter.writeNodes]
    rw [RustWrapperWriter.writeNode_withoutClass, ih]
    have hsame : RustWrapperWriter.writeNodes node.withoutClass.nodeType rest
        = RustWrapperWriter.writeNodes node.nodeType rest := by
      apply RustWrapperWriter.writeNodes_previous
      by_cases hkind : node.nodeType = ASTNodeType.Class
      · simp [ASTNode.withoutClass, hkind]
      · simp [ASTNode.withoutClass, hkind]
    rw [hsame]

/-- The loop of the flat writer over classes only writes nothing, whatever
the kind it starts with, unless that kind is a function. -/
theorem RustWrapperWriter.writeNodes_classes (nodes : List (ASTNode (Option String)))
    (hall : ∀ node ∈ nodes, node.nodeType = ASTNodeType.Class) :
    ∀ previousNodeType : ASTNodeType, previousNodeType ≠ ASTNodeType.Function →
      RustWrapperWriter.writeNodes previousNodeType nodes = .ok [] := by
  induction nodes with
  | nil =>
    intro previousNodeType hp
    simp [RustWrapperWriter.writeNodes, hp]
  | cons node rest ih =>
    intro previousNodeType hp
    have hkind := hall node (List.mem_cons_self _ _)
    simp only [RustWrapperWriter.writeNodes]
    rw [RustWrapperWriter.writeNode_flatClass previousNodeType node hkind,
      ih (fun n hn => hall n (List.mem_cons_of_mem _ hn)) node.nodeType (by rw [hkind]; decide)]
    simp [hp, bind, Except.bind, pure, Except.pure]

/-- C22: in the flat writer a class contributes no text of its own. For every
declaration list the result, text or error, is the result for the list with
every class replaced by a step that is neither a function nor an enum; for a
class the loop body writes only the line closing the open block when the
previous declaration is a function; and a list of classes only gives the
header alone. -/
theorem RustWrapperWriter.write_class_is_step (POLYGLOT_VERSION timeStr : String)
    (ast : AST (Option String)) :
    RustWrapperWriter.write POLYGLOT_VERSION timeStr
        ⟨ast.language, ast.moduleName, ast.nodes.map ASTNode.withoutClass⟩
      = RustWrapperWriter.write POLYGLOT_VERSION timeStr ast ∧
    (∀ node ∈ ast.nodes.map ASTNode.withoutClass,
      node.nodeType ≠ ASTNodeType.Class ∧
      (node.nodeType = ASTNodeType.Undefined ∨ node ∈ ast.nodes)) ∧
    (∀ (previousNodeType : ASTNodeType) (node : ASTNode (Option String)),
      node.nodeType = ASTNodeType.Class →
      RustWrapperWriter.writeNode previousNodeType node
        = .ok (if previousNodeType = ASTNodeType.Function
            then [Piece.mk Mark.blockClose "\x7d\n\n"] else [])) ∧
    ((∀ node ∈ ast.nodes, node.nodeType = ASTNodeType.Class) →
      RustWrapperWriter.write POLYGLOT_VERSION timeStr ast
        = .ok [Piece.mk Mark.header
            (RustWrapperWriter.header POLYGLOT_VERSION timeStr ast.moduleName)]) := by
  refine ⟨?_, ?_, ?_, ?_⟩
  · simp only [RustWrapperWriter.write]
    rw [RustWrapperWriter.writeNodes_withoutClass]
  · intro node hnode
    obtain ⟨original, horiginal, hmap⟩ := List.mem_map.1 hnode
    subst hmap
    by_cases hkind : original.nodeType = ASTNodeType.Class
    · simp [ASTNode.withoutClass, hkind]
    · refine ⟨?_, Or.inr ?_⟩
      · simp [ASTNode.withoutClass, hkind]
      · simpa [ASTNode.withoutClass, hkind] using horiginal
  · exact fun previousNodeType node hkind =>
      RustWrapperWriter.writeNode_flatClass previousNodeType node hkind
  · intro hall
    simp only [RustWrapperWriter.write]
    rw [RustWrapperWriter.writeNodes_classes ast.nodes hall ASTNodeType.Undefined (by decide)]
    rfl

set_option maxRecDepth 100000 in
/-- C22, at concrete inputs: two classes give the header alone, and in
`add`, `Point`, `add` the class closes the block of the first function, so the
second function opens a block of its own. -/
theorem RustWrapperWriter.write_class_is_step_witness :
    RustWrapperWriter.write "0.1" "Thu Jan  1 00:00:00 1970\n"
        ⟨Language.Cpp, "m", [pointNodeR, pointNodeR]⟩
      = .ok [Piece.mk Mark.header
          (RustWrapperWriter.header "0.1" "Thu Jan  1 00:00:00 1970\n" "m")] ∧
    (RustWrapperWriter.write "0.1" "Thu Jan  1 00:00:00 1970\n"
        ⟨Language.Cpp, "m", [addNodeR, pointNodeR, addNodeR]⟩).map
        (fun out => render (out.drop 1))
      = .ok ("\nextern \x7b\n\t#[link_name = \"_Z3addii\"] pub fn add(a: i32, b: i32) -> i32;\n"
          ++ "\x7d\n\n"
          ++ "\nextern \x7b\n\t#[link_name = \"_Z3addii\"] pub fn add(a: i32, b: i32) -> i32;\n"
          ++ "\x7d\n") :=
  ⟨(RustWrapperWriter.write_class_is_step "0.1" "Thu Jan  1 00:00:00 1970\n"
      ⟨Language.Cpp, "m", [pointNodeR, pointNodeR]⟩).2.2.2 (by decide), by rfl⟩

/-! ### Indentation and the depth in force -/

theorem string_append_empty (s : String) : s ++ "" = s := by
  apply String.ext
  simp [String.data_append]

theorem tabs_zero : tabs 0 = "" := rfl

/-- A text made of `k` tab characters and a content starts with `k` tab
characters more than the content. -/
theorem leadingTabs_tabs_append (k : Nat) (content : String) :
    leadingTabs (tabs k ++ content) = k + leadingTabs content := by
  simp only [leadingTabs, tabs, String.data_append]
  induction k with
  | zero => simp
  | succ n ih =>
    rw [List.replicate_succ, List.cons_append, List.takeWhile_cons_of_pos (by simp),
      List.length_cons, ih]
    omega

theorem indented_nil (k : Nat) : indented k [] = "" := rfl

theorem indented_cons (k : Nat) (content : String) (contents : List String) :
    indented k (content :: contents) = tabs k ++ content ++ indented k contents := by
  simp only [indented, List.map_cons, string_join_cons]

/-- The line of a function at depth `k` is the line at depth 0 with `k` tab
characters in front. -/
theorem DWrapperWriter.writeFunctionString_shift (language : Language) (k : Nat)
    (function : FunctionNode String) (isClassMethod : Bool) :
    DWrapperWriter.writeFunctionString language k function isClassMethod
      = (DWrapperWriter.writeFunctionString language 0 function isClassMethod).map
          (fun content => tabs k ++ content) := by
  simp only [DWrapperWriter.writeFunctionString, bind, Except.bind, pure, Except.pure, ne_eq,
    tabs_zero]
  by_cases hnr : function.isNoreturn = true
  · simp only [hnr, if_true]
    cases hp : DWrapperWriter.writeParams function.parameters "" with
    | error e =>
      cases language <;> by_cases hm : (isClassMethod && !function.isVirtual) = true <;>
        simp [hm, Except.map]
    | ok params =>
      cases language <;> by_cases hm : (isClassMethod && !function.isVirtual) = true <;>
        simp only [hm, Except.map, if_true, if_false, Bool.false_eq_true,
          reduceCtorEq, not_true_eq_false, not_false_eq_true, Except.ok.injEq] <;>
        simp only [String.append_assoc, empty_string_append]
  · simp only [hnr, if_false, Bool.false_eq_true]
    cases hret : DWrapperWriter.getTypeString function.returnType with
    | error e =>
      cases language <;> by_cases hm : (isClassMethod && !function.isVirtual) = true <;>
        simp [hm, Except.map]
    | ok ret =>
      cases hp : DWrapperWriter.writeParams function.parameters "" with
      | error e =>
        cases language <;> by_cases hm : (isClassMethod && !function.isVirtual) = true <;>
          simp [hm, Except.map]
      | ok params =>
        cases language <;> by_cases hm : (isClassMethod && !function.isVirtual) = true <;>
          simp only [hm, Except.map, if_true, if_false, Bool.false_eq_true,
            reduceCtorEq, not_true_eq_false, not_false_eq_true, Except.ok.injEq] <;>
          simp only [String.append_assoc, empty_string_append]

/-- The enumerator loop called at depth `k` writes every enumerator with
`k + 1` tab characters in front. -/
theorem DWrapperWriter.writeEnumerators_indented (k : Nat) (es : List Enumerator) :
    ∀ text : String, DWrapperWriter.writeEnumerators k es = .ok text →
      ∃ contents,
        List.Forall₂ (fun e content => DWrapperWriter.enumeratorContent e = .ok content)
          es contents ∧
        text = indented (k + 1) contents := by
  induction es with
  | nil =>
    intro text h
    simp only [DWrapperWriter.writeEnumerators, Except.ok.injEq] at h
    subst h
    exact ⟨[], List.Forall₂.nil, rfl⟩
  | cons e es ih =>
    intro text h
    simp only [DWrapperWriter.writeEnumerators, bind, Except.bind, pure, Except.pure] at h
    cases hv : e.value with
    | none =>
      simp only [hv] at h
      cases hr : DWrapperWriter.writeEnumerators k es with
      | error err => simp [hr] at h
      | ok restText =>
        simp only [hr, Except.ok.injEq] at h
        subst h
        obtain ⟨contents, hall, hjoin⟩ := ih restText hr
        refine ⟨(e.name ++ ",\n") :: contents, List.Forall₂.cons ?_ hall, ?_⟩
        · simp [DWrapperWriter.enumeratorContent, hv]
        · rw [indented_cons, hjoin]
          simp only [String.append_assoc]
    | some value =>
      simp only [hv] at h
      cases hl : DWrapperWriter.getValueString value with
      | error err => simp [hl] at h
      | ok lit =>
        simp only [hl] at h
        cases hr : DWrapperWriter.writeEnumerators k es with
        | error err => simp [hr] at h
        | ok restText =>
          simp only [hr, Except.ok.injEq] at h
          subst h
          obtain ⟨contents, hall, hjoin⟩ := ih restText hr
          refine ⟨(e.name ++ (" = " ++ lit) ++ ",\n") :: contents,
            List.Forall₂.cons ?_ hall, ?_⟩
          · simp [DWrapperWriter.enumeratorContent, hv, hl, bind, Except.bind, pure,
              Except.pure]
          · rw [indented_cons, hjoin]
            simp only [String.append_assoc]

/-- The constructor loop called at depth `k` writes every constructor with `k`
tab characters in front. -/
theorem DWrapperWriter.writeConstructors_indented (k : Nat) (cs : List (Constructor String)) :
    ∀ text : String, DWrapperWriter.writeConstructors k cs = .ok text →
      ∃ contents,
        List.Forall₂ (fun c content => DWrapperWriter.constructorContent c = .ok content)
          cs contents ∧
        text = indented k contents := by
  induction cs with
  | nil =>
    intro text h
    simp only [DWrapperWriter.writeConstructors, Except.ok.injEq] at h
    subst h
    exact ⟨[], List.Forall₂.nil, rfl⟩
  | cons c cs ih =>
    intro text h
    simp only [DWrapperWriter.writeConstructors, bind, Except.bind, pure, Except.pure] at h
    cases hp : DWrapperWriter.writeParams c.parameters "" with
    | error err => simp [hp] at h
    | ok params =>
      simp only [hp] at h
      cases hr : DWrapperWriter.writeConstructors k cs with
      | error err => simp [hr] at h
      | ok restText =>
        simp only [hr, Except.ok.injEq] at h
        subst h
        obtain ⟨contents, hall, hjoin⟩ := ih restText hr
        refine ⟨("pragma(mangle, \"" ++ c.mangledName ++ "\") this("
          ++ (substr0 params (sizeMinus params 2) ++ ");") ++ "\n") :: contents,
          List.Forall₂.cons ?_ hall, ?_⟩
        · simp [DWrapperWriter.constructorContent, hp, bind, Except.bind, pure, Except.pure]
        · rw [indented_cons, hjoin]
          simp only [String.append_assoc]

/-- The method loop called at depth `k` writes every method with `k` tab
characters in front of its line at depth 0. -/
theorem DWrapperWriter.writeMethods_indented (language : Language) (k : Nat)
    (ms : List (FunctionNode String)) :
    ∀ text : String, DWrapperWriter.writeMethods language k ms = .ok text →
      ∃ contents,
        List.Forall₂ (fun m content =>
          DWrapperWriter.writeFunctionString language 0 m true = .ok content) ms contents ∧
        text = indented k (contents.map fun content => content ++ "\n") := by
  induction ms with
  | nil =>
    intro text h
    simp only [DWrapperWriter.writeMethods, Except.ok.injEq] at h
    subst h
    exact ⟨[], List.Forall₂.nil, rfl⟩
  | cons m ms ih =>
    intro text h
    simp only [DWrapperWriter.writeMethods, bind, Except.bind, pure, Except.pure] at h
    rw [DWrapperWriter.writeFunctionString_shift] at h
    cases hl : DWrapperWriter.writeFunctionString language 0 m true with
    | error err => simp [hl, Except.map] at h
    | ok content =>
      simp only [hl, Except.map] at h
      cases hr : DWrapperWriter.writeMethods language k ms with
      | error err => simp [hr] at h
      | ok restText =>
        simp only [hr, Except.ok.injEq] at h
        subst h
        obtain ⟨contents, hall, hjoin⟩ := ih restText hr
        refine ⟨content :: contents, List.Forall₂.cons hl hall, ?_⟩
        rw [List.map_cons, indented_cons, hjoin]
        simp only [String.append_assoc]

/-- The member loop called at depth `k` writes every member with `k` tab
characters in front. -/
theorem DWrapperWriter.writeMembers_indented (k : Nat) (ms : List (Parameter String)) :
    ∀ text : String, DWrapperWriter.writeMembers k ms = .ok text →
      ∃ contents,
        List.Forall₂ (fun m content => DWrapperWriter.memberContent m = .ok content)
          ms contents ∧
        text = indented k contents := by
  induction ms with
  | nil =>
    intro text h
    simp only [DWrapperWriter.writeMembers, Except.ok.injEq] at h
    subst h
    exact ⟨[], List.Forall₂.nil, rfl⟩
  | cons m ms ih =>
    intro text h
    simp only [DWrapperWriter.writeMembers, bind, Except.bind, pure, Except.pure] at h
    cases ht : DWrapperWriter.getTypeString m.type with
    | error err => simp [ht] at h
    | ok typeString =>
      simp only [ht] at h
      cases hv : m.value with
      | none =>
        simp only [hv] at h
        cases hr : DWrapperWriter.writeMembers k ms with
        | error err => simp [hr] at h
        | ok restText =>
          simp only [hr, Except.ok.injEq] at h
          subst h
          obtain ⟨contents, hall, hjoin⟩ := ih restText hr
          refine ⟨(typeString ++ " " ++ m.name ++ ";\n") :: contents,
            List.Forall₂.cons ?_ hall, ?_⟩
          · simp [DWrapperWriter.memberContent, ht, hv, bind, Except.bind, pure, Except.pure]
          · rw [indented_cons, hjoin]
            simp only [String.append_assoc]
      | some value =>
        simp only [hv] at h
        cases hl : DWrapperWriter.getValueString value with
        | error err => simp [hl] at h
        | ok lit =>
          simp only [hl] at h
          cases hr : DWrapperWriter.writeMembers k ms with
          | error err => simp [hr] at h
          | ok restText =>
            simp only [hr, Except.ok.injEq] at h
            subst h
            obtain ⟨contents, hall, hjoin⟩ := ih restText hr
            refine ⟨(typeString ++ " " ++ m.name ++ " = " ++ lit ++ ";\n") :: contents,
              List.Forall₂.cons ?_ hall, ?_⟩
            · simp [DWrapperWriter.memberContent, ht, hv, hl, bind, Except.bind, pure,
                Except.pure]
            · rw [indented_cons, hjoin]
              simp only [String.append_assoc]

/-- The block of an enum written at depth `k`: the opening lines and the
closing brace carry `k` tab characters, the enumerator loop is called at depth
`k`, and the depth is left as it was. -/
theorem DWrapperWriter.writeNode_enum (language : Language) (k : Nat)
    (node : ASTNode String) (decl : List Piece) (depth1 : Nat)
    (hkind : node.nodeType = ASTNodeType.Enum)
    (h : DWrapperWriter.writeNode language k node = .ok (decl, depth1)) :
    ∃ e enumerators, node.asEnum = some e ∧
      DWrapperWriter.writeEnumerators k e.enumerators = .ok enumerators ∧
      decl = [Piece.mk Mark.enumDecl (tabs k ++ "enum " ++ e.enumName ++ "\n"
        ++ tabs k ++ "\x7b\n" ++ enumerators ++ tabs k ++ "\x7d")] ∧
      depth1 = k := by
  unfold DWrapperWriter.writeNode at h
  rw [if_neg (by rw [hkind]; decide), if_pos hkind] at h
  cases hcast : node.asEnum with
  | none => simp [hcast, throw, throwThe, MonadExceptOf.throw] at h
  | some e =>
    simp only [hcast, bind, Except.bind, pure, Except.pure] at h
    cases he : DWrapperWriter.writeEnumerators k e.enumerators with
    | error err => simp [he] at h
    | ok enumerators =>
      simp only [he, Except.ok.injEq, Prod.mk.injEq] at h
      exact ⟨e, enumerators, rfl, he, h.1.symm, h.2.symm⟩

/-- The block of a class written at depth `k`: the opening lines and the
closing brace carry `k` tab characters, the loops over constructors, methods
and members are called at depth `k + 1`, the destructor line carries `k + 1`
tab characters, and the depth is `k` again afterwards. -/
theorem DWrapperWriter.writeClass_parts (language : Language) (k : Nat)
    (c : ClassNode String) (text : String) (depth1 : Nat)
    (h : DWrapperWriter.writeClass language k c = .ok (text, depth1)) :
    ∃ constructors methods members,
      DWrapperWriter.writeConstructors (k + 1) c.constructors = .ok constructors ∧
      (if c.methods.isEmpty = true then methods = ""
        else ∃ lines, DWrapperWriter.writeMethods language (k + 1) c.methods = .ok lines ∧
          methods = "\n" ++ lines) ∧
      (if c.members.isEmpty = true then members = ""
        else ∃ lines, DWrapperWriter.writeMembers (k + 1) c.members = .ok lines ∧
          members = "\n" ++ lines) ∧
      text = tabs k ++ (if c.type = ClassType.Class then "class " else "struct ") ++ c.name
        ++ "\n" ++ tabs k ++ "\x7b\n" ++ tabs k ++ "public:\n"
        ++ constructors
        ++ (match c.destructor with
            | some destructor => tabs (k + 1) ++ DWrapperWriter.destructorContent destructor
            | none => "")
        ++ methods ++ members ++ tabs k ++ "\x7d" ∧
      depth1 = k := by
  simp only [DWrapperWriter.writeClass, bind, Except.bind, pure, Except.pure,
    Nat.add_sub_cancel] at h
  cases hc : DWrapperWriter.writeConstructors (k + 1) c.constructors with
  | error err =>
    rw [hc] at h
    by_cases ht : c.type = ClassType.Class <;> simp [ht] at h
  | ok constructors =>
    rw [hc] at h
    by_cases hme : c.methods.isEmpty = true
    · by_cases hmb : c.members.isEmpty = true
      · refine ⟨constructors, "", "", rfl, by simp [hme], by simp [hmb], ?_⟩
        cases hd : c.destructor <;> by_cases ht : c.type = ClassType.Class <;>
          simp only [hd, ht, hme, hmb, if_true, if_false, Bool.not_true, Bool.false_eq_true,
            Except.ok.injEq, Prod.mk.injEq] at h <;>
          obtain ⟨h1, h2⟩ := h <;> subst h1 <;> subst h2 <;>
          refine ⟨?_, rfl⟩ <;>
          simp only [ht, if_true, if_false, DWrapperWriter.destructorContent,
            String.append_assoc, string_append_empty, empty_string_append]
      · cases hmem : DWrapperWriter.writeMembers (k + 1) c.members with
        | error err =>
          rw [hmem] at h
          cases hd : c.destructor <;> by_cases ht : c.type = ClassType.Class <;>
            simp [hd, ht, hme, hmb] at h
        | ok memberLines =>
          rw [hmem] at h
          refine ⟨constructors, "", "\n" ++ memberLines, rfl, by simp [hme],
            by simp [hmb], ?_⟩
          cases hd : c.destructor <;> by_cases ht : c.type = ClassType.Class <;>
            simp only [hd, ht, hme, hmb, if_true, if_false, Bool.not_true, Bool.not_false,
              Bool.false_eq_true, Except.ok.injEq, Prod.mk.injEq] at h <;>
            obtain ⟨h1, h2⟩ := h <;> subst h1 <;> subst h2 <;>
            refine ⟨?_, rfl⟩ <;>
            simp only [ht, if_true, if_false, DWrapperWriter.destructorContent,
              String.append_assoc, string_append_empty, empty_string_append]
    · cases hmeth : DWrapperWriter.writeMethods language (k + 1) c.methods with
      | error err =>
        rw [hmeth] at h
        cases hd : c.destructor <;> by_cases ht : c.type = ClassType.Class <;>
          simp [hd, ht, hme] at h
      | ok methodLines =>
        rw [hmeth] at h
        by_cases hmb : c.members.isEmpty = true
        · refine ⟨constructors, "\n" ++ methodLines, "", rfl, by simp [hme],
            by simp [hmb], ?_⟩
          cases hd : c.destructor <;> by_cases ht : c.type = ClassType.Class <;>
            simp only [hd, ht, hme, hmb, if_true, if_false, Bool.not_true, Bool.not_false,
              Bool.false_eq_true, Except.ok.injEq, Prod.mk.injEq] at h <;>
            obtain ⟨h1, h2⟩ := h <;> subst h1 <;> subst h2 <;>
            refine ⟨?_, rfl⟩ <;>
            simp only [ht, if_true, if_false, DWrapperWriter.destructorContent,
              String.append_assoc, string_append_empty, empty_string_append]
        · cases hmem : DWrapperWriter.writeMembers (k + 1) c.members with
          | error err =>
            rw [hmem] at h
            cases hd : c.destructor <;> by_cases ht : c.type = ClassType.Class <;>
              simp [hd, ht, hme, hmb] at h
          | ok memberLines =>
            rw [hmem] at h
            refine ⟨constructors, "\n" ++ methodLines, "\n" ++ memberLines, rfl,
              by simp [hme], by simp [hmb], ?_⟩
            cases hd : c.destructor <;> by_cases ht : c.type = ClassType.Class <;>
              simp only [hd, ht, hme, hmb, if_true, if_false, Bool.not_true, Bool.not_false,
                Bool.false_eq_true, Except.ok.injEq, Prod.mk.injEq] at h <;>
              obtain ⟨h1, h2⟩ := h <;> subst h1 <;> subst h2 <;>
              refine ⟨?_, rfl⟩ <;>
              simp only [ht, if_true, if_false, DWrapperWriter.destructorContent,
                String.append_assoc, string_append_empty, empty_string_append]

/-- The loop over the child namespaces leaves the indentation depth as it
found it. -/
theorem DWrapperWriter.writeChildNamespaces_depth (language : Language)
    (cs : List NamespaceOrganizer) :
    ∀ (depth : Nat) (out : List Piece) (depth1 : Nat),
      DWrapperWriter.writeChildNamespaces language cs depth = .ok (out, depth1) →
      depth1 = depth := by
  induction cs with
  | nil =>
    intro depth out depth1 h
    simp only [DWrapperWriter.writeChildNamespaces, Except.ok.injEq, Prod.mk.injEq] at h
    exact h.2.symm
  | cons c cs ih =>
    intro depth out depth1 h
    obtain ⟨here, depth2, rest, h1, h2, _⟩ :=
      DWrapperWriter.writeChildNamespaces_parts language c cs depth out depth1 h
    have hd1 := (DWrapperWriter.writeFromNamespaceOrganizer_balanced language c _ _ _ h1).1
    have hd2 := ih _ _ _ h2
    omega

/-- The walk over a node of the tree: inside a scope, which is written for
C++ input and a namespace name that is not empty, the scope lines carry as
many tab characters as the depth and the two loops run one level deeper;
otherwise the two loops run at the depth of the node. -/
theorem DWrapperWriter.writeFromNamespaceOrganizer_scope (language : Language)
    (ns : Namespace) (cs : List NamespaceOrganizer) (nodes : List (ASTNode String))
    (depth : Nat) (out : List Piece) (depth1 : Nat)
    (h : DWrapperWriter.writeFromNamespaceOrganizer language (NamespaceOrganizer.mk ns cs nodes)
      depth = .ok (out, depth1)) :
    ∃ decls children,
      if language = Language.Cpp ∧ ns.name ≠ "" then
        DWrapperWriter.writeChildNodes language ASTNodeType.Undefined nodes (depth + 1)
          = .ok (decls, depth + 1) ∧
        DWrapperWriter.writeChildNamespaces language cs (depth + 1)
          = .ok (children, depth + 1) ∧
        out = [Piece.mk Mark.scopeOpen (tabs depth ++ "extern(C++, " ++ ns.name ++ ")\n"
            ++ tabs depth ++ "\x7b\n")]
          ++ decls ++ children ++ [Piece.mk Mark.scopeClose (tabs depth ++ "\x7d\n")]
      else
        DWrapperWriter.writeChildNodes language ASTNodeType.Undefined nodes depth
          = .ok (decls, depth) ∧
        DWrapperWriter.writeChildNamespaces language cs depth = .ok (children, depth) ∧
        out = decls ++ children := by
  rw [DWrapperWriter.writeFromNamespaceOrganizer_mk] at h
  by_cases hs : language = Language.Cpp ∧ ns.name ≠ ""
  · rw [if_pos hs] at h
    cases h1 : DWrapperWriter.writeChildNodes language ASTNodeType.Undefined nodes (depth + 1) with
    | error e => simp [h1, Except.bind] at h
    | ok r1 =>
      obtain ⟨decls, depth2⟩ := r1
      have hd1 := (DWrapperWriter.writeChildNodes_depth language nodes _ _ _ _ h1).1
      subst hd1
      simp only [h1, Except.bind] at h
      cases h2 : DWrapperWriter.writeChildNamespaces language cs (depth + 1) with
      | error e => simp [h2] at h
      | ok r2 =>
        obtain ⟨children, depth3⟩ := r2
        have hd2 := DWrapperWriter.writeChildNamespaces_depth language cs _ _ _ h2
        subst hd2
        simp only [h2, Except.ok.injEq, Prod.mk.injEq, Nat.add_sub_cancel] at h
        refine ⟨decls, children, ?_⟩
        rw [if_pos hs]
        exact ⟨rfl, rfl, h.1.symm⟩
  · rw [if_neg hs] at h
    cases h1 : DWrapperWriter.writeChildNodes language ASTNodeType.Undefined nodes depth with
    | error e => simp [h1, Except.bind] at h
    | ok r1 =>
      obtain ⟨decls, depth2⟩ := r1
      have hd1 := (DWrapperWriter.writeChildNodes_depth language nodes _ _ _ _ h1).1
      subst hd1
      simp only [h1, Except.bind] at h
      cases h2 : DWrapperWriter.writeChildNamespaces language cs depth2 with
      | error e => simp [h2] at h
      | ok r2 =>
        obtain ⟨children, depth3⟩ := r2
        have hd2 := DWrapperWriter.writeChildNamespaces_depth language cs _ _ _ h2
        subst hd2
        simp only [h2, Except.ok.injEq, Prod.mk.injEq] at h
        refine ⟨decls, children, ?_⟩
        rw [if_neg hs]
        exact ⟨rfl, rfl, h.1.symm⟩

/-- The declaration loop writes every declaration of its list at the depth it
is called with. -/
theorem DWrapperWriter.writeChildNodes_each (language : Language)
    (front back : List (ASTNode String)) (node : ASTNode String)
    (previousNodeType : ASTNodeType) (depth : Nat) (pieces : List Piece) (depth1 : Nat)
    (h : DWrapperWriter.writeChildNodes language previousNodeType
      (front ++ node :: back) depth = .ok (pieces, depth1)) :
    ∃ decl, DWrapperWriter.writeNode language depth node = .ok (decl, depth) ∧
      decl <:+: pieces := by
  obtain ⟨previous, tail, h1, ⟨s0, hs0⟩⟩ :=
    DWrapperWriter.writeChildNodes_suffix language front (node :: back)
      previousNodeType depth pieces depth1 h
  obtain ⟨decl, after, hn, _, ht⟩ :=
    DWrapperWriter.writeChildNodes_cons_parts language previous node back
      depth tail depth1 h1
  refine ⟨decl, hn, ⟨s0 ++ (if DWrapperWriter.separatorNeeded node.nodeType previous
      then [Piece.mk Mark.separator "\n"] else []),
    Piece.mk Mark.terminator "\n" :: after, ?_⟩⟩
  rw [← hs0, ht]
  simp

/-- The loop over the child namespaces walks every child at the depth it is
called with. -/
theorem DWrapperWriter.writeChildNamespaces_each (language : Language)
    (cs : List NamespaceOrganizer) :
    ∀ (depth : Nat) (out : List Piece) (depth1 : Nat),
      DWrapperWriter.writeChildNamespaces language cs depth = .ok (out, depth1) →
      ∀ c ∈ cs, ∃ here,
        DWrapperWriter.writeFromNamespaceOrganizer language c depth = .ok (here, depth) ∧
        here <:+: out := by
  induction cs with
  | nil => intro _ _ _ _ c hc; simp at hc
  | cons c0 cs ih =>
    intro depth out depth1 h c hc
    obtain ⟨here, depth2, rest, h1, h2, ho⟩ :=
      DWrapperWriter.writeChildNamespaces_parts language c0 cs depth out depth1 h
    have hd := (DWrapperWriter.writeFromNamespaceOrganizer_balanced language c0 _ _ _ h1).1
    subst hd
    rcases List.mem_cons.1 hc with hc | hc
    · subst hc
      exact ⟨here, h1, ⟨[Piece.mk Mark.childSeparator "\n"], rest, by rw [ho]; simp⟩⟩
    · obtain ⟨hr, h3, h4⟩ := ih _ _ _ h2 c hc
      refine ⟨hr, h3, h4.trans ?_⟩
      rw [ho]
      exact ⟨Piece.mk Mark.childSeparator "\n" :: here, [], by simp⟩

/-- The piece written for a class declaration is the block of the class,
written at the depth of the declaration. -/
theorem DWrapperWriter.writeNode_class (language : Language) (k : Nat)
    (node : ASTNode String) (decl : List Piece) (depth1 : Nat)
    (hkind : node.nodeType = ASTNodeType.Class)
    (h : DWrapperWriter.writeNode language k node = .ok (decl, depth1)) :
    ∃ c text, node.asClass = some c ∧
      DWrapperWriter.writeClass language k c = .ok (text, k) ∧
      decl = [Piece.mk Mark.classDecl text] := by
  have hd := (DWrapperWriter.writeNode_depth language k node decl depth1 h).symm
  subst hd
  unfold DWrapperWriter.writeNode at h
  rw [if_neg (by rw [hkind]; decide), if_neg (by rw [hkind]; decide), if_pos hkind] at h
  cases hcast : node.asClass with
  | none => simp [hcast, throw, throwThe, MonadExceptOf.throw] at h
  | some c =>
    simp only [hcast, bind, Except.bind, pure, Except.pure] at h
    cases hc : DWrapperWriter.writeClass language k c with
    | error err => simp [hc] at h
    | ok r =>
      obtain ⟨text, depth2⟩ := r
      simp only [hc, Except.ok.injEq, Prod.mk.injEq] at h
      obtain ⟨h1, h2⟩ := h
      subst h2
      exact ⟨c, text, rfl, hc, h1.symm⟩

set_option maxRecDepth 100000 in
/-- C21, as stated, fails: in the walk over the tree of `Color` inside `gfx`,
C++ input, the enum is written at depth 1, the depth is 1 before and after
it, and the enumerator loop called at depth 1 writes its lines with two tab
characters, one more than the depth in force. -/
theorem DWrapperWriter.enumerator_indentation_counterexample :
    DWrapperWriter.writeFromNamespaceOrganizer Language.Cpp
        (DWrapperWriter.organize NamespaceOrganizer.empty [colorNode]) 0
      = .ok ([⟨Mark.childSeparator, "\n"⟩,
              ⟨Mark.scopeOpen, "extern(C++, gfx)\n\x7b\n"⟩,
              ⟨Mark.separator, "\n"⟩,
              ⟨Mark.enumDecl, "\tenum Color\n\t\x7b\n\t\tRed = 0,\n\t\tGreen = 1,\n\t\x7d"⟩,
              ⟨Mark.terminator, "\n"⟩,
              ⟨Mark.scopeClose, "\x7d\n"⟩], 0) ∧
    DWrapperWriter.writeNode Language.Cpp 1 colorNode
      = .ok ([⟨Mark.enumDecl, "\tenum Color\n\t\x7b\n\t\tRed = 0,\n\t\tGreen = 1,\n\t\x7d"⟩], 1) ∧
    DWrapperWriter.writeEnumerators 1 colorEnum.enumerators
      = .ok "\t\tRed = 0,\n\t\tGreen = 1,\n" ∧
    leadingTabs "\t\tRed = 0,\n" = 2 ∧
    leadingTabs "\tenum Color\n" = 1 := by
  refine ⟨rfl, rfl, rfl, by decide, by decide⟩

/-- C21, amended: for every namespace tree on which the walk completes the
indentation depth after the walk equals the depth before it, and so it does
after every declaration and every class block. The depth in force is passed
on as follows: the scope lines of a namespace are written at the depth of the
walk and the declarations and child namespaces inside the scope one level
deeper (at the same depth when no scope is written), every declaration of a
list and every child namespace at the depth of its loop, the loops over the
constructors, methods and members of a class one level deeper than the
class. Every line that carries text is written with as many tab characters
in front as the depth in force: the scope lines, the line of a function, the
opening and closing lines of an enum and of a class, the lines of
constructors, destructor, methods and members. The lines of the enumerators
are the exception: the enumerator loop runs at the depth of the enum and
writes each line with one tab character more than that depth. -/
theorem DWrapperWriter.walk_indentation (language : Language) :
    (∀ (t : NamespaceOrganizer) (depth : Nat) (out : List Piece) (depth1 : Nat),
      DWrapperWriter.writeFromNamespaceOrganizer language t depth = .ok (out, depth1) →
      depth1 = depth) ∧
    (∀ (k : Nat) (node : ASTNode String) (decl : List Piece) (depth1 : Nat),
      DWrapperWriter.writeNode language k node = .ok (decl, depth1) → depth1 = k) ∧
    (∀ (ns : Namespace) (cs : List NamespaceOrganizer) (nodes : List (ASTNode String))
      (depth : Nat) (out : List Piece) (depth1 : Nat),
      DWrapperWriter.writeFromNamespaceOrganizer language (NamespaceOrganizer.mk ns cs nodes)
        depth = .ok (out, depth1) →
      ∃ decls children,
        if language = Language.Cpp ∧ ns.name ≠ "" then
          DWrapperWriter.writeChildNodes language ASTNodeType.Undefined nodes (depth + 1)
            = .ok (decls, depth + 1) ∧
          DWrapperWriter.writeChildNamespaces language cs (depth + 1)
            = .ok (children, depth + 1) ∧
          out = [Piece.mk Mark.scopeOpen (tabs depth ++ "extern(C++, " ++ ns.name ++ ")\n"
              ++ tabs depth ++ "\x7b\n")]
            ++ decls ++ children ++ [Piece.mk Mark.scopeClose (tabs depth ++ "\x7d\n")]
        else
          DWrapperWriter.writeChildNodes language ASTNodeType.Undefined nodes depth
            = .ok (decls, depth) ∧
          DWrapperWriter.writeChildNamespaces language cs depth = .ok (children, depth) ∧
          out = decls ++ children) ∧
    (∀ (front back : List (ASTNode String)) (node : ASTNode String)
      (previousNodeType : ASTNodeType) (depth : Nat) (pieces : List Piece) (depth1 : Nat),
      DWrapperWriter.writeChildNodes language previousNodeType (front ++ node :: back) depth
        = .ok (pieces, depth1) →
      ∃ decl, DWrapperWriter.writeNode language depth node = .ok (decl, depth) ∧
        decl <:+: pieces) ∧
    (∀ (cs : List NamespaceOrganizer) (depth : Nat) (out : List Piece) (depth1 : Nat),
      DWrapperWriter.writeChildNamespaces language cs depth = .ok (out, depth1) →
      ∀ c ∈ cs, ∃ here,
        DWrapperWriter.writeFromNamespaceOrganizer language c depth = .ok (here, depth) ∧
        here <:+: out) ∧
    (∀ (k : Nat) (node : ASTNode String) (decl : List Piece) (depth1 : Nat),
      node.nodeType = ASTNodeType.Function →
      DWrapperWriter.writeNode language k node = .ok (decl, depth1) →
      ∃ function content, node.asFunction = some function ∧
        DWrapperWriter.writeFunctionString language 0 function false = .ok content ∧
        decl = [Piece.mk Mark.function (tabs k ++ content)]) ∧
    (∀ (k : Nat) (node : ASTNode String) (decl : List Piece) (depth1 : Nat),
      node.nodeType = ASTNodeType.Enum →
      DWrapperWriter.writeNode language k node = .ok (decl, depth1) →
      ∃ e enumerators, node.asEnum = some e ∧
        DWrapperWriter.writeEnumerators k e.enumerators = .ok enumerators ∧
        decl = [Piece.mk Mark.enumDecl (tabs k ++ "enum " ++ e.enumName ++ "\n"
          ++ tabs k ++ "\x7b\n" ++ enumerators ++ tabs k ++ "\x7d")]) ∧
    (∀ (k : Nat) (es : List Enumerator) (text : String),
      DWrapperWriter.writeEnumerators k es = .ok text →
      ∃ contents,
        List.Forall₂ (fun e content => DWrapperWriter.enumeratorContent e = .ok content)
          es contents ∧
        text = indented (k + 1) contents) ∧
    (∀ (k : Nat) (node : ASTNode String) (decl : List Piece) (depth1 : Nat),
      node.nodeType = ASTNodeType.Class →
      DWrapperWriter.writeNode language k node = .ok (decl, depth1) →
      ∃ c constructors methods members, node.asClass = some c ∧
        DWrapperWriter.writeConstructors (k + 1) c.constructors = .ok constructors ∧
        (if c.methods.isEmpty = true then methods = ""
          else ∃ lines, DWrapperWriter.writeMethods language (k + 1) c.methods = .ok lines ∧
            methods = "\n" ++ lines) ∧
        (if c.members.isEmpty = true then members = ""
          else ∃ lines, DWrapperWriter.writeMembers (k + 1) c.members = .ok lines ∧
            members = "\n" ++ lines) ∧
        decl = [Piece.mk Mark.classDecl
          (tabs k ++ (if c.type = ClassType.Class then "class " else "struct ") ++ c.name
            ++ "\n" ++ tabs k ++ "\x7b\n" ++ tabs k ++ "public:\n"
            ++ constructors
            ++ (match c.destructor with
                | some destructor =>
                  tabs (k + 1) ++ DWrapperWriter.destructorContent destructor
                | none => "")
            ++ methods ++ members ++ tabs k ++ "\x7d")]) ∧
    (∀ (k : Nat) (cs : List (Constructor String)) (text : String),
      DWrapperWriter.writeConstructors k cs = .ok text →
      ∃ contents,
        List.Forall₂ (fun c content => DWrapperWriter.constructorContent c = .ok content)
          cs contents ∧
        text = indented k contents) ∧
    (∀ (k : Nat) (ms : List (FunctionNode String)) (text : String),
      DWrapperWriter.writeMethods language k ms = .ok text →
      ∃ contents,
        List.Forall₂ (fun m content =>
          DWrapperWriter.writeFunctionString language 0 m true = .ok content) ms contents ∧
        text = indented k (contents.map fun content => content ++ "\n")) ∧
    (∀ (k : Nat) (ms : List (Parameter String)) (text : String),
      DWrapperWriter.writeMembers k ms = .ok text →
      ∃ contents,
        List.Forall₂ (fun m content => DWrapperWriter.memberContent m = .ok content)
          ms contents ∧
        text = indented k contents) ∧
    (∀ (k : Nat) (content : String),
      leadingTabs (tabs k ++ content) = k + leadingTabs content) := by
  refine ⟨?_, ?_, ?_, ?_, ?_, ?_, ?_, ?_, ?_, ?_, ?_, ?_, ?_⟩
  · intro t depth out depth1 h
    exact (DWrapperWriter.writeFromNamespaceOrganizer_balanced language t depth out depth1 h).1
  · exact DWrapperWriter.writeNode_depth language
  · exact DWrapperWriter.writeFromNamespaceOrganizer_scope language
  · intro front back node previousNodeType depth pieces depth1 h
    exact DWrapperWriter.writeChildNodes_each language front back node previousNodeType depth
      pieces depth1 h
  · exact DWrapperWriter.writeChildNamespaces_each language
  · intro k node decl depth1 hkind h
    obtain ⟨function, line, hf, hl, hd⟩ :=
      DWrapperWriter.writeNode_function language k node decl depth1 hkind h
    rw [DWrapperWriter.writeFunctionString_shift] at hl
    cases h0 : DWrapperWriter.writeFunctionString language 0 function false with
    | error err => simp [h0, Except.map] at hl
    | ok content =>
      simp only [h0, Except.map, Except.ok.injEq] at hl
      subst hl
      exact ⟨function, content, hf, h0, hd⟩
  · intro k node decl depth1 hkind h
    obtain ⟨e, enumerators, h1, h2, h3, _⟩ :=
      DWrapperWriter.writeNode_enum language k node decl depth1 hkind h
    exact ⟨e, enumerators, h1, h2, h3⟩
  · exact DWrapperWriter.writeEnumerators_indented
  · intro k node decl depth1 hkind h
    obtain ⟨c, text, hc, hw, hd⟩ :=
      DWrapperWriter.writeNode_class language k node decl depth1 hkind h
    obtain ⟨constructors, methods, members, h1, h2, h3, h4, _⟩ :=
      DWrapperWriter.writeClass_parts language k c text k hw
    subst h4
    exact ⟨c, constructors, methods, members, hc, h1, h2, h3, hd⟩
  · exact DWrapperWriter.writeConstructors_indented
  · exact DWrapperWriter.writeMethods_indented language
  · exact DWrapperWriter.writeMembers_indented
  · exact leadingTabs_tabs_append

set_option maxRecDepth 100000 in
/-- C21 amended, at a concrete input: the class `Point` written at depth 1
leaves the depth at 1, has its opening and closing lines at one tab character
and its constructor, destructor, method and member, written by loops called
at depth 2, at two. -/
theorem DWrapperWriter.walk_indentation_witness :
    DWrapperWriter.writeNode Language.Cpp 1 pointNode
      = .ok ([Piece.mk Mark.classDecl
          ("\tclass Point\n\t\x7b\n\tpublic:\n"
            ++ "\t\tpragma(mangle, \"_ZN5PointC1Ev\") this();\n"
            ++ "\t\tpragma(mangle, \"_ZN5PointD1Ev\") ~this();\n"
            ++ "\n\t\tfinal int norm();\n"
            ++ "\n\t\tint x;\n"
            ++ "\t\x7d")], 1) ∧
    ∃ c constructors methods members, pointNode.asClass = some c ∧
      DWrapperWriter.writeConstructors (1 + 1) c.constructors = .ok constructors ∧
      (if c.methods.isEmpty = true then methods = ""
        else ∃ lines, DWrapperWriter.writeMethods Language.Cpp (1 + 1) c.methods = .ok lines ∧
          methods = "\n" ++ lines) ∧
      (if c.members.isEmpty = true then members = ""
        else ∃ lines, DWrapperWriter.writeMembers (1 + 1) c.members = .ok lines ∧
          members = "\n" ++ lines) ∧
      [Piece.mk Mark.classDecl
          ("\tclass Point\n\t\x7b\n\tpublic:\n"
            ++ "\t\tpragma(mangle, \"_ZN5PointC1Ev\") this();\n"
            ++ "\t\tpragma(mangle, \"_ZN5PointD1Ev\") ~this();\n"
            ++ "\n\t\tfinal int norm();\n"
            ++ "\n\t\tint x;\n"
            ++ "\t\x7d")]
        = [Piece.mk Mark.classDecl
          (tabs 1 ++ (if c.type = ClassType.Class then "class " else "struct ") ++ c.name
            ++ "\n" ++ tabs 1 ++ "\x7b\n" ++ tabs 1 ++ "public:\n"
            ++ constructors
            ++ (match c.destructor with
                | some destructor =>
                  tabs (1 + 1) ++ DWrapperWriter.destructorContent destructor
                | none => "")
            ++ methods ++ members ++ tabs 1 ++ "\x7d")] :=
  ⟨rfl, (DWrapperWriter.walk_indentation Language.Cpp).2.2.2.2.2.2.2.2.1 1 pointNode
    [Piece.mk Mark.classDecl
          ("\tclass Point\n\t\x7b\n\tpublic:\n"
            ++ "\t\tpragma(mangle, \"_ZN5PointC1Ev\") this();\n"
            ++ "\t\tpragma(mangle, \"_ZN5PointD1Ev\") ~this();\n"
            ++ "\n\t\tfinal int norm();\n"
            ++ "\n\t\tint x;\n"
            ++ "\t\x7d")] 1 rfl rfl⟩

/-! ### The declaration text inside and outside the linkage blocks -/

/-- The enumerator loop of the flat writer writes the enumerator lines, in
order. -/
theorem RustWrapperWriter.writeEnumerators_flatLines (es : List Enumerator) :
    RustWrapperWriter.writeEnumerators es
      = (RustWrapperWriter.enumeratorLines es).map String.join := by
  induction es with
  | nil => rfl
  | cons e es ih =>
    simp only [RustWrapperWriter.writeEnumerators, RustWrapperWriter.enumeratorLines,
      RustWrapperWriter.enumeratorLine, bind, Except.bind, pure, Except.pure, ih]
    cases hv : e.value with
    | none =>
      cases hr : RustWrapperWriter.enumeratorLines es with
      | error err => simp [hr, Except.map]
      | ok lines => simp only [hr, Except.map, string_join_cons]
    | some value =>
      cases hl : RustWrapperWriter.getValueString value with
      | error err => simp [hl, Except.map]
      | ok lit =>
        cases hr : RustWrapperWriter.enumeratorLines es with
        | error err => simp [hl, hr, Except.map]
        | ok lines =>
          simp only [hl, hr, Except.map, string_join_cons, String.append_assoc]

/-- One round of the flat writer's loop writes the line that opens or closes
a block, when one is due, and then the declaration text of the node. -/
theorem RustWrapperWriter.writeNode_declaration (previousNodeType : ASTNodeType)
    (node : ASTNode (Option String)) :
    RustWrapperWriter.writeNode previousNodeType node
      = (RustWrapperWriter.declaration node).map
          (fun decl => RustWrapperWriter.bracket previousNodeType node.nodeType ++ decl) := by
  unfold RustWrapperWriter.writeNode RustWrapperWriter.declaration RustWrapperWriter.bracket
  by_cases hf : node.nodeType = ASTNodeType.Function
  · simp only [hf, if_true]
    cases hcast : node.asFunction with
    | none => simp [throw, throwThe, MonadExceptOf.throw, Except.map]
    | some function =>
      simp only [RustWrapperWriter.functionLine, bind, Except.bind, pure, Except.pure]
      cases hp : RustWrapperWriter.writeParams function.parameters "" with
      | error e => simp [Except.map]
      | ok params =>
        by_cases hv : function.returnType.baseType = Type_.Void
        · by_cases hprev : previousNodeType = ASTNodeType.Function <;>
            simp only [hv, hprev, ne_eq, not_true_eq_false, not_false_eq_true, if_true,
              if_false, Except.map, List.nil_append, List.cons_append, Except.ok.injEq,
              List.cons.injEq, Piece.mk.injEq, true_and, and_true, String.append_assoc,
              empty_string_append]
        · cases hr : RustWrapperWriter.getTypeString function.returnType with
          | error e => simp [hv, Except.map]
          | ok ret =>
            by_cases hprev : previousNodeType = ASTNodeType.Function <;>
              simp only [hv, hprev, ne_eq, not_true_eq_false, not_false_eq_true, if_true,
                if_false, Except.map, List.nil_append, List.cons_append, Except.ok.injEq,
                List.cons.injEq, Piece.mk.injEq, true_and, and_true, String.append_assoc]
  · simp only [hf, if_false]
    by_cases he : node.nodeType = ASTNodeType.Enum
    · simp only [he, if_true]
      cases hcast : node.asEnum with
      | none => simp [throw, throwThe, MonadExceptOf.throw, Except.map, bind, Except.bind]
      | some e =>
        simp only [RustWrapperWriter.enumBlock, RustWrapperWriter.writeEnumerators_flatLines,
          bind, Except.bind, pure, Except.pure]
        cases hl : RustWrapperWriter.enumeratorLines e.enumerators with
        | error err => simp [Except.map]
        | ok lines =>
          by_cases hprev : previousNodeType = ASTNodeType.Function <;>
            simp only [hprev, if_true, if_false, Except.map, List.nil_append,
              List.cons_append, String.append_assoc]
    · by_cases hprev : previousNodeType = ASTNodeType.Function <;>
        simp [he, hprev, Except.map, bind, Except.bind, pure, Except.pure]

/-- Every member of the first of two lists related member by member has a
related member in the second. -/
theorem forall₂_exists_of_mem {α β : Type} {R : α → β → Prop} {xs : List α} {ys : List β}
    (h : List.Forall₂ R xs ys) : ∀ x ∈ xs, ∃ y, y ∈ ys ∧ R x y := by
  induction h with
  | nil => intro x hx; simp at hx
  | cons hr _ ih =>
    intro x hx
    rcases List.mem_cons.1 hx with hx | hx
    · subst hx
      exact ⟨_, List.mem_cons_self _ _, hr⟩
    · obtain ⟨y, hy, hxy⟩ := ih x hx
      exact ⟨y, List.mem_cons_of_mem _ hy, hxy⟩

/-- The lines that open and close blocks are not declaration text. -/
theorem RustWrapperWriter.filter_bracket (previousNodeType nodeType : ASTNodeType) :
    (RustWrapperWriter.bracket previousNodeType nodeType).filter Piece.isDeclaration = [] := by
  unfold RustWrapperWriter.bracket
  by_cases hf : nodeType = ASTNodeType.Function <;>
    by_cases hprev : previousNodeType = ASTNodeType.Function <;>
    simp [hf, hprev, Piece.isDeclaration]

/-- The declaration text of a node is declaration text. -/
theorem RustWrapperWriter.filter_declaration (node : ASTNode (Option String))
    (decl : List Piece) (h : RustWrapperWriter.declaration node = .ok decl) :
    decl.filter Piece.isDeclaration = decl := by
  unfold RustWrapperWriter.declaration at h
  by_cases hf : node.nodeType = ASTNodeType.Function
  · simp only [hf, if_true] at h
    cases hcast : node.asFunction with
    | none => simp [hcast] at h
    | some function =>
      simp only [hcast, bind, Except.bind, pure, Except.pure] at h
      cases hl : RustWrapperWriter.functionLine function with
      | error e => simp [hl] at h
      | ok line =>
        simp only [hl, Except.ok.injEq] at h
        subst h
        simp [Piece.isDeclaration]
  · simp only [hf, if_false] at h
    by_cases he : node.nodeType = ASTNodeType.Enum
    · simp only [he, if_true] at h
      cases hcast : node.asEnum with
      | none => simp [hcast] at h
      | some e =>
        simp only [hcast, bind, Except.bind, pure, Except.pure] at h
        cases hl : RustWrapperWriter.enumBlock e with
        | error err => simp [hl] at h
        | ok block =>
          simp only [hl, Except.ok.injEq] at h
          subst h
          simp [Piece.isDeclaration]
    · simp only [he, if_false, Except.ok.injEq] at h
      subst h
      rfl

/-- The declaration text in what the loop of the flat writer returns is the
declaration text of the nodes of the input, in input order. -/
theorem RustWrapperWriter.writeNodes_declarations (nodes : List (ASTNode (Option String))) :
    ∀ (previousNodeType : ASTNodeType) (body : List Piece),
      RustWrapperWriter.writeNodes previousNodeType nodes = .ok body →
      ∃ decls,
        List.Forall₂ (fun node decl => RustWrapperWriter.declaration node = .ok decl)
          nodes decls ∧
        body.filter Piece.isDeclaration = decls.flatten := by
  induction nodes with
  | nil =>
    intro previousNodeType body h
    simp only [RustWrapperWriter.writeNodes, Except.ok.injEq] at h
    subst h
    refine ⟨[], List.Forall₂.nil, ?_⟩
    by_cases hprev : previousNodeType = ASTNodeType.Function <;>
      simp [hprev, Piece.isDeclaration]
  | cons node rest ih =>
    intro previousNodeType body h
    simp only [RustWrapperWriter.writeNodes, bind, Except.bind, pure, Except.pure] at h
    rw [RustWrapperWriter.writeNode_declaration] at h
    cases hd : RustWrapperWriter.declaration node with
    | error e => simp [hd, Except.map] at h
    | ok decl =>
      simp only [hd, Except.map] at h
      cases hr : RustWrapperWriter.writeNodes node.nodeType rest with
      | error e => simp [hr] at h
      | ok after =>
        simp only [hr, Except.ok.injEq] at h
        subst h
        obtain ⟨decls, hall, hfilter⟩ := ih _ _ hr
        refine ⟨decl :: decls, List.Forall₂.cons hd hall, ?_⟩
        rw [List.filter_append, List.filter_append, RustWrapperWriter.filter_bracket,
          RustWrapperWriter.filter_declaration node decl hd, hfilter]
        simp

/-- C12: in the output of the flat writer every function line stands inside
an open linkage block and every enum block outside one, openings and closings
match and no block is left open at the end; the declaration text of the
output is, in input order, the line of every function and the block of every
enum of the input. For an input of two functions followed by an enum the
stream is: the header, one opening, the lines of the two functions next to
each other, one closing, the block of the enum. -/
theorem RustWrapperWriter.write_blocksWellFormed (POLYGLOT_VERSION timeStr : String)
    (ast : AST (Option String)) (out : List Piece)
    (h : RustWrapperWriter.write POLYGLOT_VERSION timeStr ast = .ok out) :
    blocksWellFormed false (out.map Piece.mark) = true ∧
    (∃ decls,
      List.Forall₂ (fun node decl => RustWrapperWriter.declaration node = .ok decl)
        ast.nodes decls ∧
      out.filter Piece.isDeclaration = decls.flatten) ∧
    (∀ node ∈ ast.nodes, ∀ function, node.nodeType = ASTNodeType.Function →
      node.asFunction = some function →
      ∃ line, RustWrapperWriter.functionLine function = .ok line ∧
        Piece.mk Mark.function line ∈ out) ∧
    (∀ node ∈ ast.nodes, ∀ e, node.nodeType = ASTNodeType.Enum → node.asEnum = some e →
      ∃ block, RustWrapperWriter.enumBlock e = .ok block ∧
        Piece.mk Mark.enumDecl block ∈ out) ∧
    (∀ (f1 f2 : FunctionNode (Option String)) (e : EnumNode)
      (ns1 ns2 ns3 : Option Namespace),
      ast.nodes = [⟨ASTNodeType.Function, ns1, NodeData.function f1⟩,
                   ⟨ASTNodeType.Function, ns2, NodeData.function f2⟩,
                   ⟨ASTNodeType.Enum, ns3, NodeData.enum e⟩] →
      ∃ line1 line2 block,
        RustWrapperWriter.functionLine f1 = .ok line1 ∧
        RustWrapperWriter.functionLine f2 = .ok line2 ∧
        RustWrapperWriter.enumBlock e = .ok block ∧
        out = [⟨Mark.header, RustWrapperWriter.header POLYGLOT_VERSION timeStr ast.moduleName⟩,
               ⟨Mark.blockOpen, "\nextern \x7b\n"⟩, ⟨Mark.function, line1⟩,
               ⟨Mark.function, line2⟩, ⟨Mark.blockClose, "\x7d\n\n"⟩,
               ⟨Mark.enumDecl, block⟩]) := by
  simp only [RustWrapperWriter.write, bind, Except.bind, pure, Except.pure] at h
  cases hb : RustWrapperWriter.writeNodes ASTNodeType.Undefined ast.nodes with
  | error e => simp [hb] at h
  | ok body =>
    simp only [hb, Except.ok.injEq] at h
    subst h
    obtain ⟨decls, hall, hfilter⟩ :=
      RustWrapperWriter.writeNodes_declarations ast.nodes ASTNodeType.Undefined body hb
    have hmem : ∀ node ∈ ast.nodes, ∃ decl, RustWrapperWriter.declaration node = .ok decl ∧
        ∀ piece ∈ decl, piece ∈ body := by
      intro node hnode
      obtain ⟨decl, hdecl, hd⟩ := forall₂_exists_of_mem hall node hnode
      refine ⟨decl, hd, ?_⟩
      intro piece hpiece
      have : piece ∈ decls.flatten := List.mem_flatten.2 ⟨decl, hdecl, hpiece⟩
      rw [← hfilter] at this
      exact (List.mem_filter.1 this).1
    refine ⟨?_, ⟨decls, hall, ?_⟩, ?_, ?_, ?_⟩
    · have := RustWrapperWriter.writeNodes_blocksWellFormed _ _ _ hb
      simpa [blocksWellFormed] using this
    · rw [List.filter_cons_of_neg (by simp [Piece.isDeclaration]), hfilter]
    · intro node hnode function hkind hcast
      obtain ⟨decl, hd, hin⟩ := hmem node hnode
      unfold RustWrapperWriter.declaration at hd
      simp only [hkind, if_true, hcast, bind, Except.bind, pure, Except.pure] at hd
      cases hl : RustWrapperWriter.functionLine function with
      | error err => simp [hl] at hd
      | ok line =>
        simp only [hl, Except.ok.injEq] at hd
        subst hd
        exact ⟨line, rfl, List.mem_cons_of_mem _ (hin _ (List.mem_singleton.2 rfl))⟩
    · intro node hnode e hkind hcast
      obtain ⟨decl, hd, hin⟩ := hmem node hnode
      unfold RustWrapperWriter.declaration at hd
      rw [if_neg (by rw [hkind]; decide), if_pos hkind] at hd
      simp only [hcast, bind, Except.bind, pure, Except.pure] at hd
      cases hl : RustWrapperWriter.enumBlock e with
      | error err => simp [hl] at hd
      | ok block =>
        simp only [hl, Except.ok.injEq] at hd
        subst hd
        exact ⟨block, rfl, List.mem_cons_of_mem _ (hin _ (List.mem_singleton.2 rfl))⟩
    · intro f1 f2 e ns1 ns2 ns3 hnodes
      rw [hnodes] at hb
      simp only [RustWrapperWriter.writeNodes, RustWrapperWriter.writeNode_declaration,
        bind, Except.bind, pure, Except.pure] at hb
      simp only [RustWrapperWriter.declaration, ASTNode.asFunction, ASTNode.asEnum,
        RustWrapperWriter.bracket, if_true, if_false, reduceCtorEq, bind, Except.bind, pure,
        Except.pure] at hb
      cases h1 : RustWrapperWriter.functionLine f1 with
      | error err => simp [h1, Except.map] at hb
      | ok line1 =>
        cases h2 : RustWrapperWriter.functionLine f2 with
        | error err => simp [h1, h2, Except.map] at hb
        | ok line2 =>
          cases h3 : RustWrapperWriter.enumBlock e with
          | error err => simp [h1, h2, h3, Except.map] at hb
          | ok block =>
            simp only [h1, h2, h3, Except.map, Except.ok.injEq] at hb
            refine ⟨line1, line2, block, rfl, rfl, rfl, ?_⟩
            rw [← hb]
            simp

set_option maxRecDepth 100000 in
/-- C12, at the input of the scenario: `add`, `get`, then the enum `Color`.
The stream is the header, one opening, the line of `add`, the line of `get`,
one closing and the block of `Color`. -/
theorem RustWrapperWriter.write_blocksWellFormed_witness :
    RustWrapperWriter.write "0.1" "Thu Jan  1 00:00:00 1970\n"
        ⟨Language.Cpp, "m",
          [⟨ASTNodeType.Function, none, NodeData.function addFunctionR⟩,
           ⟨ASTNodeType.Function, none, NodeData.function getFunction⟩,
           ⟨ASTNodeType.Enum, none, NodeData.enum colorEnum⟩]⟩
      = .ok [Piece.mk Mark.header (RustWrapperWriter.header "0.1" "Thu Jan  1 00:00:00 1970\n" "m"),
          Piece.mk Mark.blockOpen "\nextern \x7b\n",
          Piece.mk Mark.function
            "\t#[link_name = \"_Z3addii\"] pub fn add(a: i32, b: i32) -> i32;\n",
          Piece.mk Mark.function "\t#[link_name = \"_Z3getv\"] pub fn get();\n",
          Piece.mk Mark.blockClose "\x7d\n\n",
          Piece.mk Mark.enumDecl
            "#[repr(C)]\npub enum Color\n\x7b\n\tRed = 0,\n\tGreen = 1,\n\x7d\n"] ∧
    ∃ line1 line2 block,
      RustWrapperWriter.functionLine addFunctionR = .ok line1 ∧
      RustWrapperWriter.functionLine getFunction = .ok line2 ∧
      RustWrapperWriter.enumBlock colorEnum = .ok block ∧
      [Piece.mk Mark.header (RustWrapperWriter.header "0.1" "Thu Jan  1 00:00:00 1970\n" "m"),
        Piece.mk Mark.blockOpen "\nextern \x7b\n",
        Piece.mk Mark.function
          "\t#[link_name = \"_Z3addii\"] pub fn add(a: i32, b: i32) -> i32;\n",
        Piece.mk Mark.function "\t#[link_name = \"_Z3getv\"] pub fn get();\n",
        Piece.mk Mark.blockClose "\x7d\n\n",
        Piece.mk Mark.enumDecl
          "#[repr(C)]\npub enum Color\n\x7b\n\tRed = 0,\n\tGreen = 1,\n\x7d\n"]
      = [Piece.mk Mark.header (RustWrapperWriter.header "0.1" "Thu Jan  1 00:00:00 1970\n" "m"),
          Piece.mk Mark.blockOpen "\nextern \x7b\n", Piece.mk Mark.function line1,
          Piece.mk Mark.function line2, Piece.mk Mark.blockClose "\x7d\n\n",
          Piece.mk Mark.enumDecl block] :=
  ⟨rfl, (RustWrapperWriter.write_blocksWellFormed "0.1" "Thu Jan  1 00:00:00 1970\n"
    ⟨Language.Cpp, "m",
      [⟨ASTNodeType.Function, none, NodeData.function addFunctionR⟩,
       ⟨ASTNodeType.Function, none, NodeData.function getFunction⟩,
       ⟨ASTNodeType.Enum, none, NodeData.enum colorEnum⟩]⟩
    [Piece.mk Mark.header (RustWrapperWriter.header "0.1" "Thu Jan  1 00:00:00 1970\n" "m"),
      Piece.mk Mark.blockOpen "\nextern \x7b\n",
      Piece.mk Mark.function
        "\t#[link_name = \"_Z3addii\"] pub fn add(a: i32, b: i32) -> i32;\n",
      Piece.mk Mark.function "\t#[link_name = \"_Z3getv\"] pub fn get();\n",
      Piece.mk Mark.blockClose "\x7d\n\n",
      Piece.mk Mark.enumDecl
        "#[repr(C)]\npub enum Color\n\x7b\n\tRed = 0,\n\tGreen = 1,\n\x7d\n"]
    rfl).2.2.2.2 addFunctionR getFunction colorEnum none none none rfl⟩

end polyglot
